import Mathlib

/-!
Shallow embedding of the memory-allocation / process-scheduling simulator
(`simulador.py`): fixed memory partitions with Best-Fit allocation, SRTF
scheduling, and the per-tick simulation engine.

Modelling conventions:
* Python objects (`Process`, `Partition`) are records stored in lists inside
  the simulator state; the engine's queues hold process ids and the partition
  table is keyed by partition ids.  In-place mutation of a shared object is
  modelled by rewriting the record with the given id in the store
  (`updateProc` / `updatePart`).  This matches the Python object graph as long
  as ids are unique, which the data model requires (`id` unique, immutable).
* Python `int` fields that can go below zero (`remaining_time`, the statistics
  fields) are `Int`; fields that the program never makes negative (sizes,
  ids, the clock) are `Nat`.  The only subtraction on `Nat` values,
  `size - process.size` in `Partition.assign_process` and `find_best_fit`, is
  guarded by `process.size ≤ size` in the source, so `Nat` subtraction agrees
  with Python there.
* `float('inf')` as the initial best-fit fragmentation is modelled by an
  `Option` accumulator (`none` = nothing found yet, every fragmentation
  beats it).
* Python `list.remove` (first occurrence, guarded by a membership test in the
  source) is `List.erase`; `if x not in l: l.append(x)` is `addIfAbsent`.
-/

namespace Simulador

/-- The five process states of `ProcessState` in the source. -/
inductive PState where
  | New
  | Ready
  | Executing
  | Suspended
  | Terminated
deriving DecidableEq, Repr

/-- A process object (`Process.__init__`): identity and input fields plus the
mutable simulation fields. `partition` is the id of the owning partition. -/
structure Process where
  id : Nat
  size : Nat
  arrival_time : Nat
  burst_time : Nat
  state : PState
  remaining_time : Int
  partition : Option Nat
  wait_time : Int
  finish_time : Int
  turnaround_time : Int
  first_execution_time : Option Nat
deriving DecidableEq, Repr

/-- A memory partition object (`Partition.__init__`); `process` is the id of
the occupant process. -/
structure Partition where
  id : Nat
  size : Nat
  start_address : Nat
  process : Option Nat
  internal_fragmentation : Nat
deriving DecidableEq, Repr

/-- Raw process input row `{id, size, arrivalTime, burstTime}`. -/
structure PInput where
  pid : Nat
  psize : Nat
  arrival : Nat
  burst : Nat
deriving DecidableEq, Repr

/-- Raw partition configuration row `{id, size, startAddress}`. -/
structure BInput where
  bid : Nat
  bsize : Nat
  start : Nat
deriving DecidableEq, Repr

/-- `Process.__init__`: state New, remaining time = burst time, no partition,
zeroed statistics, first execution time unset. -/
def mkProcess (i : PInput) : Process :=
  { id := i.pid, size := i.psize, arrival_time := i.arrival,
    burst_time := i.burst, state := PState.New,
    remaining_time := (i.burst : Int), partition := none,
    wait_time := 0, finish_time := 0, turnaround_time := 0,
    first_execution_time := none }

/-- `Partition.__init__`: free, zero internal fragmentation. -/
def mkPartition (b : BInput) : Partition :=
  { id := b.bid, size := b.bsize, start_address := b.start,
    process := none, internal_fragmentation := 0 }

/-- The whole simulator state: the object store for processes, the partition
table, the configuration, the clock and the engine's queues.  `incomplete`
records whether the run stopped at the safety tick bound. -/
structure SimState where
  procs : List Process
  partitions : List Partition
  degree_of_multiprogramming : Nat
  clock : Nat
  all_processes : List Nat
  ready_queue : List Nat
  suspended_queue : List Nat
  terminated_queue : List Nat
  current_process : Option Nat
  incomplete : Bool
deriving DecidableEq, Repr

/-- Dereference a process id in the store. -/
def lookupProc (s : SimState) (pid : Nat) : Option Process :=
  s.procs.find? (fun p => p.id == pid)

/-- Mutate the process object with the given id in place. -/
def updateProc (s : SimState) (pid : Nat) (f : Process → Process) : SimState :=
  { s with procs := s.procs.map (fun p => if p.id == pid then f p else p) }

/-- Dereference a partition id in the partition table. -/
def lookupPart (s : SimState) (bid : Nat) : Option Partition :=
  s.partitions.find? (fun q => q.id == bid)

/-- Mutate the partition object with the given id in place. -/
def updatePart (s : SimState) (bid : Nat) (f : Partition → Partition) : SimState :=
  { s with partitions := s.partitions.map (fun q => if q.id == bid then f q else q) }

/-- `if x not in l: l.append(x)`. -/
def addIfAbsent (l : List Nat) (x : Nat) : List Nat :=
  if x ∈ l then l else l ++ [x]

/-- `Partition.is_free`. -/
def partition_is_free (q : Partition) : Bool :=
  q.process == none

/-- `Partition.assign_process`: reject if the partition is occupied or too
small; otherwise record the occupant, the internal fragmentation, and the
process's back-reference. -/
def assign_process (s : SimState) (bid pid : Nat) : Bool × SimState :=
  match lookupPart s bid, lookupProc s pid with
  | some q, some p =>
    if ¬ (partition_is_free q = true) then (false, s)
    else if q.size < p.size then (false, s)
    else
      let s1 := updatePart s bid (fun q0 =>
        { q0 with process := some pid, internal_fragmentation := q0.size - p.size })
      let s2 := updateProc s1 pid (fun p0 => { p0 with partition := some bid })
      (true, s2)
  | _, _ => (false, s)

/-- `Partition.free`: return the occupant (if any) and clear both sides of the
reference pair plus the fragmentation. -/
def partition_free_op (s : SimState) (bid : Nat) : Option Nat × SimState :=
  match lookupPart s bid with
  | none => (none, s)
  | some q =>
    match q.process with
    | none => (none, s)
    | some oid =>
      let s1 := updateProc s oid (fun p0 => { p0 with partition := none })
      let s2 := updatePart s1 bid (fun q0 =>
        { q0 with process := none, internal_fragmentation := 0 })
      (some oid, s2)

/-- The scanning loop of `MemoryManager.find_best_fit`; the accumulator holds
the best partition so far together with its fragmentation
(`min_fragmentation`), `none` playing the role of `float('inf')`. -/
def find_best_fit_go (psize : Nat) : List Partition → Option (Partition × Nat) → Option Partition
  | [], acc => acc.map Prod.fst
  | q :: rest, acc =>
    if partition_is_free q = true ∧ psize ≤ q.size then
      let frag := q.size - psize
      match acc with
      | none => find_best_fit_go psize rest (some (q, frag))
      | some (b, mf) =>
        if frag < mf then find_best_fit_go psize rest (some (q, frag))
        else find_best_fit_go psize rest (some (b, mf))
    else find_best_fit_go psize rest acc

/-- `MemoryManager.find_best_fit` for a process of size `psize`. -/
def find_best_fit (parts : List Partition) (psize : Nat) : Option Partition :=
  find_best_fit_go psize parts none

/-- The specification-level Best-Fit function, written exactly after the
spec's words: among the free partitions with `size ≥ process.size`, the first
one in list order that minimizes `size − process.size`; `none` when no free
partition qualifies. -/
def best_fit_spec (parts : List Partition) (psize : Nat) : Option Partition :=
  let cands := parts.filter (fun q => decide (q.process = none ∧ psize ≤ q.size))
  cands.find? (fun q => cands.all (fun r => decide (q.size - psize ≤ r.size - psize)))

/-- `MemoryManager.allocate_process`: find the best fit; if the found
partition is (per the source's defensive branch) occupied, swap the occupant
out to Suspended; then assign the process and mark it Ready. -/
def allocate_process (s : SimState) (pid : Nat) : Bool × SimState :=
  match lookupProc s pid with
  | none => (false, s)
  | some p =>
    match find_best_fit s.partitions p.size with
    | none => (false, s)
    | some q =>
      let s1 :=
        if partition_is_free q = true then s
        else
          match partition_free_op s q.id with
          | (none, s') => s'
          | (some oid, s') =>
            updateProc s' oid (fun p0 =>
              { p0 with state := PState.Suspended, partition := none })
      let s2 := (assign_process s1 q.id pid).2
      let s3 := updateProc s2 pid (fun p0 => { p0 with state := PState.Ready })
      (true, s3)

/-- `MemoryManager.free_process`: release the partition held by a process. -/
def free_process (s : SimState) (pid : Nat) : SimState :=
  match lookupProc s pid with
  | none => s
  | some p =>
    match p.partition with
    | none => s
    | some bid =>
      let s1 := (partition_free_op s bid).2
      updateProc s1 pid (fun p0 => { p0 with partition := none })

/-- The resolvable process records of the ready queue, in queue order. -/
def readyProcs (s : SimState) : List Process :=
  s.ready_queue.filterMap (lookupProc s)

/-- Python's `min(..., key=remaining_time)`: the first element attaining the
minimal remaining time. -/
def minByRemaining : List Process → Option Process
  | [] => none
  | p :: rest =>
    match minByRemaining rest with
    | none => some p
    | some q => if p.remaining_time ≤ q.remaining_time then some p else some q

/-- `Scheduler.select_next_process`: SRTF choice from the ready queue. -/
def select_next_process (s : SimState) : Option Nat :=
  match minByRemaining (readyProcs s) with
  | none => none
  | some p => some p.id

/-- `Scheduler.should_preempt`: true iff a process is executing and some ready
process has strictly smaller remaining time. -/
def should_preempt (s : SimState) : Bool :=
  match s.current_process with
  | none => false
  | some c =>
    match lookupProc s c with
    | none => false
    | some cur =>
      match minByRemaining (readyProcs s) with
      | none => false
      | some best => decide (best.remaining_time < cur.remaining_time)

/-- `Scheduler.start_execution`. -/
def start_execution (s : SimState) (pid : Nat) : SimState :=
  { updateProc s pid (fun p0 => { p0 with state := PState.Executing }) with
    current_process := some pid }

/-- `Scheduler.execute_tick`: decrement the current process's remaining time;
on reaching ≤ 0 mark it Terminated, clear current and return it. -/
def sched_execute_tick (s : SimState) : Option Nat × SimState :=
  match s.current_process with
  | none => (none, s)
  | some c =>
    match lookupProc s c with
    | none => (none, s)
    | some p =>
      let s1 := updateProc s c (fun p0 =>
        { p0 with remaining_time := p0.remaining_time - 1 })
      if p.remaining_time - 1 ≤ 0 then
        let s2 := updateProc s1 c (fun p0 => { p0 with state := PState.Terminated })
        (some c, { s2 with current_process := none })
      else (none, s1)

/-- `Scheduler.preempt_current`: demote the current process to Ready and
return it. -/
def preempt_current (s : SimState) : Option Nat × SimState :=
  match s.current_process with
  | none => (none, s)
  | some c =>
    let s1 := updateProc s c (fun p0 => { p0 with state := PState.Ready })
    (some c, { s1 with current_process := none })

/-- `len(ready_queue) + (1 if current else 0)`, the resident count checked
against the multiprogramming degree. -/
def current_dom (s : SimState) : Nat :=
  s.ready_queue.length + (if s.current_process.isSome then 1 else 0)

/-- `Simulator._try_load_to_memory`: admission of one process — straight to
Suspended when the resident count has reached the degree, else ask the
allocator; failures also go to Suspended. -/
def try_load_to_memory (s : SimState) (pid : Nat) : SimState :=
  if s.degree_of_multiprogramming ≤ current_dom s then
    let s1 := updateProc s pid (fun p0 => { p0 with state := PState.Suspended })
    { s1 with suspended_queue := addIfAbsent s1.suspended_queue pid }
  else
    match allocate_process s pid with
    | (true, s1) =>
      let s2 := { s1 with ready_queue := addIfAbsent s1.ready_queue pid }
      { s2 with suspended_queue := s2.suspended_queue.erase pid }
    | (false, s1) =>
      let s2 := updateProc s1 pid (fun p0 => { p0 with state := PState.Suspended })
      { s2 with suspended_queue := addIfAbsent s2.suspended_queue pid }

/-- `Simulator._arrive_new_processes`: move the processes whose arrival time
equals the clock out of `all_processes` (keeping those still in the future),
stamp their state New, then try to load each one into memory. -/
def arrive_new_processes (s : SimState) : SimState :=
  let arrived := s.all_processes.filter (fun pid =>
    match lookupProc s pid with
    | some p => p.arrival_time == s.clock
    | none => false)
  let remaining := s.all_processes.filter (fun pid =>
    match lookupProc s pid with
    | some p => s.clock < p.arrival_time
    | none => false)
  let s1 := { s with all_processes := remaining }
  let s2 := arrived.foldl
    (fun st pid => updateProc st pid (fun p0 => { p0 with state := PState.New })) s1
  arrived.foldl (fun st pid => try_load_to_memory st pid) s2

/-- The loop body of `Simulator._try_load_suspended`: walk the suspended queue
while the resident count stays below the degree, allocating each process and
collecting the admitted ones (`to_remove`). -/
def try_load_suspended_go (degree : Nat) :
    List Nat → Nat → SimState → List Nat → SimState × List Nat
  | [], _, s, acc => (s, acc)
  | pid :: rest, dom, s, acc =>
    if degree ≤ dom then (s, acc)
    else
      match allocate_process s pid with
      | (true, s1) =>
        let s2 := { s1 with ready_queue := addIfAbsent s1.ready_queue pid }
        try_load_suspended_go degree rest (dom + 1) s2 (acc ++ [pid])
      | (false, s1) => try_load_suspended_go degree rest dom s1 acc

/-- `Simulator._try_load_suspended`: try to re-admit suspended processes,
then remove the admitted ones from the suspended queue. -/
def try_load_suspended (s : SimState) : SimState :=
  if s.degree_of_multiprogramming ≤ current_dom s then s
  else
    let r := try_load_suspended_go s.degree_of_multiprogramming
      s.suspended_queue (current_dom s) s []
    { r.1 with suspended_queue :=
        r.2.foldl (fun q pid => q.erase pid) r.1.suspended_queue }

/-- The preemption half of `Simulator._schedule_process`. -/
def preempt_phase (s : SimState) : SimState :=
  if should_preempt s = true then
    match preempt_current s with
    | (some pid, s1) => { s1 with ready_queue := addIfAbsent s1.ready_queue pid }
    | (none, s1) => s1
  else s

/-- The selection half of `Simulator._schedule_process`: when the CPU is idle,
pick the SRTF candidate, stamp its first execution time if unset, start it,
and take it out of the ready queue. -/
def selection_phase (s : SimState) : SimState :=
  match s.current_process with
  | some _ => s
  | none =>
    match select_next_process s with
    | none => s
    | some pid =>
      let s1 :=
        match lookupProc s pid with
        | some p =>
          if p.first_execution_time = none then
            updateProc s pid (fun p0 =>
              { p0 with first_execution_time := some s.clock })
          else s
        | none => s
      let s2 := start_execution s1 pid
      { s2 with ready_queue := s2.ready_queue.erase pid }

/-- `Simulator._schedule_process` = preemption check, then selection. -/
def schedule_process (s : SimState) : SimState :=
  selection_phase (preempt_phase s)

/-- `Simulator._update_wait_times`: add one waiting tick to every ready or
suspended process that is not the executing one and has never executed. -/
def update_wait_times (s : SimState) : SimState :=
  let eid := s.current_process
  (s.ready_queue ++ s.suspended_queue).foldl
    (fun st pid => updateProc st pid (fun p =>
      if (p.state = PState.Ready ∨ p.state = PState.Suspended) ∧
          eid ≠ some p.id ∧ p.first_execution_time = none
      then { p with wait_time := p.wait_time + 1 } else p)) s

/-- `Process.calculate_statistics`: turnaround = finish − arrival; wait =
first execution − arrival when the process ever ran, else the standard
formula. -/
def calculate_statistics (p : Process) : Process :=
  let ta := p.finish_time - (p.arrival_time : Int)
  match p.first_execution_time with
  | some f =>
    { p with turnaround_time := ta,
             wait_time := (f : Int) - (p.arrival_time : Int) }
  | none =>
    { p with turnaround_time := ta, wait_time := ta - (p.burst_time : Int) }

/-- `Simulator._execute_tick`: run the scheduler one tick; when a process
finishes (and passes the source's re-validation), stamp its finish time as
`clock + 1`, compute its statistics, free its partition and move it to the
terminated queue. -/
def sim_execute_tick (s : SimState) : SimState :=
  match sched_execute_tick s with
  | (none, s1) => s1
  | (some c, s1) =>
    match lookupProc s1 c with
    | none => s1
    | some p =>
      if p.remaining_time ≤ 0 ∧ p.state = PState.Terminated then
        let s2 := updateProc s1 c (fun p0 =>
          { p0 with finish_time := (s1.clock : Int) + 1 })
        let s3 := updateProc s2 c calculate_statistics
        let s4 := free_process s3 c
        let s5 := { s4 with terminated_queue := addIfAbsent s4.terminated_queue c }
        { s5 with current_process := none }
      else s1

/-- One iteration of the main loop of `Simulator.run` (arrivals, suspended
re-admission, scheduling, wait-time accrual, execution, clock advance).  None
of the five phases writes the clock — they only touch the store, the
partition table, the queues and the current process — so the final
`self.clock += 1` increments the clock the tick started with. -/
def tick (s : SimState) : SimState :=
  let s1 := arrive_new_processes s
  let s2 := try_load_suspended s1
  let s3 := schedule_process s2
  let s4 := update_wait_times s3
  let s5 := sim_execute_tick s4
  { s5 with clock := s.clock + 1 }

/-- The main loop of `Simulator.run`: iterate ticks until every loaded
process is in the terminated queue, stopping with the `incomplete` warning
when the safety bound of 1000 ticks is hit. -/
def runLoop (total : Nat) (s : SimState) : SimState :=
  if s.terminated_queue.length < total then
    if 1000 ≤ s.clock then { s with incomplete := true }
    else runLoop total (tick s)
  else s
termination_by 1000 - s.clock
decreasing_by
  simp [tick]
  omega

/-- One row of the final statistics report for a terminated process
(`Display.show_statistics` re-runs `calculate_statistics` before printing):
process id, finish time, turnaround time, wait time. -/
def stat_row (p : Process) : Nat × Int × Int × Int :=
  let p1 := calculate_statistics p
  (p1.id, p1.finish_time, p1.turnaround_time, p1.wait_time)

/-- The statistics rows of the terminated processes, the substantive part of
the final report (the display also prints N/A rows for unfinished processes
and averages; those are presentation only). -/
def statistics_report (s : SimState) : List (Nat × Int × Int × Int) :=
  (s.procs.filter (fun p => decide (p.state = PState.Terminated))).map stat_row

/-- `Simulator.run`: the loop bound by the number of loaded processes,
followed by the final statistics report. -/
def run (s : SimState) : SimState × List (Nat × Int × Int × Int) :=
  let total := s.all_processes.length
  let r := runLoop total s
  (r, statistics_report r)

/-- `Simulator.load_processes` on a freshly constructed simulator: the store
holds the constructed processes, every queue is empty, and all processes are
waiting to arrive. -/
def initState (ps : List PInput) (bs : List BInput) (degree : Nat) : SimState :=
  let procs := ps.map mkProcess
  { procs := procs
    partitions := bs.map mkPartition
    degree_of_multiprogramming := degree
    clock := 0
    all_processes := procs.map Process.id
    ready_queue := []
    suspended_queue := []
    terminated_queue := []
    current_process := none
    incomplete := false }

/-- The input contract of §6 of the design: unique process ids, positive
burst times, unique partition ids. -/
def ValidInput (ps : List PInput) (bs : List BInput) : Prop :=
  (ps.map PInput.pid).Nodup ∧ (∀ i ∈ ps, 0 < i.burst) ∧
    (bs.map BInput.bid).Nodup

instance (ps : List PInput) (bs : List BInput) : Decidable (ValidInput ps bs) := by
  unfold ValidInput; infer_instance

/-- The engine states reachable from a loaded simulator on valid input. -/
inductive Reachable : SimState → Prop
  | init : ∀ ps bs d, ValidInput ps bs → Reachable (initState ps bs d)
  | step : ∀ s, Reachable s → Reachable (tick s)

/-- Right-recursion equivalent of the best-fit scan, used to relate the
source's accumulator loop to the specification: prefer the head candidate on
ties (the earlier partition wins). -/
def best_fit_rec (psize : Nat) : List Partition → Option Partition
  | [] => none
  | q :: rest =>
    if q.process = none ∧ psize ≤ q.size then
      match best_fit_rec psize rest with
      | none => some q
      | some b => if q.size - psize ≤ b.size - psize then some q else some b
    else best_fit_rec psize rest

/-- Two states that differ at most in the process store and the partition
table: the shape every allocator call preserves. -/
def SameShape (s t : SimState) : Prop :=
  t.degree_of_multiprogramming = s.degree_of_multiprogramming ∧
  t.clock = s.clock ∧ t.all_processes = s.all_processes ∧
  t.ready_queue = s.ready_queue ∧ t.suspended_queue = s.suspended_queue ∧
  t.terminated_queue = s.terminated_queue ∧
  t.current_process = s.current_process ∧ t.incomplete = s.incomplete

/-- Two processes arriving at tick 0 with multiprogramming degree 1 and
plenty of free memory: the admission decision for the second one sees the
first one already admitted. -/
def c2s0 : SimState :=
  initState [⟨1, 10, 0, 5⟩, ⟨2, 10, 0, 5⟩] [⟨1, 100, 100⟩, ⟨2, 100, 200⟩] 1

/-- The engine state at the moment process 2's admission is decided during
`arrive_new_processes c2s0` (process 1 already admitted). -/
def c2mid : SimState :=
  try_load_to_memory
    (updateProc (updateProc { c2s0 with all_processes := [] } 1
        (fun p0 => { p0 with state := PState.New })) 2
      (fun p0 => { p0 with state := PState.New })) 1

/-- A one-process, one-partition store with degree 1, for exercising the
admission rule. -/
def c2w : SimState :=
  { procs := [mkProcess ⟨7, 10, 0, 5⟩]
    partitions := [mkPartition ⟨1, 100, 100⟩]
    degree_of_multiprogramming := 1
    clock := 0
    all_processes := []
    ready_queue := []
    suspended_queue := []
    terminated_queue := []
    current_process := none
    incomplete := false }

/-- An executing process (remaining 9) with a shorter ready process
(remaining 3) waiting: SRTF must preempt. -/
def c3p1 : Process :=
  { mkProcess ⟨1, 10, 0, 9⟩ with state := PState.Executing }

def c3p2 : Process :=
  { mkProcess ⟨2, 10, 0, 3⟩ with state := PState.Ready }

def c3s : SimState :=
  { procs := [c3p1, c3p2]
    partitions := []
    degree_of_multiprogramming := 5
    clock := 4
    all_processes := []
    ready_queue := [2]
    suspended_queue := []
    terminated_queue := []
    current_process := some 1
    incomplete := false }

/-- A process one tick from completion, executing in partition 1. -/
def c4p : Process :=
  { mkProcess ⟨1, 50, 0, 5⟩ with
    state := PState.Executing, remaining_time := 1,
    partition := some 1, first_execution_time := some 0 }

def c4q : Partition :=
  { mkPartition ⟨1, 100, 100⟩ with process := some 1, internal_fragmentation := 50 }

def c4s : SimState :=
  { procs := [c4p]
    partitions := [c4q]
    degree_of_multiprogramming := 5
    clock := 4
    all_processes := []
    ready_queue := []
    suspended_queue := []
    terminated_queue := []
    current_process := some 1
    incomplete := false }

/-- The state of a process as seen through the store. -/
def stateOf (s : SimState) (pid : Nat) : Option PState :=
  (lookupProc s pid).map Process.state

/-- The first-execution stamp of a process as seen through the store. -/
def firstExecOf (s : SimState) (pid : Nat) : Option Nat :=
  (lookupProc s pid).bind Process.first_execution_time

/-- The occupant of a partition as seen through the partition table. -/
def partProcOf (s : SimState) (bid : Nat) : Option (Option Nat) :=
  (lookupPart s bid).map Partition.process

/-- The engine's global invariant, tied together by the tick function: unique
ids, duplicate-free and pairwise-disjoint queues, queue membership matching
process states, the remaining-time bounds, and the mutual consistency of the
Process↔Partition reference pair. -/
structure Inv (s : SimState) : Prop where
  pidsNodup : (s.procs.map Process.id).Nodup
  bidsNodup : (s.partitions.map Partition.id).Nodup
  nodupAll : s.all_processes.Nodup
  nodupReady : s.ready_queue.Nodup
  nodupSusp : s.suspended_queue.Nodup
  nodupTerm : s.terminated_queue.Nodup
  disjAllReady : ∀ pid, pid ∈ s.all_processes → pid ∈ s.ready_queue → False
  disjAllSusp : ∀ pid, pid ∈ s.all_processes → pid ∈ s.suspended_queue → False
  disjAllTerm : ∀ pid, pid ∈ s.all_processes → pid ∈ s.terminated_queue → False
  disjReadySusp : ∀ pid, pid ∈ s.ready_queue → pid ∈ s.suspended_queue → False
  disjReadyTerm : ∀ pid, pid ∈ s.ready_queue → pid ∈ s.terminated_queue → False
  disjSuspTerm : ∀ pid, pid ∈ s.suspended_queue → pid ∈ s.terminated_queue → False
  curNotAll : ∀ pid, s.current_process = some pid → pid ∉ s.all_processes
  curNotReady : ∀ pid, s.current_process = some pid → pid ∉ s.ready_queue
  curNotSusp : ∀ pid, s.current_process = some pid → pid ∉ s.suspended_queue
  curNotTerm : ∀ pid, s.current_process = some pid → pid ∉ s.terminated_queue
  stateAll : ∀ pid ∈ s.all_processes, stateOf s pid = some PState.New
  stateReady : ∀ pid ∈ s.ready_queue, stateOf s pid = some PState.Ready
  stateSusp : ∀ pid ∈ s.suspended_queue, stateOf s pid = some PState.Suspended
  stateTerm : ∀ pid ∈ s.terminated_queue, stateOf s pid = some PState.Terminated
  stateCur : ∀ pid, s.current_process = some pid → stateOf s pid = some PState.Executing
  remBounds : ∀ p ∈ s.procs,
    0 ≤ p.remaining_time ∧ (p.remaining_time = 0 ↔ p.state = PState.Terminated)
  partNone : ∀ p ∈ s.procs,
    (p.state = PState.New ∨ p.state = PState.Suspended ∨ p.state = PState.Terminated) →
    p.partition = none
  partSome : ∀ p ∈ s.procs,
    (p.state = PState.Ready ∨ p.state = PState.Executing) → p.partition ≠ none
  backProc : ∀ p ∈ s.procs, ∀ bid, p.partition = some bid →
    ∃ q ∈ s.partitions, q.id = bid ∧ q.process = some p.id
  backPart : ∀ q ∈ s.partitions, ∀ pid, q.process = some pid →
    ∃ p ∈ s.procs, p.id = pid ∧ p.partition = some q.id


end Simulador

namespace Simulador

/-! ### Store toolkit: how lookups interact with in-place updates -/

theorem find?_map_update_self {l : List Process} {pid : Nat} {f : Process → Process}
    (hf : ∀ p, (f p).id = p.id) :
    (l.map (fun p => if p.id == pid then f p else p)).find? (fun p => p.id == pid) =
      (l.find? (fun p => p.id == pid)).map f := by
  induction l with
  | nil => rfl
  | cons p rest ih =>
    by_cases h : p.id = pid
    · rw [List.map_cons, if_pos (by simp [h]),
        List.find?_cons_of_pos _ (by simp [hf, h]),
        List.find?_cons_of_pos _ (by simp [h])]
      rfl
    · rw [List.map_cons, if_neg (by simp [h]),
        List.find?_cons_of_neg _ (by simp [h]),
        List.find?_cons_of_neg _ (by simp [h]), ih]

theorem find?_map_update_ne {l : List Process} {pid pid' : Nat} {f : Process → Process}
    (hf : ∀ p, (f p).id = p.id) (hne : pid' ≠ pid) :
    (l.map (fun p => if p.id == pid then f p else p)).find? (fun p => p.id == pid') =
      l.find? (fun p => p.id == pid') := by
  induction l with
  | nil => rfl
  | cons p rest ih =>
    by_cases h : p.id = pid
    · rw [List.map_cons, if_pos (by simp [h]),
        List.find?_cons_of_neg _ (by simp [hf, h, hne, Ne.symm hne]),
        List.find?_cons_of_neg _ (by simp [h]; omega), ih]
    · by_cases h' : p.id = pid'
      · rw [List.map_cons, if_neg (by simp [h]),
          List.find?_cons_of_pos _ (by simp [h']),
          List.find?_cons_of_pos _ (by simp [h'])]
      · rw [List.map_cons, if_neg (by simp [h]),
          List.find?_cons_of_neg _ (by simp [h']),
          List.find?_cons_of_neg _ (by simp [h']), ih]

theorem lookupProc_updateProc_self {s : SimState} {pid : Nat} {f : Process → Process}
    (hf : ∀ p, (f p).id = p.id) :
    lookupProc (updateProc s pid f) pid = (lookupProc s pid).map f :=
  find?_map_update_self hf

theorem lookupProc_updateProc_ne {s : SimState} {pid pid' : Nat} {f : Process → Process}
    (hf : ∀ p, (f p).id = p.id) (hne : pid' ≠ pid) :
    lookupProc (updateProc s pid f) pid' = lookupProc s pid' :=
  find?_map_update_ne hf hne

theorem lookupProc_updatePart {s : SimState} {bid : Nat} {f : Partition → Partition}
    {pid : Nat} : lookupProc (updatePart s bid f) pid = lookupProc s pid := rfl

end Simulador

namespace Simulador

theorem find?_map_updateB_self {l : List Partition} {bid : Nat} {f : Partition → Partition}
    (hf : ∀ q, (f q).id = q.id) :
    (l.map (fun q => if q.id == bid then f q else q)).find? (fun q => q.id == bid) =
      (l.find? (fun q => q.id == bid)).map f := by
  induction l with
  | nil => rfl
  | cons q rest ih =>
    by_cases h : q.id = bid
    · rw [List.map_cons, if_pos (by simp [h]),
        List.find?_cons_of_pos _ (by simp [hf, h]),
        List.find?_cons_of_pos _ (by simp [h])]
      rfl
    · rw [List.map_cons, if_neg (by simp [h]),
        List.find?_cons_of_neg _ (by simp [h]),
        List.find?_cons_of_neg _ (by simp [h]), ih]

theorem find?_map_updateB_ne {l : List Partition} {bid bid' : Nat} {f : Partition → Partition}
    (hf : ∀ q, (f q).id = q.id) (hne : bid' ≠ bid) :
    (l.map (fun q => if q.id == bid then f q else q)).find? (fun q => q.id == bid') =
      l.find? (fun q => q.id == bid') := by
  induction l with
  | nil => rfl
  | cons q rest ih =>
    by_cases h : q.id = bid
    · rw [List.map_cons, if_pos (by simp [h]),
        List.find?_cons_of_neg _ (by simp [hf, h]; omega),
        List.find?_cons_of_neg _ (by simp [h]; omega), ih]
    · by_cases h' : q.id = bid'
      · rw [List.map_cons, if_neg (by simp [h]),
          List.find?_cons_of_pos _ (by simp [h']),
          List.find?_cons_of_pos _ (by simp [h'])]
      · rw [List.map_cons, if_neg (by simp [h]),
          List.find?_cons_of_neg _ (by simp [h']),
          List.find?_cons_of_neg _ (by simp [h']), ih]

theorem lookupPart_updatePart_self {s : SimState} {bid : Nat} {f : Partition → Partition}
    (hf : ∀ q, (f q).id = q.id) :
    lookupPart (updatePart s bid f) bid = (lookupPart s bid).map f :=
  find?_map_updateB_self hf

theorem lookupPart_updatePart_ne {s : SimState} {bid bid' : Nat} {f : Partition → Partition}
    (hf : ∀ q, (f q).id = q.id) (hne : bid' ≠ bid) :
    lookupPart (updatePart s bid f) bid' = lookupPart s bid' :=
  find?_map_updateB_ne hf hne

theorem lookupPart_updateProc {s : SimState} {pid : Nat} {f : Process → Process}
    {bid : Nat} : lookupPart (updateProc s pid f) bid = lookupPart s bid := rfl

/-- A found process is in the store and has the id looked up. -/
theorem lookupProc_mem {s : SimState} {pid : Nat} {p : Process}
    (h : lookupProc s pid = some p) : p ∈ s.procs ∧ p.id = pid := by
  refine ⟨List.mem_of_find?_eq_some h, ?_⟩
  have := List.find?_some h
  simpa using this

theorem lookupPart_mem {s : SimState} {bid : Nat} {q : Partition}
    (h : lookupPart s bid = some q) : q ∈ s.partitions ∧ q.id = bid := by
  refine ⟨List.mem_of_find?_eq_some h, ?_⟩
  have := List.find?_some h
  simpa using this

theorem find?_of_mem_nodupP : ∀ {l : List Process} {p : Process},
    (l.map Process.id).Nodup → p ∈ l → l.find? (fun r => r.id == p.id) = some p := by
  intro l
  induction l with
  | nil => intro p _ hm; cases hm
  | cons a rest ih =>
    intro p hn hm
    rcases List.mem_cons.1 hm with h | h
    · subst h
      exact List.find?_cons_of_pos _ (by simp)
    · have hne : a.id ≠ p.id := by
        intro he
        have : p.id ∈ rest.map Process.id := List.mem_map_of_mem _ h
        simp only [List.map_cons, List.nodup_cons] at hn
        exact hn.1 (he ▸ this)
      rw [List.find?_cons_of_neg _ (by simp [hne]),
        ih (by simp only [List.map_cons, List.nodup_cons] at hn; exact hn.2) h]

/-- With unique ids, membership determines the lookup result. -/
theorem lookupProc_of_mem_nodup {s : SimState} {p : Process}
    (hn : (s.procs.map Process.id).Nodup) (hm : p ∈ s.procs) :
    lookupProc s p.id = some p :=
  find?_of_mem_nodupP hn hm

theorem find?_of_mem_nodupB : ∀ {l : List Partition} {q : Partition},
    (l.map Partition.id).Nodup → q ∈ l → l.find? (fun r => r.id == q.id) = some q := by
  intro l
  induction l with
  | nil => intro q _ hm; cases hm
  | cons a rest ih =>
    intro q hn hm
    rcases List.mem_cons.1 hm with h | h
    · subst h
      exact List.find?_cons_of_pos _ (by simp)
    · have hne : a.id ≠ q.id := by
        intro he
        have : q.id ∈ rest.map Partition.id := List.mem_map_of_mem _ h
        simp only [List.map_cons, List.nodup_cons] at hn
        exact hn.1 (he ▸ this)
      rw [List.find?_cons_of_neg _ (by simp [hne]),
        ih (by simp only [List.map_cons, List.nodup_cons] at hn; exact hn.2) h]

theorem lookupPart_of_mem_nodup {s : SimState} {q : Partition}
    (hn : (s.partitions.map Partition.id).Nodup) (hm : q ∈ s.partitions) :
    lookupPart s q.id = some q :=
  find?_of_mem_nodupB hn hm

/-- Updates keep the id multiset of the store. -/
theorem procIds_updateProc {s : SimState} {pid : Nat} {f : Process → Process}
    (hf : ∀ p, (f p).id = p.id) :
    (updateProc s pid f).procs.map Process.id = s.procs.map Process.id := by
  unfold updateProc
  simp only [List.map_map]
  apply List.map_congr_left
  intro p _
  by_cases h : p.id = pid <;> simp [h, hf]

theorem partIds_updatePart {s : SimState} {bid : Nat} {f : Partition → Partition}
    (hf : ∀ q, (f q).id = q.id) :
    (updatePart s bid f).partitions.map Partition.id = s.partitions.map Partition.id := by
  unfold updatePart
  simp only [List.map_map]
  apply List.map_congr_left
  intro q _
  by_cases h : q.id = bid <;> simp [h, hf]

/-- Every record of the updated store is the image of a record of the old
store. -/
theorem mem_updateProc {s : SimState} {pid : Nat} {f : Process → Process} {p' : Process}
    (h : p' ∈ (updateProc s pid f).procs) :
    ∃ p ∈ s.procs, p' = if p.id == pid then f p else p := by
  unfold updateProc at h
  obtain ⟨p, hp, he⟩ := List.mem_map.1 h
  exact ⟨p, hp, he.symm⟩

theorem mem_updatePart {s : SimState} {bid : Nat} {f : Partition → Partition} {q' : Partition}
    (h : q' ∈ (updatePart s bid f).partitions) :
    ∃ q ∈ s.partitions, q' = if q.id == bid then f q else q := by
  unfold updatePart at h
  obtain ⟨q, hq, he⟩ := List.mem_map.1 h
  exact ⟨q, hq, he.symm⟩

theorem mem_updateProc_of_mem {s : SimState} {pid : Nat} {f : Process → Process} {p : Process}
    (h : p ∈ s.procs) :
    (if p.id == pid then f p else p) ∈ (updateProc s pid f).procs := by
  unfold updateProc
  exact List.mem_map_of_mem _ h

theorem mem_updatePart_of_mem {s : SimState} {bid : Nat} {f : Partition → Partition} {q : Partition}
    (h : q ∈ s.partitions) :
    (if q.id == bid then f q else q) ∈ (updatePart s bid f).partitions := by
  unfold updatePart
  exact List.mem_map_of_mem _ h

theorem mem_updateProc_of_ne {s : SimState} {pid : Nat} {f : Process → Process}
    {p : Process} (h : p ∈ s.procs) (hne : ¬ p.id = pid) :
    p ∈ (updateProc s pid f).procs := by
  unfold updateProc
  have h2 : (if p.id == pid then f p else p) ∈
      s.procs.map (fun r => if r.id == pid then f r else r) :=
    List.mem_map_of_mem _ h
  rwa [if_neg (by simp [hne])] at h2

theorem mem_updateProc_of_id {s : SimState} {pid : Nat} {f : Process → Process}
    {p : Process} (h : p ∈ s.procs) (hid : p.id = pid) :
    f p ∈ (updateProc s pid f).procs := by
  unfold updateProc
  have h2 : (if p.id == pid then f p else p) ∈
      s.procs.map (fun r => if r.id == pid then f r else r) :=
    List.mem_map_of_mem _ h
  rwa [if_pos (by simp [hid])] at h2

theorem mem_updatePart_of_ne {s : SimState} {bid : Nat} {f : Partition → Partition}
    {q : Partition} (h : q ∈ s.partitions) (hne : ¬ q.id = bid) :
    q ∈ (updatePart s bid f).partitions := by
  unfold updatePart
  have h2 : (if q.id == bid then f q else q) ∈
      s.partitions.map (fun r => if r.id == bid then f r else r) :=
    List.mem_map_of_mem _ h
  rwa [if_neg (by simp [hne])] at h2

theorem mem_updatePart_of_id {s : SimState} {bid : Nat} {f : Partition → Partition}
    {q : Partition} (h : q ∈ s.partitions) (hid : q.id = bid) :
    f q ∈ (updatePart s bid f).partitions := by
  unfold updatePart
  have h2 : (if q.id == bid then f q else q) ∈
      s.partitions.map (fun r => if r.id == bid then f r else r) :=
    List.mem_map_of_mem _ h
  rwa [if_pos (by simp [hid])] at h2

/-- An update whose function fixes every matching record is a no-op. -/
theorem updateProc_eq_self {s : SimState} {pid : Nat} {f : Process → Process}
    (h : ∀ p ∈ s.procs, p.id = pid → f p = p) : updateProc s pid f = s := by
  unfold updateProc
  have : s.procs.map (fun p => if p.id == pid then f p else p) = s.procs := by
    rw [show s.procs.map (fun p => if p.id == pid then f p else p) =
        s.procs.map (fun p => p) from ?_, List.map_id']
    apply List.map_congr_left
    intro p hp
    by_cases hc : p.id = pid
    · simp [hc, h p hp hc]
    · simp [hc]
  rw [this]

end Simulador

namespace Simulador

/-! ### Best-Fit theory -/

theorem partition_is_free_iff {q : Partition} :
    partition_is_free q = true ↔ q.process = none := by
  simp [partition_is_free]

/-- A returned best fit comes from the list, is free and fits, unless it was
already the accumulator. -/
theorem find_best_fit_go_sound {psize : Nat} :
    ∀ {l : List Partition} {acc : Option (Partition × Nat)} {q : Partition},
    find_best_fit_go psize l acc = some q →
    (∃ mf, acc = some (q, mf)) ∨ (q ∈ l ∧ q.process = none ∧ psize ≤ q.size) := by
  intro l
  induction l with
  | nil =>
    intro acc q h
    cases acc with
    | none => cases h
    | some bm =>
      obtain ⟨b, mf⟩ := bm
      replace h : some b = some q := h
      cases h
      exact Or.inl ⟨mf, rfl⟩
  | cons a rest ih =>
    intro acc q h
    by_cases he : partition_is_free a = true ∧ psize ≤ a.size
    · rw [find_best_fit_go, if_pos he] at h
      cases acc with
      | none =>
        replace h : find_best_fit_go psize rest (some (a, a.size - psize)) = some q := h
        rcases ih h with ⟨mf, hmf⟩ | ⟨hm, hfree, hsz⟩
        · cases hmf
          exact Or.inr ⟨List.mem_cons_self _ _, partition_is_free_iff.1 he.1, he.2⟩
        · exact Or.inr ⟨List.mem_cons_of_mem _ hm, hfree, hsz⟩
      | some bm =>
        obtain ⟨b, mf⟩ := bm
        replace h : (if a.size - psize < mf then
            find_best_fit_go psize rest (some (a, a.size - psize))
          else find_best_fit_go psize rest (some (b, mf))) = some q := h
        by_cases hc : a.size - psize < mf
        · rw [if_pos hc] at h
          rcases ih h with ⟨mf', hmf⟩ | ⟨hm, hfree, hsz⟩
          · cases hmf
            exact Or.inr ⟨List.mem_cons_self _ _, partition_is_free_iff.1 he.1, he.2⟩
          · exact Or.inr ⟨List.mem_cons_of_mem _ hm, hfree, hsz⟩
        · rw [if_neg hc] at h
          rcases ih h with ⟨mf', hmf⟩ | ⟨hm, hfree, hsz⟩
          · exact Or.inl ⟨mf', hmf⟩
          · exact Or.inr ⟨List.mem_cons_of_mem _ hm, hfree, hsz⟩
    · rw [find_best_fit_go, if_neg he] at h
      rcases ih h with hacc | ⟨hm, hfree, hsz⟩
      · exact Or.inl hacc
      · exact Or.inr ⟨List.mem_cons_of_mem _ hm, hfree, hsz⟩

/-- The source's best fit is free and large enough. -/
theorem find_best_fit_free {parts : List Partition} {psize : Nat} {q : Partition}
    (h : find_best_fit parts psize = some q) :
    q ∈ parts ∧ q.process = none ∧ psize ≤ q.size := by
  rcases find_best_fit_go_sound h with ⟨mf, hmf⟩ | hq
  · cases hmf
  · exact hq

end Simulador

namespace Simulador

theorem find?_congr_mem {α : Type} {p q : α → Bool} :
    ∀ {l : List α}, (∀ x ∈ l, p x = q x) → l.find? p = l.find? q := by
  intro l
  induction l with
  | nil => intro _; rfl
  | cons a rest ih =>
    intro h
    have ha := h a (List.mem_cons_self _ _)
    cases hpa : p a
    · have hqa : q a = false := ha ▸ hpa
      rw [List.find?_cons_of_neg _ (by simp [hpa]),
        List.find?_cons_of_neg _ (by simp [hqa]),
        ih (fun x hx => h x (List.mem_cons_of_mem _ hx))]
    · have hqa : q a = true := ha ▸ hpa
      rw [List.find?_cons_of_pos _ hpa, List.find?_cons_of_pos _ hqa]

/-- Scanning with an accumulated best partition `b` keeps `b` unless a later
candidate has strictly smaller fragmentation. -/
theorem find_best_fit_go_acc {psize : Nat} :
    ∀ (l : List Partition) (b : Partition),
    find_best_fit_go psize l (some (b, b.size - psize)) =
      (match best_fit_rec psize l with
       | none => some b
       | some c => if c.size - psize < b.size - psize then some c else some b) := by
  intro l
  induction l with
  | nil => intro b; rfl
  | cons a rest ih =>
    intro b
    by_cases he : a.process = none ∧ psize ≤ a.size
    · have he' : partition_is_free a = true ∧ psize ≤ a.size :=
        ⟨partition_is_free_iff.2 he.1, he.2⟩
      rw [find_best_fit_go, if_pos he']
      show (if a.size - psize < b.size - psize then
              find_best_fit_go psize rest (some (a, a.size - psize))
            else find_best_fit_go psize rest (some (b, b.size - psize))) = _
      rw [best_fit_rec, if_pos he]
      cases hb : best_fit_rec psize rest with
      | none =>
        by_cases hc : a.size - psize < b.size - psize
        · rw [if_pos hc, ih a, hb]
          simp [hc]
        · rw [if_neg hc, ih b, hb]
          simp [hc]
      | some c =>
        by_cases hc : a.size - psize < b.size - psize
        · rw [if_pos hc, ih a, hb]
          show (if c.size - psize < a.size - psize then some c else some a) =
            (match (if a.size - psize ≤ c.size - psize then some a else some c) with
             | none => some b
             | some d => if d.size - psize < b.size - psize then some d else some b)
          by_cases hca : a.size - psize ≤ c.size - psize
          · have h1 : ¬ (c.size - psize < a.size - psize) := by omega
            rw [if_neg h1, if_pos hca]
            show some a = if a.size - psize < b.size - psize then some a else some b
            rw [if_pos hc]
          · have h1 : c.size - psize < a.size - psize := by omega
            rw [if_pos h1, if_neg hca]
            show some c = if c.size - psize < b.size - psize then some c else some b
            have h2 : c.size - psize < b.size - psize := by omega
            rw [if_pos h2]
        · rw [if_neg hc, ih b, hb]
          show (if c.size - psize < b.size - psize then some c else some b) =
            (match (if a.size - psize ≤ c.size - psize then some a else some c) with
             | none => some b
             | some d => if d.size - psize < b.size - psize then some d else some b)
          by_cases hca : a.size - psize ≤ c.size - psize
          · rw [if_pos hca]
            show (if c.size - psize < b.size - psize then some c else some b) =
              (if a.size - psize < b.size - psize then some a else some b)
            have h1 : ¬ (c.size - psize < b.size - psize) := by omega
            have h2 : ¬ (a.size - psize < b.size - psize) := by omega
            rw [if_neg h1, if_neg h2]
          · rw [if_neg hca]
    · have he' : ¬ (partition_is_free a = true ∧ psize ≤ a.size) := by
        intro hx
        exact he ⟨partition_is_free_iff.1 hx.1, hx.2⟩
      rw [find_best_fit_go, if_neg he', best_fit_rec, if_neg he]
      exact ih b

/-- The accumulator loop equals the right recursion. -/
theorem find_best_fit_eq_rec (psize : Nat) :
    ∀ l : List Partition, find_best_fit l psize = best_fit_rec psize l := by
  intro l
  induction l with
  | nil => rfl
  | cons a rest ih =>
    by_cases he : a.process = none ∧ psize ≤ a.size
    · have he' : partition_is_free a = true ∧ psize ≤ a.size :=
        ⟨partition_is_free_iff.2 he.1, he.2⟩
      unfold find_best_fit
      rw [find_best_fit_go, if_pos he']
      show find_best_fit_go psize rest (some (a, a.size - psize)) = _
      rw [find_best_fit_go_acc rest a, best_fit_rec, if_pos he]
      cases hb : best_fit_rec psize rest with
      | none => rfl
      | some c =>
        show (if c.size - psize < a.size - psize then some c else some a) =
          (if a.size - psize ≤ c.size - psize then some a else some c)
        by_cases hca : a.size - psize ≤ c.size - psize
        · have h1 : ¬ (c.size - psize < a.size - psize) := by omega
          rw [if_pos hca, if_neg h1]
        · have h1 : c.size - psize < a.size - psize := by omega
          rw [if_neg hca, if_pos h1]
    · have he' : ¬ (partition_is_free a = true ∧ psize ≤ a.size) := by
        intro hx
        exact he ⟨partition_is_free_iff.1 hx.1, hx.2⟩
      unfold find_best_fit at *
      rw [find_best_fit_go, if_neg he', best_fit_rec, if_neg he]
      exact ih

theorem best_fit_rec_none_iff {psize : Nat} :
    ∀ {l : List Partition}, best_fit_rec psize l = none ↔
      ∀ q ∈ l, ¬(q.process = none ∧ psize ≤ q.size) := by
  intro l
  induction l with
  | nil => simp [best_fit_rec]
  | cons a rest ih =>
    by_cases he : a.process = none ∧ psize ≤ a.size
    · rw [best_fit_rec, if_pos he]
      constructor
      · intro h
        exfalso
        cases hb : best_fit_rec psize rest with
        | none =>
          rw [hb] at h
          replace h : some a = none := h
          exact Option.noConfusion h
        | some c =>
          rw [hb] at h
          replace h : (if a.size - psize ≤ c.size - psize then some a else some c) = none := h
          by_cases hca : a.size - psize ≤ c.size - psize
          · rw [if_pos hca] at h
            exact Option.noConfusion h
          · rw [if_neg hca] at h
            exact Option.noConfusion h
      · intro h
        exact absurd he (h a (List.mem_cons_self _ _))
    · rw [best_fit_rec, if_neg he]
      rw [ih]
      constructor
      · intro h q hq
        rcases List.mem_cons.1 hq with rfl | hq'
        · exact he
        · exact h q hq'
      · intro h q hq
        exact h q (List.mem_cons_of_mem _ hq)

end Simulador

namespace Simulador

/-- The right recursion computes exactly the specification's phrase: the
first free fitting partition minimizing the leftover space. -/
theorem best_fit_rec_eq_spec (psize : Nat) :
    ∀ l : List Partition, best_fit_rec psize l = best_fit_spec l psize := by
  intro l
  induction l with
  | nil => rfl
  | cons a rest ih =>
    by_cases he : a.process = none ∧ psize ≤ a.size
    · rw [best_fit_rec, if_pos he]
      show _ = best_fit_spec (a :: rest) psize
      unfold best_fit_spec
      rw [List.filter_cons_of_pos (by simpa using he)]
      set cs := rest.filter (fun q => decide (q.process = none ∧ psize ≤ q.size)) with hcs
      cases hb : best_fit_rec psize rest with
      | none =>
        have hnil : cs = [] := by
          rw [hcs]
          apply List.filter_eq_nil_iff.2
          intro q hq
          have := (best_fit_rec_none_iff.1 hb) q hq
          simpa using this
        rw [hnil]
        rw [List.find?_cons_of_pos _ (by simp; omega)]
      | some c =>
        show (if a.size - psize ≤ c.size - psize then some a else some c) = _
        have hspec0 : best_fit_spec rest psize = some c := ih ▸ hb
        replace hspec0 : cs.find?
            (fun q => cs.all (fun r => decide (q.size - psize ≤ r.size - psize))) =
            some c := hspec0
        have hcm : c ∈ cs := List.mem_of_find?_eq_some hspec0
        have hcall := List.find?_some hspec0
        have hcmin : ∀ r ∈ cs, c.size - psize ≤ r.size - psize := by
          intro r hr
          have := List.all_eq_true.1 hcall r hr
          simpa using this
        by_cases hca : a.size - psize ≤ c.size - psize
        · rw [if_pos hca]
          have hQa : ((a :: cs).all
              (fun r => decide (a.size - psize ≤ r.size - psize))) = true := by
            apply List.all_eq_true.2
            intro r hr
            rcases List.mem_cons.1 hr with rfl | hr'
            · simp
            · have := hcmin r hr'
              simp only [decide_eq_true_eq]
              omega
          show some a = List.find?
            (fun q => (a :: cs).all fun r => decide (q.size - psize ≤ r.size - psize)) (a :: cs)
          rw [@List.find?_cons_of_pos Partition
            (fun q => (a :: cs).all fun r => decide (q.size - psize ≤ r.size - psize))
            a cs hQa]
        · rw [if_neg hca]
          show some c = List.find?
            (fun q => (a :: cs).all fun r => decide (q.size - psize ≤ r.size - psize)) (a :: cs)
          have hQa : ¬ (((a :: cs).all
              (fun r => decide (a.size - psize ≤ r.size - psize))) = true) := by
            intro hall
            have := List.all_eq_true.1 hall c (List.mem_cons_of_mem _ hcm)
            simp only [decide_eq_true_eq] at this
            omega
          rw [@List.find?_cons_of_neg Partition
            (fun q => (a :: cs).all fun r => decide (q.size - psize ≤ r.size - psize))
            a cs hQa]
          have hpoint : ∀ x ∈ cs,
              (fun q => (a :: cs).all (fun r => decide (q.size - psize ≤ r.size - psize))) x =
              (fun q => cs.all (fun r => decide (q.size - psize ≤ r.size - psize))) x := by
            intro x hx
            simp only [List.all_cons]
            cases hq : cs.all (fun r => decide (x.size - psize ≤ r.size - psize))
            · simp
            · have hxc := List.all_eq_true.1 hq c hcm
              simp only [decide_eq_true_eq] at hxc
              simp only [Bool.and_true, decide_eq_true_eq]
              omega
          rw [find?_congr_mem hpoint, hspec0]
    · rw [best_fit_rec, if_neg he]
      rw [ih]
      show _ = best_fit_spec (a :: rest) psize
      unfold best_fit_spec
      rw [List.filter_cons_of_neg (by simpa using he)]

/-- C5: `find_best_fit` returns, among the free partitions large enough for
the process, the first one in list order that minimizes `size − process.size`
(the specification-level `best_fit_spec`), and returns `none` exactly when no
free partition is large enough. -/
theorem find_best_fit_matches_spec (parts : List Partition) (psize : Nat) :
    find_best_fit parts psize = best_fit_spec parts psize ∧
    (find_best_fit parts psize = none ↔
      ∀ q ∈ parts, ¬(q.process = none ∧ psize ≤ q.size)) := by
  constructor
  · rw [find_best_fit_eq_rec, best_fit_rec_eq_spec]
  · rw [find_best_fit_eq_rec]
    exact best_fit_rec_none_iff

end Simulador

namespace Simulador

/-! ### Frame lemmas: updates touch only their own component -/

@[simp] theorem updateProc_partitions {s : SimState} {pid : Nat} {f : Process → Process} :
    (updateProc s pid f).partitions = s.partitions := rfl
@[simp] theorem updateProc_degree {s : SimState} {pid : Nat} {f : Process → Process} :
    (updateProc s pid f).degree_of_multiprogramming = s.degree_of_multiprogramming := rfl
@[simp] theorem updateProc_clock {s : SimState} {pid : Nat} {f : Process → Process} :
    (updateProc s pid f).clock = s.clock := rfl
@[simp] theorem updateProc_all {s : SimState} {pid : Nat} {f : Process → Process} :
    (updateProc s pid f).all_processes = s.all_processes := rfl
@[simp] theorem updateProc_ready {s : SimState} {pid : Nat} {f : Process → Process} :
    (updateProc s pid f).ready_queue = s.ready_queue := rfl
@[simp] theorem updateProc_suspended {s : SimState} {pid : Nat} {f : Process → Process} :
    (updateProc s pid f).suspended_queue = s.suspended_queue := rfl
@[simp] theorem updateProc_terminated {s : SimState} {pid : Nat} {f : Process → Process} :
    (updateProc s pid f).terminated_queue = s.terminated_queue := rfl
@[simp] theorem updateProc_current {s : SimState} {pid : Nat} {f : Process → Process} :
    (updateProc s pid f).current_process = s.current_process := rfl
@[simp] theorem updateProc_incomplete {s : SimState} {pid : Nat} {f : Process → Process} :
    (updateProc s pid f).incomplete = s.incomplete := rfl

@[simp] theorem updatePart_procs {s : SimState} {bid : Nat} {f : Partition → Partition} :
    (updatePart s bid f).procs = s.procs := rfl
@[simp] theorem updatePart_degree {s : SimState} {bid : Nat} {f : Partition → Partition} :
    (updatePart s bid f).degree_of_multiprogramming = s.degree_of_multiprogramming := rfl
@[simp] theorem updatePart_clock {s : SimState} {bid : Nat} {f : Partition → Partition} :
    (updatePart s bid f).clock = s.clock := rfl
@[simp] theorem updatePart_all {s : SimState} {bid : Nat} {f : Partition → Partition} :
    (updatePart s bid f).all_processes = s.all_processes := rfl
@[simp] theorem updatePart_ready {s : SimState} {bid : Nat} {f : Partition → Partition} :
    (updatePart s bid f).ready_queue = s.ready_queue := rfl
@[simp] theorem updatePart_suspended {s : SimState} {bid : Nat} {f : Partition → Partition} :
    (updatePart s bid f).suspended_queue = s.suspended_queue := rfl
@[simp] theorem updatePart_terminated {s : SimState} {bid : Nat} {f : Partition → Partition} :
    (updatePart s bid f).terminated_queue = s.terminated_queue := rfl
@[simp] theorem updatePart_current {s : SimState} {bid : Nat} {f : Partition → Partition} :
    (updatePart s bid f).current_process = s.current_process := rfl
@[simp] theorem updatePart_incomplete {s : SimState} {bid : Nat} {f : Partition → Partition} :
    (updatePart s bid f).incomplete = s.incomplete := rfl

/-- Two successive in-place updates of the same process compose. -/
theorem updateProc_updateProc {s : SimState} {pid : Nat} {f g : Process → Process}
    (hf : ∀ p, (f p).id = p.id) :
    updateProc (updateProc s pid f) pid g = updateProc s pid (fun p => g (f p)) := by
  unfold updateProc
  refine congrArg (fun l => { s with procs := l }) ?_
  rw [List.map_map]
  apply List.map_congr_left
  intro p _
  by_cases h : p.id = pid
  · simp [h, hf]
  · simp [h]

/-- Full characterization of `MemoryManager.allocate_process`: it fails,
leaving the state untouched, exactly when `find_best_fit` fails; otherwise
the (free) best-fit partition is assigned and the process marked Ready. -/
theorem allocate_process_char {s : SimState} {pid : Nat} {p : Process}
    (hbn : (s.partitions.map Partition.id).Nodup)
    (hp : lookupProc s pid = some p) :
    (find_best_fit s.partitions p.size = none ∧ allocate_process s pid = (false, s)) ∨
    (∃ q, find_best_fit s.partitions p.size = some q ∧ q ∈ s.partitions ∧
      q.process = none ∧ p.size ≤ q.size ∧
      allocate_process s pid =
        (true,
          updateProc
            (updatePart s q.id (fun q0 =>
              { q0 with process := some pid,
                        internal_fragmentation := q0.size - p.size }))
            pid
            (fun p0 => { p0 with partition := some q.id, state := PState.Ready }))) := by
  have hbody : allocate_process s pid =
      (match find_best_fit s.partitions p.size with
       | none => (false, s)
       | some q =>
         let s1 :=
           if partition_is_free q = true then s
           else
             match partition_free_op s q.id with
             | (none, s') => s'
             | (some oid, s') =>
               updateProc s' oid (fun p0 =>
                 { p0 with state := PState.Suspended, partition := none })
         let s2 := (assign_process s1 q.id pid).2
         let s3 := updateProc s2 pid (fun p0 => { p0 with state := PState.Ready })
         (true, s3)) := by
    unfold allocate_process
    rw [hp]
  cases hf : find_best_fit s.partitions p.size with
  | none =>
    left
    refine ⟨rfl, ?_⟩
    rw [hbody, hf]
  | some q =>
    right
    obtain ⟨hqmem, hqfree, hqsz⟩ := find_best_fit_free hf
    refine ⟨q, rfl, hqmem, hqfree, hqsz, ?_⟩
    have hfree' : partition_is_free q = true := partition_is_free_iff.2 hqfree
    have hQ : lookupPart s q.id = some q := lookupPart_of_mem_nodup hbn hqmem
    have hassign : assign_process s q.id pid =
        (true, updateProc (updatePart s q.id (fun q0 =>
          { q0 with process := some pid,
                    internal_fragmentation := q0.size - p.size })) pid
          (fun p0 => { p0 with partition := some q.id })) := by
      have hbody2 : assign_process s q.id pid =
          (if ¬ (partition_is_free q = true) then (false, s)
           else if q.size < p.size then (false, s)
           else (true, updateProc (updatePart s q.id (fun q0 =>
             { q0 with process := some pid,
                       internal_fragmentation := q0.size - p.size })) pid
             (fun p0 => { p0 with partition := some q.id }))) := by
        unfold assign_process
        rw [hQ, hp]
      rw [hbody2, if_neg (by simp [hfree']), if_neg (by omega)]
    rw [hbody, hf]
    show (let s1 :=
           if partition_is_free q = true then s
           else
             match partition_free_op s q.id with
             | (none, s') => s'
             | (some oid, s') =>
               updateProc s' oid (fun p0 =>
                 { p0 with state := PState.Suspended, partition := none })
         let s2 := (assign_process s1 q.id pid).2
         let s3 := updateProc s2 pid (fun p0 => { p0 with state := PState.Ready })
         (true, s3)) = _
    rw [if_pos hfree']
    show (true, updateProc (assign_process s q.id pid).2 pid
      (fun p0 => { p0 with state := PState.Ready })) = _
    rw [hassign]
    show (true, updateProc (updateProc (updatePart s q.id (fun q0 =>
        { q0 with process := some pid,
                  internal_fragmentation := q0.size - p.size })) pid
        (fun p0 => { p0 with partition := some q.id })) pid
        (fun p0 => { p0 with state := PState.Ready })) = _
    rw [@updateProc_updateProc _ _ (fun p0 => { p0 with partition := some q.id })
      (fun p0 => { p0 with state := PState.Ready }) (fun p0 => rfl)]

end Simulador

namespace Simulador

/-- Concrete store for exercising `allocate_process`: one unplaced process,
two free partitions (the 60K one is the best fit for 50K). -/
def c1p : Process := mkProcess ⟨1, 50, 0, 5⟩

def c1s : SimState :=
  { procs := [c1p]
    partitions := [mkPartition ⟨1, 100, 100⟩, mkPartition ⟨2, 60, 200⟩]
    degree_of_multiprogramming := 5
    clock := 0
    all_processes := []
    ready_queue := []
    suspended_queue := []
    terminated_queue := []
    current_process := none
    incomplete := false }

/-- C1: `allocate_process` finds the best fit; on success it assigns the
process to that partition, sets its state to Ready and returns true — and if
the found partition were occupied by a different process, that occupant would
be swapped out to Suspended with its partition reference cleared (with this
`find_best_fit`, the found partition is always free, so the eviction guard
never fires).  It returns false, leaving the state unchanged, exactly when no
free partition fits the process. -/
theorem allocate_process_spec (s : SimState) (pid : Nat) (p : Process)
    (hbn : (s.partitions.map Partition.id).Nodup)
    (hp : lookupProc s pid = some p) :
    (find_best_fit s.partitions p.size = none →
      allocate_process s pid = (false, s)) ∧
    ((allocate_process s pid).1 = false ↔
      ∀ q ∈ s.partitions, ¬(q.process = none ∧ p.size ≤ q.size)) ∧
    (∀ q, find_best_fit s.partitions p.size = some q →
      (allocate_process s pid).1 = true ∧
      (∀ oid, q.process = some oid → oid ≠ pid →
        stateOf (allocate_process s pid).2 oid = some PState.Suspended ∧
        (lookupProc (allocate_process s pid).2 oid).map Process.partition =
          some none) ∧
      lookupProc (allocate_process s pid).2 pid =
        some { p with partition := some q.id, state := PState.Ready } ∧
      lookupPart (allocate_process s pid).2 q.id =
        some { q with process := some pid,
                      internal_fragmentation := q.size - p.size }) := by
  rcases allocate_process_char hbn hp with ⟨hn, he⟩ | ⟨q, hf, hqmem, hqfree, hqsz, he⟩
  · refine ⟨fun _ => he, ?_, ?_⟩
    · constructor
      · intro _
        exact (find_best_fit_matches_spec s.partitions p.size).2.1 hn
      · intro _
        rw [he]
    · intro q hfq
      rw [hn] at hfq
      cases hfq
  · have hnofail : ¬ (find_best_fit s.partitions p.size = none) := by
      rw [hf]
      simp
    refine ⟨fun hn => absurd hn hnofail, ?_, ?_⟩
    · constructor
      · intro hfalse
        rw [he] at hfalse
        cases hfalse
      · intro hall
        exfalso
        exact hall q hqmem ⟨hqfree, hqsz⟩
    · intro q' hfq'
      rw [hf] at hfq'
      cases hfq'
      refine ⟨by rw [he], ?_, ?_, ?_⟩
      · intro oid hoid _
        rw [hqfree] at hoid
        cases hoid
      · rw [he]
        show lookupProc (updateProc _ pid _) pid = _
        refine Eq.trans (lookupProc_updateProc_self ?_) ?_
        · intro p0
          rfl
        · rw [lookupProc_updatePart, hp]
          rfl
      · rw [he]
        show lookupPart (updateProc _ pid _) q.id = _
        rw [lookupPart_updateProc]
        refine Eq.trans (lookupPart_updatePart_self ?_) ?_
        · intro q0
          rfl
        · rw [lookupPart_of_mem_nodup hbn hqmem]
          rfl

/-- C1 witness: at `c1s`, process 1 is allocated into the 60K partition. -/
theorem allocate_process_spec_witness :
    (allocate_process c1s 1).1 = true ∧
    lookupProc (allocate_process c1s 1).2 1 =
      some { c1p with partition := some 2, state := PState.Ready } := by
  have h := allocate_process_spec c1s 1 c1p (by decide) (by decide)
  have hq : find_best_fit c1s.partitions c1p.size = some (mkPartition ⟨2, 60, 200⟩) := by
    decide
  have h3 := h.2.2 _ hq
  exact ⟨h3.1, h3.2.2.1⟩

end Simulador

namespace Simulador

/-- Concrete store where process 1 already occupies partition 1 and another
free partition (2) also fits it. -/
def c9p : Process :=
  { mkProcess ⟨1, 50, 0, 5⟩ with state := PState.Ready, partition := some 1 }

/-- Partition 1, occupied by process 1. -/
def c9q1 : Partition :=
  { mkPartition ⟨1, 100, 100⟩ with process := some 1, internal_fragmentation := 50 }

def c9s : SimState :=
  { procs := [c9p]
    partitions := [c9q1, mkPartition ⟨2, 100, 200⟩]
    degree_of_multiprogramming := 5
    clock := 0
    all_processes := []
    ready_queue := [1]
    suspended_queue := []
    terminated_queue := []
    current_process := none
    incomplete := false }

/-- C9 counterexample: calling `allocate_process` on the already-placed
process 1 is NOT rejected — `find_best_fit` merely skips its occupied
partition, finds the free partition 2, returns true and mutates the state,
after which partition 1 still records process 1 as occupant while the
process's own reference points at partition 2. -/
theorem allocate_placed_counterexample :
    (lookupProc c9s 1).map Process.partition = some (some 1) ∧
    partProcOf c9s 1 = some (some 1) ∧
    (allocate_process c9s 1).1 = true ∧
    (allocate_process c9s 1).2 ≠ c9s ∧
    partProcOf (allocate_process c9s 1).2 1 = some (some 1) ∧
    partProcOf (allocate_process c9s 1).2 2 = some (some 1) ∧
    (lookupProc (allocate_process c9s 1).2 1).map Process.partition =
      some (some 2) := by
  refine ⟨by decide, by decide, by decide, by decide, by decide, by decide, by decide⟩

/-- C9 as amended: for a process that already occupies a partition,
`allocate_process` is rejected — leaving the whole state unchanged — exactly
when no free partition fits it; when some free partition fits, the call
instead succeeds, re-assigns the process there, and the originally occupied
partition still records the process as its occupant. -/
theorem allocate_placed_spec (s : SimState) (pid : Nat) (p : Process)
    (bid : Nat) (q : Partition)
    (hbn : (s.partitions.map Partition.id).Nodup)
    (hp : lookupProc s pid = some p)
    (hpb : p.partition = some bid)
    (hq : lookupPart s bid = some q)
    (hqp : q.process = some pid) :
    (find_best_fit s.partitions p.size = none →
      allocate_process s pid = (false, s)) ∧
    (∀ q', find_best_fit s.partitions p.size = some q' →
      q'.id ≠ bid ∧
      (allocate_process s pid).1 = true ∧
      lookupPart (allocate_process s pid).2 bid = some q ∧
      lookupProc (allocate_process s pid).2 pid =
        some { p with partition := some q'.id, state := PState.Ready }) := by
  rcases allocate_process_char hbn hp with ⟨hn, he⟩ | ⟨q0, hf, hqmem, hqfree, hqsz, he⟩
  · refine ⟨fun _ => he, ?_⟩
    intro q' hfq'
    rw [hn] at hfq'
    cases hfq'
  · have hnofail : find_best_fit s.partitions p.size ≠ none := by
      rw [hf]
      simp
    refine ⟨fun hn => absurd hn hnofail, ?_⟩
    intro q' hfq'
    rw [hf] at hfq'
    cases hfq'
    have hne : q0.id ≠ bid := by
      intro heq
      have : lookupPart s q0.id = some q0 := lookupPart_of_mem_nodup hbn hqmem
      rw [heq, hq] at this
      cases this
      rw [hqp] at hqfree
      cases hqfree
    refine ⟨hne, by rw [he], ?_, ?_⟩
    · rw [he]
      show lookupPart (updateProc _ pid _) bid = _
      rw [lookupPart_updateProc]
      refine Eq.trans (lookupPart_updatePart_ne ?_ (Ne.symm hne)) ?_
      · intro q0
        rfl
      · exact hq
    · rw [he]
      show lookupProc (updateProc _ pid _) pid = _
      refine Eq.trans (lookupProc_updateProc_self ?_) ?_
      · intro p0
        rfl
      · rw [lookupProc_updatePart, hp]
        rfl

/-- C9 amended witness: at `c9s` the re-allocation of the placed process 1
succeeds into partition 2 while partition 1 keeps claiming it. -/
theorem allocate_placed_spec_witness :
    (2 : Nat) ≠ 1 ∧
    (allocate_process c9s 1).1 = true ∧
    lookupPart (allocate_process c9s 1).2 1 = some c9q1 := by
  have h := allocate_placed_spec c9s 1 c9p 1 c9q1
    (by decide) (by decide) (by decide) (by decide) (by decide)
  have hq : find_best_fit c9s.partitions c9p.size = some (mkPartition ⟨2, 100, 200⟩) := by
    decide
  have h2 := h.2 _ hq
  exact ⟨h2.1, h2.2.1, h2.2.2.1⟩

end Simulador

namespace Simulador

/-! ### Queue helpers and allocator frame conditions -/

theorem mem_addIfAbsent (l : List Nat) (x : Nat) : x ∈ addIfAbsent l x := by
  unfold addIfAbsent
  split
  · assumption
  · simp

theorem mem_addIfAbsent_iff {l : List Nat} {x y : Nat} :
    y ∈ addIfAbsent l x ↔ y ∈ l ∨ y = x := by
  unfold addIfAbsent
  split
  · constructor
    · exact Or.inl
    · intro h
      rcases h with h | rfl
      · exact h
      · assumption
  · simp

theorem nodup_addIfAbsent {l : List Nat} {x : Nat} (h : l.Nodup) :
    (addIfAbsent l x).Nodup := by
  unfold addIfAbsent
  split
  · exact h
  · rw [List.nodup_append]
    exact ⟨h, List.nodup_singleton x, by simpa using fun hx => by simp_all⟩

theorem mem_foldl_erase {x : Nat} :
    ∀ (rem : List Nat) (l : List Nat), l.Nodup →
    (x ∈ rem.foldl (fun q pid => q.erase pid) l ↔ x ∈ l ∧ x ∉ rem) := by
  intro rem
  induction rem with
  | nil => simp
  | cons r rest ih =>
    intro l hl
    rw [List.foldl_cons, ih (l.erase r) (hl.erase r)]
    rw [hl.mem_erase_iff]
    simp only [List.mem_cons]
    constructor
    · rintro ⟨⟨hxr, hxl⟩, hxrest⟩
      exact ⟨hxl, by rintro (rfl | h) <;> simp_all⟩
    · rintro ⟨hxl, hx⟩
      exact ⟨⟨fun he => hx (Or.inl he), hxl⟩, fun h => hx (Or.inr h)⟩

theorem nodup_foldl_erase :
    ∀ (rem : List Nat) (l : List Nat), l.Nodup →
    (rem.foldl (fun q pid => q.erase pid) l).Nodup := by
  intro rem
  induction rem with
  | nil => intro l hl; exact hl
  | cons r rest ih =>
    intro l hl
    rw [List.foldl_cons]
    exact ih _ (hl.erase r)

theorem sameShape_refl (s : SimState) : SameShape s s :=
  ⟨rfl, rfl, rfl, rfl, rfl, rfl, rfl, rfl⟩

theorem sameShape_updateProc {s t : SimState} {pid : Nat} {f : Process → Process}
    (h : SameShape s t) : SameShape s (updateProc t pid f) := h

theorem sameShape_updatePart {s t : SimState} {bid : Nat} {f : Partition → Partition}
    (h : SameShape s t) : SameShape s (updatePart t bid f) := h

theorem sameShape_partition_free_op {s t : SimState} (bid : Nat)
    (h : SameShape s t) : SameShape s (partition_free_op t bid).2 := by
  unfold partition_free_op
  split
  · exact h
  · split
    · exact h
    · exact sameShape_updatePart (sameShape_updateProc h)

theorem sameShape_assign {s t : SimState} {bid pid : Nat}
    (h : SameShape s t) : SameShape s (assign_process t bid pid).2 := by
  unfold assign_process
  split
  · split
    · exact h
    · split
      · exact h
      · exact sameShape_updateProc (sameShape_updatePart h)
  · exact h

theorem sameShape_allocate {s t : SimState} {pid : Nat}
    (h : SameShape s t) : SameShape s (allocate_process t pid).2 := by
  unfold allocate_process
  split
  · exact h
  · split
    · exact h
    · next q hq =>
      show SameShape s (updateProc (assign_process _ q.id pid).2 pid _)
      apply sameShape_updateProc
      apply sameShape_assign
      split
      · exact h
      · split
        · next s1 heq =>
          have hf := sameShape_partition_free_op q.id h
          rw [heq] at hf
          exact hf
        · next oid s1 heq =>
          apply sameShape_updateProc
          have hf := sameShape_partition_free_op q.id h
          rw [heq] at hf
          exact hf

end Simulador

namespace Simulador

/-! ### The suspended re-admission loop -/

theorem go_frame {degree : Nat} : ∀ (pending : List Nat) (dom : Nat) (s : SimState)
    (acc : List Nat),
    (try_load_suspended_go degree pending dom s acc).1.suspended_queue = s.suspended_queue ∧
    (try_load_suspended_go degree pending dom s acc).1.all_processes = s.all_processes ∧
    (try_load_suspended_go degree pending dom s acc).1.terminated_queue = s.terminated_queue ∧
    (try_load_suspended_go degree pending dom s acc).1.current_process = s.current_process ∧
    (try_load_suspended_go degree pending dom s acc).1.clock = s.clock := by
  intro pending
  induction pending with
  | nil => intro dom s acc; exact ⟨rfl, rfl, rfl, rfl, rfl⟩
  | cons pid rest ih =>
    intro dom s acc
    rw [try_load_suspended_go]
    split
    · exact ⟨rfl, rfl, rfl, rfl, rfl⟩
    · split
      · next s1 heq =>
        have hall := @sameShape_allocate s s pid (sameShape_refl s)
        rw [heq] at hall
        obtain ⟨hd, hc, ha, hr, hs, ht, hcur, hi⟩ := hall
        have hrec := ih (dom + 1)
          ({ s1 with ready_queue := addIfAbsent s1.ready_queue pid }) (acc ++ [pid])
        exact ⟨hrec.1.trans hs, hrec.2.1.trans ha, hrec.2.2.1.trans ht,
          hrec.2.2.2.1.trans hcur, hrec.2.2.2.2.trans hc⟩
      · next s1 heq =>
        have hall := @sameShape_allocate s s pid (sameShape_refl s)
        rw [heq] at hall
        obtain ⟨hd, hc, ha, hr, hs, ht, hcur, hi⟩ := hall
        have hrec := ih dom s1 acc
        exact ⟨hrec.1.trans hs, hrec.2.1.trans ha, hrec.2.2.1.trans ht,
          hrec.2.2.2.1.trans hcur, hrec.2.2.2.2.trans hc⟩

theorem go_ready_mono {degree : Nat} : ∀ (pending : List Nat) (dom : Nat) (s : SimState)
    (acc : List Nat) (x : Nat), x ∈ s.ready_queue →
    x ∈ (try_load_suspended_go degree pending dom s acc).1.ready_queue := by
  intro pending
  induction pending with
  | nil => intro dom s acc x hx; exact hx
  | cons pid rest ih =>
    intro dom s acc x hx
    rw [try_load_suspended_go]
    split
    · exact hx
    · split
      · next s1 heq =>
        have hall := @sameShape_allocate s s pid (sameShape_refl s)
        rw [heq] at hall
        apply ih
        show x ∈ addIfAbsent s1.ready_queue pid
        rw [mem_addIfAbsent_iff]
        exact Or.inl (hall.2.2.2.1.symm ▸ hx)
      · next s1 heq =>
        have hall := @sameShape_allocate s s pid (sameShape_refl s)
        rw [heq] at hall
        apply ih
        exact hall.2.2.2.1.symm ▸ hx

theorem go_ready_sub {degree : Nat} : ∀ (pending : List Nat) (dom : Nat) (s : SimState)
    (acc : List Nat) (x : Nat),
    x ∈ (try_load_suspended_go degree pending dom s acc).1.ready_queue →
    x ∈ s.ready_queue ∨ x ∈ pending := by
  intro pending
  induction pending with
  | nil => intro dom s acc x hx; exact Or.inl hx
  | cons pid rest ih =>
    intro dom s acc x hx
    rw [try_load_suspended_go] at hx
    split at hx
    · exact Or.inl hx
    · split at hx
      · next s1 heq =>
        have hall := @sameShape_allocate s s pid (sameShape_refl s)
        rw [heq] at hall
        rcases ih _ _ _ _ hx with hx' | hx'
        · replace hx' : x ∈ addIfAbsent s1.ready_queue pid := hx'
          rw [mem_addIfAbsent_iff] at hx'
          rcases hx' with hx' | rfl
          · exact Or.inl (hall.2.2.2.1 ▸ hx')
          · exact Or.inr (List.mem_cons_self _ _)
        · exact Or.inr (List.mem_cons_of_mem _ hx')
      · next s1 heq =>
        have hall := @sameShape_allocate s s pid (sameShape_refl s)
        rw [heq] at hall
        rcases ih _ _ _ _ hx with hx' | hx'
        · exact Or.inl (hall.2.2.2.1 ▸ hx')
        · exact Or.inr (List.mem_cons_of_mem _ hx')

theorem go_acc_mono {degree : Nat} : ∀ (pending : List Nat) (dom : Nat) (s : SimState)
    (acc : List Nat) (x : Nat), x ∈ acc →
    x ∈ (try_load_suspended_go degree pending dom s acc).2 := by
  intro pending
  induction pending with
  | nil => intro dom s acc x hx; exact hx
  | cons pid rest ih =>
    intro dom s acc x hx
    rw [try_load_suspended_go]
    split
    · exact hx
    · split
      · apply ih
        exact List.mem_append_left _ hx
      · exact ih _ _ _ _ hx

theorem go_acc_sub {degree : Nat} : ∀ (pending : List Nat) (dom : Nat) (s : SimState)
    (acc : List Nat) (x : Nat),
    x ∈ (try_load_suspended_go degree pending dom s acc).2 →
    x ∈ acc ∨ x ∈ pending := by
  intro pending
  induction pending with
  | nil => intro dom s acc x hx; exact Or.inl hx
  | cons pid rest ih =>
    intro dom s acc x hx
    rw [try_load_suspended_go] at hx
    split at hx
    · exact Or.inl hx
    · split at hx
      · rcases ih _ _ _ _ hx with hx' | hx'
        · rcases List.mem_append.1 hx' with hx'' | hx''
          · exact Or.inl hx''
          · simp only [List.mem_singleton] at hx''
            exact Or.inr (hx'' ▸ List.mem_cons_self _ _)
        · exact Or.inr (List.mem_cons_of_mem _ hx')
      · rcases ih _ _ _ _ hx with hx' | hx'
        · exact Or.inl hx'
        · exact Or.inr (List.mem_cons_of_mem _ hx')

end Simulador

namespace Simulador

/-- An allocation that reports failure leaves the state untouched. -/
theorem allocate_pair (s : SimState) (pid : Nat) :
    allocate_process s pid = (false, s) ∨ (allocate_process s pid).1 = true := by
  unfold allocate_process
  split
  · exact Or.inl rfl
  · split
    · exact Or.inl rfl
    · exact Or.inr rfl

theorem allocate_false_eq (s : SimState) (pid : Nat)
    (h : (allocate_process s pid).1 = false) : (allocate_process s pid).2 = s := by
  rcases allocate_pair s pid with he | ht
  · rw [he]
  · rw [ht] at h
    cases h

end Simulador

namespace Simulador

/-- C2 counterexample: with degree 1 and two simultaneous arrivals, the
resident count counted before the tick's admission decisions is 0 < 1, and
the allocator would succeed for process 2 at its decision point, yet the
engine suspends process 2 without consulting the allocator, because the
count is re-read at each admission and process 1 was admitted first. -/
theorem admission_before_tick_counterexample :
    current_dom c2s0 < c2s0.degree_of_multiprogramming ∧
    arrive_new_processes c2s0 = try_load_to_memory c2mid 2 ∧
    c2s0.degree_of_multiprogramming ≤ current_dom c2mid ∧
    (allocate_process c2mid 2).1 = true ∧
    2 ∈ (arrive_new_processes c2s0).suspended_queue ∧
    2 ∉ (arrive_new_processes c2s0).ready_queue ∧
    stateOf (arrive_new_processes c2s0) 2 = some PState.Suspended := by
  refine ⟨by decide, by decide, by decide, by decide, by decide, by decide, by decide⟩

/-- C2 as amended: at each admission decision the engine re-reads the
resident count `len(ready) + (1 if executing)` (so admissions earlier in the
same tick are counted).  If that count has reached the degree, the process is
suspended without consulting the allocator; otherwise the allocator is
called: successes land in the ready queue, failures in the suspended queue,
and for suspended re-admission a failed process simply stays suspended. -/
theorem admission_rule_spec (s : SimState) (pid : Nat) :
    (s.degree_of_multiprogramming ≤ current_dom s →
      try_load_to_memory s pid =
        { updateProc s pid (fun p0 => { p0 with state := PState.Suspended }) with
          suspended_queue := addIfAbsent s.suspended_queue pid } ∧
      pid ∈ (try_load_to_memory s pid).suspended_queue) ∧
    (current_dom s < s.degree_of_multiprogramming →
      ((allocate_process s pid).1 = true →
        try_load_to_memory s pid =
          { (allocate_process s pid).2 with
            ready_queue := addIfAbsent (allocate_process s pid).2.ready_queue pid
            suspended_queue := (allocate_process s pid).2.suspended_queue.erase pid } ∧
        pid ∈ (try_load_to_memory s pid).ready_queue) ∧
      ((allocate_process s pid).1 = false →
        try_load_to_memory s pid =
          { updateProc s pid (fun p0 => { p0 with state := PState.Suspended }) with
            suspended_queue := addIfAbsent s.suspended_queue pid } ∧
        pid ∈ (try_load_to_memory s pid).suspended_queue)) ∧
    (s.degree_of_multiprogramming ≤ current_dom s → try_load_suspended s = s) ∧
    (∀ rest, s.suspended_queue = pid :: rest → s.suspended_queue.Nodup →
      pid ∉ s.ready_queue →
      current_dom s < s.degree_of_multiprogramming →
      ((allocate_process s pid).1 = true →
        pid ∈ (try_load_suspended s).ready_queue ∧
        pid ∉ (try_load_suspended s).suspended_queue) ∧
      ((allocate_process s pid).1 = false →
        pid ∈ (try_load_suspended s).suspended_queue ∧
        pid ∉ (try_load_suspended s).ready_queue)) := by
  refine ⟨?_, ?_, ?_, ?_⟩
  · intro h
    have heq : try_load_to_memory s pid =
        { updateProc s pid (fun p0 => { p0 with state := PState.Suspended }) with
          suspended_queue := addIfAbsent s.suspended_queue pid } := by
      unfold try_load_to_memory
      rw [if_pos h]
      rfl
    exact ⟨heq, by rw [heq]; exact mem_addIfAbsent _ _⟩
  · intro hdom
    have hnle : ¬ (s.degree_of_multiprogramming ≤ current_dom s) := not_le.2 hdom
    constructor
    · intro hT
      rcases allocate_pair s pid with he | _
      · rw [he] at hT
        cases hT
      · cases hA : allocate_process s pid with
      | mk b s1 =>
        rw [hA] at hT
        cases b
        · cases hT
        · have heq : try_load_to_memory s pid =
              { s1 with ready_queue := addIfAbsent s1.ready_queue pid,
                        suspended_queue := s1.suspended_queue.erase pid } := by
            unfold try_load_to_memory
            rw [if_neg hnle, hA]
          refine ⟨by rw [heq], ?_⟩
          rw [heq]
          exact mem_addIfAbsent _ _
    · intro hF
      have hs1 := allocate_false_eq s pid hF
      cases hA : allocate_process s pid with
      | mk b s1 =>
        rw [hA] at hF hs1
        cases b
        · have heq : try_load_to_memory s pid =
              { updateProc s1 pid (fun p0 => { p0 with state := PState.Suspended }) with
                suspended_queue := addIfAbsent s1.suspended_queue pid } := by
            unfold try_load_to_memory
            rw [if_neg hnle, hA]
            rfl
          replace hs1 : s1 = s := hs1
          subst hs1
          exact ⟨heq, by rw [heq]; exact mem_addIfAbsent _ _⟩
        · cases hF
  · intro h
    unfold try_load_suspended
    rw [if_pos h]
  · intro rest hsq hnd hnr hdom
    have hnle : ¬ (s.degree_of_multiprogramming ≤ current_dom s) := not_le.2 hdom
    have hts : try_load_suspended s =
        { (try_load_suspended_go s.degree_of_multiprogramming s.suspended_queue
            (current_dom s) s []).1 with
          suspended_queue :=
            (try_load_suspended_go s.degree_of_multiprogramming s.suspended_queue
              (current_dom s) s []).2.foldl (fun q pid => q.erase pid)
              (try_load_suspended_go s.degree_of_multiprogramming s.suspended_queue
                (current_dom s) s []).1.suspended_queue } := by
      unfold try_load_suspended
      rw [if_neg hnle]
    have hpidrest : pid ∉ rest := by
      rw [hsq] at hnd
      exact (List.nodup_cons.1 hnd).1
    constructor
    · intro hT
      cases hA : allocate_process s pid with
      | mk b s1 =>
        rw [hA] at hT
        cases b
        · cases hT
        · have hstep : try_load_suspended_go s.degree_of_multiprogramming (pid :: rest)
              (current_dom s) s [] =
              try_load_suspended_go s.degree_of_multiprogramming rest (current_dom s + 1)
                ({ s1 with ready_queue := addIfAbsent s1.ready_queue pid }) [pid] := by
            rw [try_load_suspended_go, if_neg hnle, hA]
            rfl
          have hall := @sameShape_allocate s s pid (sameShape_refl s)
          rw [hA] at hall
          constructor
          · rw [hts]
            show pid ∈ (try_load_suspended_go s.degree_of_multiprogramming
              s.suspended_queue (current_dom s) s []).1.ready_queue
            rw [hsq, hstep]
            apply go_ready_mono
            exact mem_addIfAbsent _ _
          · rw [hts]
            show ¬ (pid ∈ (try_load_suspended_go s.degree_of_multiprogramming
              s.suspended_queue (current_dom s) s []).2.foldl (fun q pid => q.erase pid)
              (try_load_suspended_go s.degree_of_multiprogramming s.suspended_queue
                (current_dom s) s []).1.suspended_queue)
            rw [hsq, hstep]
            have hsusp := (@go_frame s.degree_of_multiprogramming rest (current_dom s + 1)
              ({ s1 with ready_queue := addIfAbsent s1.ready_queue pid }) [pid]).1
            rw [hsusp]
            show ¬ (pid ∈ _)
            have hsusp2 : ({ s1 with ready_queue := addIfAbsent s1.ready_queue pid } :
                SimState).suspended_queue = s.suspended_queue := hall.2.2.2.2.1
            rw [hsusp2, mem_foldl_erase _ _ hnd]
            intro hmem
            exact hmem.2 (go_acc_mono _ _ _ _ _ (by simp))
    · intro hF
      have hs1 := allocate_false_eq s pid hF
      cases hA : allocate_process s pid with
      | mk b s1 =>
        rw [hA] at hF hs1
        cases b
        · replace hs1 : s1 = s := hs1
          rw [hs1] at hA
          have hstep : try_load_suspended_go s.degree_of_multiprogramming (pid :: rest)
              (current_dom s) s [] =
              try_load_suspended_go s.degree_of_multiprogramming rest (current_dom s) s [] := by
            rw [try_load_suspended_go, if_neg hnle, hA]
          constructor
          · rw [hts]
            show pid ∈ (try_load_suspended_go s.degree_of_multiprogramming
              s.suspended_queue (current_dom s) s []).2.foldl (fun q pid => q.erase pid)
              (try_load_suspended_go s.degree_of_multiprogramming s.suspended_queue
                (current_dom s) s []).1.suspended_queue
            rw [hsq, hstep]
            have hsusp := (@go_frame s.degree_of_multiprogramming rest (current_dom s) s []).1
            rw [hsusp, mem_foldl_erase _ _ hnd]
            refine ⟨by rw [hsq]; exact List.mem_cons_self _ _, ?_⟩
            intro hmem
            rcases go_acc_sub _ _ _ _ _ hmem with h0 | h0
            · cases h0
            · exact hpidrest h0
          · rw [hts]
            show ¬ (pid ∈ (try_load_suspended_go s.degree_of_multiprogramming
              s.suspended_queue (current_dom s) s []).1.ready_queue)
            rw [hsq, hstep]
            intro hmem
            rcases go_ready_sub _ _ _ _ _ hmem with h0 | h0
            · exact hnr h0
            · exact hpidrest h0
        · cases hF

/-- C2 amended witness: with one free partition and degree 1, a lone process
is admitted to the ready queue, and once the resident count reaches the
degree the suspended re-admission pass does nothing. -/
theorem admission_rule_spec_witness :
    7 ∈ (try_load_to_memory c2w 7).ready_queue ∧
    try_load_suspended { c2w with ready_queue := [7] } =
      { c2w with ready_queue := [7] } := by
  have h := admission_rule_spec c2w 7
  have h2 := admission_rule_spec { c2w with ready_queue := [7] } 7
  exact ⟨((h.2.1 (by decide)).1 (by decide)).2, h2.2.2.1 (by decide)⟩

end Simulador

namespace Simulador

/-! ### SRTF selection and preemption -/

theorem minByRemaining_none_iff : ∀ {l : List Process},
    minByRemaining l = none ↔ l = [] := by
  intro l
  cases l with
  | nil => simp [minByRemaining]
  | cons p rest =>
    simp only [minByRemaining]
    cases minByRemaining rest <;> simp
    split <;> simp

theorem minByRemaining_mem : ∀ {l : List Process} {p : Process},
    minByRemaining l = some p → p ∈ l := by
  intro l
  induction l with
  | nil => intro p h; cases h
  | cons a rest ih =>
    intro p h
    rw [minByRemaining] at h
    cases hm : minByRemaining rest with
    | none =>
      rw [hm] at h
      replace h : some a = some p := h
      cases h
      exact List.mem_cons_self _ _
    | some q =>
      rw [hm] at h
      replace h : (if a.remaining_time ≤ q.remaining_time then some a else some q) = some p := h
      by_cases hle : a.remaining_time ≤ q.remaining_time
      · rw [if_pos hle] at h
        cases h
        exact List.mem_cons_self _ _
      · rw [if_neg hle] at h
        cases h
        exact List.mem_cons_of_mem _ (ih hm)

theorem minByRemaining_le : ∀ {l : List Process} {p : Process},
    minByRemaining l = some p → ∀ q ∈ l, p.remaining_time ≤ q.remaining_time := by
  intro l
  induction l with
  | nil => intro p h; cases h
  | cons a rest ih =>
    intro p h q hq
    rw [minByRemaining] at h
    cases hm : minByRemaining rest with
    | none =>
      rw [hm] at h
      replace h : some a = some p := h
      cases h
      rcases List.mem_cons.1 hq with rfl | hq'
      · exact le_refl _
      · rw [minByRemaining_none_iff.1 hm] at hq'
        cases hq'
    | some m =>
      rw [hm] at h
      replace h : (if a.remaining_time ≤ m.remaining_time then some a else some m) = some p := h
      by_cases hle : a.remaining_time ≤ m.remaining_time
      · rw [if_pos hle] at h
        cases h
        rcases List.mem_cons.1 hq with rfl | hq'
        · exact le_refl _
        · exact le_trans hle (ih hm q hq')
      · rw [if_neg hle] at h
        cases h
        rcases List.mem_cons.1 hq with rfl | hq'
        · omega
        · exact ih hm q hq'

/-- C3: `should_preempt` is true iff a process is executing and some ready
process has strictly smaller remaining time; in that situation
`_schedule_process` preempts the running process — its state becomes Ready
and it is returned to the ready queue, with the CPU cleared — before the
selection half runs on the resulting state. -/
theorem srtf_preempt_spec (s : SimState) :
    (should_preempt s = true ↔
      ∃ c cur, s.current_process = some c ∧ lookupProc s c = some cur ∧
        ∃ r ∈ readyProcs s, r.remaining_time < cur.remaining_time) ∧
    (∀ c cur, s.current_process = some c → lookupProc s c = some cur →
      (∃ r ∈ readyProcs s, r.remaining_time < cur.remaining_time) →
      should_preempt s = true ∧
      schedule_process s = selection_phase (preempt_phase s) ∧
      (preempt_phase s).current_process = none ∧
      c ∈ (preempt_phase s).ready_queue ∧
      lookupProc (preempt_phase s) c = some { cur with state := PState.Ready }) := by
  have hiff : should_preempt s = true ↔
      ∃ c cur, s.current_process = some c ∧ lookupProc s c = some cur ∧
        ∃ r ∈ readyProcs s, r.remaining_time < cur.remaining_time := by
    constructor
    · intro h
      unfold should_preempt at h
      cases hc : s.current_process with
      | none => rw [hc] at h; cases h
      | some c =>
        rw [hc] at h
        replace h : (match lookupProc s c with
          | none => false
          | some cur =>
            match minByRemaining (readyProcs s) with
            | none => false
            | some best => decide (best.remaining_time < cur.remaining_time)) = true := h
        cases hl : lookupProc s c with
        | none => rw [hl] at h; cases h
        | some cur =>
          rw [hl] at h
          replace h : (match minByRemaining (readyProcs s) with
            | none => false
            | some best =>
              decide (best.remaining_time < cur.remaining_time)) = true := h
          cases hm : minByRemaining (readyProcs s) with
          | none => rw [hm] at h; cases h
          | some best =>
            rw [hm] at h
            replace h : decide (best.remaining_time < cur.remaining_time) = true := h
            refine ⟨c, cur, rfl, hl, best, minByRemaining_mem hm, ?_⟩
            simpa using h
    · rintro ⟨c, cur, hc, hl, r, hr, hlt⟩
      unfold should_preempt
      rw [hc]
      show (match lookupProc s c with
        | none => false
        | some cur =>
          match minByRemaining (readyProcs s) with
          | none => false
          | some best => decide (best.remaining_time < cur.remaining_time)) = true
      rw [hl]
      show (match minByRemaining (readyProcs s) with
        | none => false
        | some best => decide (best.remaining_time < cur.remaining_time)) = true
      cases hm : minByRemaining (readyProcs s) with
      | none =>
        rw [minByRemaining_none_iff.1 hm] at hr
        cases hr
      | some best =>
        have hble := minByRemaining_le hm r hr
        show decide (best.remaining_time < cur.remaining_time) = true
        simp only [decide_eq_true_eq]
        omega
  refine ⟨hiff, ?_⟩
  intro c cur hc hl hex
  have hsp : should_preempt s = true := hiff.2 ⟨c, cur, hc, hl, hex⟩
  have hpc : preempt_current s =
      (some c, { updateProc s c (fun p0 => { p0 with state := PState.Ready }) with
                 current_process := none }) := by
    unfold preempt_current
    rw [hc]
  have hpp : preempt_phase s =
      { updateProc s c (fun p0 => { p0 with state := PState.Ready }) with
        current_process := none,
        ready_queue := addIfAbsent s.ready_queue c } := by
    unfold preempt_phase
    rw [if_pos hsp, hpc]
    rfl
  refine ⟨hsp, rfl, by rw [hpp], by rw [hpp]; exact mem_addIfAbsent _ _, ?_⟩
  rw [hpp]
  show lookupProc (updateProc s c (fun p0 => { p0 with state := PState.Ready })) c = _
  refine Eq.trans (lookupProc_updateProc_self ?_) ?_
  · intro p0
    rfl
  · rw [hl]
    rfl

/-- C3 witness: at `c3s` (running remaining 9, ready remaining 3) the
preemption fires and returns process 1 to the ready queue. -/
theorem srtf_preempt_spec_witness :
    should_preempt c3s = true ∧
    (preempt_phase c3s).current_process = none ∧
    1 ∈ (preempt_phase c3s).ready_queue := by
  have h := (srtf_preempt_spec c3s).2 1 c3p1 (by decide) (by decide)
    ⟨c3p2, by decide, by decide⟩
  exact ⟨h.1, h.2.2.1, h.2.2.2.1⟩

end Simulador

namespace Simulador

/-- C4: when the running process's remaining time reaches 0 during the
execution step of a tick, the engine stamps `finish_time = clock + 1`,
recomputes `turnaround_time = finish − arrival` and (overriding the accrued
counter) `wait_time = first_execution_time − arrival`, frees its partition,
moves it to the terminated queue and clears the CPU. -/
theorem execute_finish_spec (s : SimState) (c : Nat) (cur : Process)
    (f bid : Nat) (q : Partition)
    (hc : s.current_process = some c)
    (hl : lookupProc s c = some cur)
    (hfe : cur.first_execution_time = some f)
    (hr : cur.remaining_time ≤ 1)
    (hpb : cur.partition = some bid)
    (hq : lookupPart s bid = some q)
    (hqp : q.process = some c) :
    lookupProc (sim_execute_tick s) c =
      some { cur with
        remaining_time := cur.remaining_time - 1,
        state := PState.Terminated,
        finish_time := (s.clock : Int) + 1,
        turnaround_time := ((s.clock : Int) + 1) - (cur.arrival_time : Int),
        wait_time := (f : Int) - (cur.arrival_time : Int),
        partition := none } ∧
    lookupPart (sim_execute_tick s) bid =
      some { q with process := none, internal_fragmentation := 0 } ∧
    c ∈ (sim_execute_tick s).terminated_queue ∧
    (sim_execute_tick s).current_process = none := by
  set F1 : Process → Process := fun p0 =>
    { p0 with remaining_time := p0.remaining_time - 1,
              state := PState.Terminated } with hF1
  set s1x : SimState := { updateProc s c F1 with current_process := none } with hs1x
  set F2 : Process → Process := fun p0 =>
    { p0 with finish_time := (s.clock : Int) + 1 } with hF2
  set B : SimState := updateProc s1x c F2 with hB
  set C : SimState := updateProc B c calculate_statistics with hCdef
  set D : SimState := free_process C c with hDdef
  have hst : sched_execute_tick s = (some c, s1x) := by
    unfold sched_execute_tick
    rw [hc]
    show (match lookupProc s c with
      | none => (none, s)
      | some p =>
        let s1 := updateProc s c (fun p0 =>
          { p0 with remaining_time := p0.remaining_time - 1 })
        if p.remaining_time - 1 ≤ 0 then
          (some c,
            { updateProc s1 c (fun p0 => { p0 with state := PState.Terminated }) with
              current_process := none })
        else (none, s1)) = _
    rw [hl]
    show (if cur.remaining_time - 1 ≤ 0 then
        (some c,
          { updateProc (updateProc s c (fun p0 =>
              { p0 with remaining_time := p0.remaining_time - 1 })) c
              (fun p0 => { p0 with state := PState.Terminated }) with
            current_process := none })
      else (none, updateProc s c (fun p0 =>
        { p0 with remaining_time := p0.remaining_time - 1 }))) = _
    rw [if_pos (by omega),
      @updateProc_updateProc s c
        (fun p0 => { p0 with remaining_time := p0.remaining_time - 1 })
        (fun p0 => { p0 with state := PState.Terminated }) (fun p0 => rfl)]
  have hcur1 : lookupProc s1x c = some (F1 cur) := by
    show lookupProc (updateProc s c F1) c = _
    refine Eq.trans (lookupProc_updateProc_self ?_) ?_
    · intro p0
      rfl
    · rw [hl]
      rfl
  have hsim : sim_execute_tick s =
      { D with terminated_queue := addIfAbsent D.terminated_queue c,
               current_process := none } := by
    unfold sim_execute_tick
    rw [hst]
    show (match lookupProc s1x c with
      | none => s1x
      | some p =>
        if p.remaining_time ≤ 0 ∧ p.state = PState.Terminated then
          (let s2 := updateProc s1x c (fun p0 =>
              { p0 with finish_time := (s1x.clock : Int) + 1 })
           let s3 := updateProc s2 c calculate_statistics
           let s4 := free_process s3 c
           let s5 := { s4 with terminated_queue := addIfAbsent s4.terminated_queue c }
           { s5 with current_process := none })
        else s1x) = _
    rw [hcur1]
    show (if (F1 cur).remaining_time ≤ 0 ∧ (F1 cur).state = PState.Terminated then
        (let s2 := updateProc s1x c (fun p0 =>
            { p0 with finish_time := (s1x.clock : Int) + 1 })
         let s3 := updateProc s2 c calculate_statistics
         let s4 := free_process s3 c
         let s5 := { s4 with terminated_queue := addIfAbsent s4.terminated_queue c }
         { s5 with current_process := none })
      else s1x) = _
    rw [if_pos (⟨by show cur.remaining_time - 1 ≤ 0; omega, rfl⟩ :
      (F1 cur).remaining_time ≤ 0 ∧ (F1 cur).state = PState.Terminated)]
    rfl
  have hcur2 : lookupProc B c = some (F2 (F1 cur)) := by
    refine Eq.trans (lookupProc_updateProc_self ?_) ?_
    · intro p0
      rfl
    · rw [hcur1]
      rfl
  have hcsid : ∀ p0 : Process, (calculate_statistics p0).id = p0.id := by
    intro p0
    unfold calculate_statistics
    cases p0.first_execution_time <;> rfl
  have hstat : calculate_statistics (F2 (F1 cur)) =
      { cur with remaining_time := cur.remaining_time - 1,
                 state := PState.Terminated,
                 finish_time := (s.clock : Int) + 1,
                 turnaround_time := ((s.clock : Int) + 1) - (cur.arrival_time : Int),
                 wait_time := (f : Int) - (cur.arrival_time : Int) } := by
    unfold calculate_statistics
    rw [show (F2 (F1 cur)).first_execution_time = some f from hfe]
  have hcur3 : lookupProc C c =
      some { cur with remaining_time := cur.remaining_time - 1,
                      state := PState.Terminated,
                      finish_time := (s.clock : Int) + 1,
                      turnaround_time := ((s.clock : Int) + 1) - (cur.arrival_time : Int),
                      wait_time := (f : Int) - (cur.arrival_time : Int) } := by
    refine Eq.trans (lookupProc_updateProc_self hcsid) ?_
    rw [hcur2]
    show some (calculate_statistics (F2 (F1 cur))) = _
    rw [hstat]
  have hqC : lookupPart C bid = some q := hq
  have hpf : partition_free_op C bid = (some c,
      updatePart (updateProc C c (fun p0 => { p0 with partition := none })) bid
        (fun q0 => { q0 with process := none, internal_fragmentation := 0 })) := by
    unfold partition_free_op
    rw [hqC]
    show (match q.process with
      | none => (none, C)
      | some oid =>
        (some oid,
          updatePart (updateProc C oid (fun p0 => { p0 with partition := none })) bid
            (fun q0 => { q0 with process := none, internal_fragmentation := 0 }))) = _
    rw [hqp]
  have hpb2 : ({ cur with
      remaining_time := cur.remaining_time - 1,
      state := PState.Terminated,
      finish_time := (s.clock : Int) + 1,
      turnaround_time := ((s.clock : Int) + 1) - (cur.arrival_time : Int),
      wait_time := (f : Int) - (cur.arrival_time : Int) } : Process).partition =
      some bid := hpb
  have hDeq : D = updateProc
      (updatePart (updateProc C c (fun p0 => { p0 with partition := none })) bid
        (fun q0 => { q0 with process := none, internal_fragmentation := 0 })) c
      (fun p0 => { p0 with partition := none }) := by
    rw [hDdef]
    unfold free_process
    rw [hcur3]
    show (match ({ cur with
        remaining_time := cur.remaining_time - 1,
        state := PState.Terminated,
        finish_time := (s.clock : Int) + 1,
        turnaround_time := ((s.clock : Int) + 1) - (cur.arrival_time : Int),
        wait_time := (f : Int) - (cur.arrival_time : Int) } : Process).partition with
      | none => C
      | some b =>
        updateProc (partition_free_op C b).2 c
          (fun p0 => { p0 with partition := none })) = _
    rw [hpb2]
    show updateProc (partition_free_op C bid).2 c
      (fun p0 => { p0 with partition := none }) = _
    rw [hpf]
  have hX1 : lookupProc (updateProc C c (fun p0 => { p0 with partition := none })) c =
      some { cur with remaining_time := cur.remaining_time - 1,
                      state := PState.Terminated,
                      finish_time := (s.clock : Int) + 1,
                      turnaround_time := ((s.clock : Int) + 1) - (cur.arrival_time : Int),
                      wait_time := (f : Int) - (cur.arrival_time : Int),
                      partition := none } := by
    refine Eq.trans (lookupProc_updateProc_self ?_) ?_
    · intro p0
      rfl
    · rw [hcur3]
      rfl
  have hX3 : lookupProc D c =
      some { cur with remaining_time := cur.remaining_time - 1,
                      state := PState.Terminated,
                      finish_time := (s.clock : Int) + 1,
                      turnaround_time := ((s.clock : Int) + 1) - (cur.arrival_time : Int),
                      wait_time := (f : Int) - (cur.arrival_time : Int),
                      partition := none } := by
    rw [hDeq]
    refine Eq.trans (lookupProc_updateProc_self ?_) ?_
    · intro p0
      rfl
    · show (lookupProc (updateProc C c (fun p0 => { p0 with partition := none })) c).map _ = _
      rw [hX1]
      rfl
  have hXP : lookupPart D bid =
      some { q with process := none, internal_fragmentation := 0 } := by
    rw [hDeq]
    show lookupPart (updatePart (updateProc C c (fun p0 => { p0 with partition := none }))
      bid (fun q0 => { q0 with process := none, internal_fragmentation := 0 })) bid = _
    refine Eq.trans (lookupPart_updatePart_self ?_) ?_
    · intro q0
      rfl
    · rw [show lookupPart (updateProc C c (fun p0 => { p0 with partition := none })) bid =
        some q from hqC]
      rfl
  refine ⟨?_, ?_, ?_, ?_⟩
  · rw [hsim]
    exact hX3
  · rw [hsim]
    exact hXP
  · rw [hsim]
    show c ∈ addIfAbsent D.terminated_queue c
    exact mem_addIfAbsent _ _
  · rw [hsim]

end Simulador

namespace Simulador

/-- C4 witness: at `c4s` (clock 4, remaining 1, first executed at 0 after
arriving at 0) the finishing process gets finish time 5, turnaround 5, wait
0, loses its partition and lands in the terminated queue. -/
theorem execute_finish_spec_witness :
    lookupProc (sim_execute_tick c4s) 1 =
      some { c4p with
        remaining_time := 0, state := PState.Terminated,
        finish_time := 5, turnaround_time := 5, wait_time := 0,
        partition := none } ∧
    lookupPart (sim_execute_tick c4s) 1 =
      some { c4q with process := none, internal_fragmentation := 0 } ∧
    1 ∈ (sim_execute_tick c4s).terminated_queue := by
  have h := execute_finish_spec c4s 1 c4p 0 1 c4q (by decide) (by decide)
    (by decide) (by decide) (by decide) (by decide) (by decide)
  exact ⟨h.1, h.2.1, h.2.2.1⟩

end Simulador

namespace Simulador

/-! ### Transfer lemmas for the invariant -/

theorem stateOf_updateProc_ne {s : SimState} {pid x : Nat} {f : Process → Process}
    (hf : ∀ p, (f p).id = p.id) (hx : x ≠ pid) :
    stateOf (updateProc s pid f) x = stateOf s x := by
  unfold stateOf
  rw [lookupProc_updateProc_ne hf hx]

theorem stateOf_updateProc_keep {s : SimState} {pid x : Nat} {f : Process → Process}
    (hf : ∀ p, (f p).id = p.id) (hfs : ∀ p, (f p).state = p.state) :
    stateOf (updateProc s pid f) x = stateOf s x := by
  by_cases hx : x = pid
  · subst hx
    unfold stateOf
    rw [lookupProc_updateProc_self hf]
    cases lookupProc s x with
    | none => rfl
    | some p => simp [hfs]
  · exact stateOf_updateProc_ne hf hx

theorem stateOf_updatePart {s : SimState} {bid x : Nat} {f : Partition → Partition} :
    stateOf (updatePart s bid f) x = stateOf s x := rfl

theorem forall_store_updateProc {s : SimState} {pid : Nat} {f : Process → Process}
    {P : Process → Prop}
    (h : ∀ p ∈ s.procs, P p)
    (hP : ∀ p ∈ s.procs, p.id = pid → P (f p)) :
    ∀ p' ∈ (updateProc s pid f).procs, P p' := by
  intro p' hp'
  obtain ⟨p, hp, he⟩ := mem_updateProc hp'
  by_cases hid : p.id = pid
  · rw [he, if_pos (by simp [hid])]
    exact hP p hp hid
  · rw [he, if_neg (by simp [hid])]
    exact h p hp

theorem forall_parts_updatePart {s : SimState} {bid : Nat} {f : Partition → Partition}
    {P : Partition → Prop}
    (h : ∀ q ∈ s.partitions, P q)
    (hP : ∀ q ∈ s.partitions, q.id = bid → P (f q)) :
    ∀ q' ∈ (updatePart s bid f).partitions, P q' := by
  intro q' hq'
  obtain ⟨q, hq, he⟩ := mem_updatePart hq'
  by_cases hid : q.id = bid
  · rw [he, if_pos (by simp [hid])]
    exact hP q hq hid
  · rw [he, if_neg (by simp [hid])]
    exact h q hq

/-- With unique ids, two store members with the same id are the same record. -/
theorem store_mem_eq {s : SimState} {a b : Process}
    (hn : (s.procs.map Process.id).Nodup) (ha : a ∈ s.procs) (hb : b ∈ s.procs)
    (hid : a.id = b.id) : a = b := by
  have h1 := lookupProc_of_mem_nodup hn ha
  have h2 := lookupProc_of_mem_nodup hn hb
  rw [hid, h2] at h1
  cases h1
  rfl

theorem parts_mem_eq {s : SimState} {a b : Partition}
    (hn : (s.partitions.map Partition.id).Nodup) (ha : a ∈ s.partitions)
    (hb : b ∈ s.partitions) (hid : a.id = b.id) : a = b := by
  have h1 := lookupPart_of_mem_nodup hn ha
  have h2 := lookupPart_of_mem_nodup hn hb
  rw [hid, h2] at h1
  cases h1
  rfl

theorem stateOf_some_lookup {s : SimState} {pid : Nat} {st : PState}
    (h : stateOf s pid = some st) :
    ∃ p, lookupProc s pid = some p ∧ p.state = st := by
  unfold stateOf at h
  cases hl : lookupProc s pid with
  | none => rw [hl] at h; cases h
  | some p =>
    rw [hl] at h
    replace h : some p.state = some st := h
    cases h
    exact ⟨p, rfl, rfl⟩

end Simulador

namespace Simulador

/-- Everything the invariant proofs need to know about a successful
allocation: the new records of the process and the chosen partition, and
that nothing else changed. -/
theorem allocate_success_facts (s : SimState) (pid : Nat) (p : Process)
    (hpn : (s.procs.map Process.id).Nodup)
    (hbn : (s.partitions.map Partition.id).Nodup)
    (hp : lookupProc s pid = some p)
    (hT : (allocate_process s pid).1 = true) :
    ∃ q ∈ s.partitions, q.process = none ∧ p.size ≤ q.size ∧
      lookupProc (allocate_process s pid).2 pid =
        some { p with partition := some q.id, state := PState.Ready } ∧
      (∀ x, x ≠ pid → lookupProc (allocate_process s pid).2 x = lookupProc s x) ∧
      lookupPart (allocate_process s pid).2 q.id =
        some { q with process := some pid,
                      internal_fragmentation := q.size - p.size } ∧
      (∀ b, b ≠ q.id → lookupPart (allocate_process s pid).2 b = lookupPart s b) ∧
      (allocate_process s pid).2.procs.map Process.id = s.procs.map Process.id ∧
      (allocate_process s pid).2.partitions.map Partition.id =
        s.partitions.map Partition.id ∧
      (∀ r ∈ (allocate_process s pid).2.procs,
        r ∈ s.procs ∨ r = { p with partition := some q.id, state := PState.Ready }) ∧
      (∀ r ∈ (allocate_process s pid).2.partitions,
        r ∈ s.partitions ∨
          r = { q with process := some pid,
                       internal_fragmentation := q.size - p.size }) ∧
      (∀ r ∈ s.procs, r.id ≠ pid → r ∈ (allocate_process s pid).2.procs) ∧
      (∀ r ∈ s.partitions, r.id ≠ q.id → r ∈ (allocate_process s pid).2.partitions) ∧
      ({ p with partition := some q.id, state := PState.Ready } ∈
        (allocate_process s pid).2.procs) ∧
      ({ q with process := some pid, internal_fragmentation := q.size - p.size } ∈
        (allocate_process s pid).2.partitions) ∧
      SameShape s (allocate_process s pid).2 := by
  rcases allocate_process_char hbn hp with ⟨hn, he⟩ | ⟨q, hf, hqmem, hqfree, hqsz, he⟩
  · rw [he] at hT
    cases hT
  · have hpid : p.id = pid := (lookupProc_mem hp).2
    refine ⟨q, hqmem, hqfree, hqsz, ?_, ?_, ?_, ?_, ?_, ?_, ?_, ?_, ?_, ?_, ?_, ?_, ?_⟩
    · rw [he]
      show lookupProc (updateProc _ pid _) pid = _
      refine Eq.trans (lookupProc_updateProc_self ?_) ?_
      · intro p0
        rfl
      · rw [lookupProc_updatePart, hp]
        rfl
    · intro x hx
      rw [he]
      show lookupProc (updateProc _ pid _) x = _
      refine Eq.trans (lookupProc_updateProc_ne ?_ hx) ?_
      · intro p0
        rfl
      · rw [lookupProc_updatePart]
    · rw [he]
      show lookupPart (updateProc _ pid _) q.id = _
      rw [lookupPart_updateProc]
      refine Eq.trans (lookupPart_updatePart_self ?_) ?_
      · intro q0
        rfl
      · rw [lookupPart_of_mem_nodup hbn hqmem]
        rfl
    · intro b hb
      rw [he]
      show lookupPart (updateProc _ pid _) b = _
      rw [lookupPart_updateProc]
      refine Eq.trans (lookupPart_updatePart_ne ?_ hb) ?_
      · intro q0
        rfl
      · rfl
    · rw [he]
      show (updateProc (updatePart s q.id _) pid _).procs.map Process.id = _
      refine Eq.trans (procIds_updateProc ?_) ?_
      · intro p0
        rfl
      · rfl
    · rw [he]
      show (updatePart s q.id _).partitions.map Partition.id = _
      refine partIds_updatePart ?_
      intro q0
      rfl
    · rw [he]
      intro r hr
      obtain ⟨r0, hr0, hre⟩ := mem_updateProc hr
      by_cases hid : r0.id = pid
      · right
        have : r0 = p := store_mem_eq hpn hr0 (lookupProc_mem hp).1 (by rw [hid, hpid])
        subst this
        rw [hre, if_pos (by simp [hid])]
      · left
        rw [hre, if_neg (by simp [hid])]
        exact hr0
    · rw [he]
      intro r hr
      replace hr : r ∈ (updatePart s q.id (fun q0 =>
        { q0 with process := some pid,
                  internal_fragmentation := q0.size - p.size })).partitions := hr
      obtain ⟨r0, hr0, hre⟩ := mem_updatePart hr
      by_cases hid : r0.id = q.id
      · right
        have : r0 = q := parts_mem_eq hbn hr0 hqmem hid
        subst this
        rw [hre, if_pos (by simp [hid])]
      · left
        rw [hre, if_neg (by simp [hid])]
        exact hr0
    · rw [he]
      intro r hr hrid
      exact mem_updateProc_of_ne hr hrid
    · rw [he]
      intro r hr hrid
      show r ∈ (updatePart s q.id _).partitions
      exact mem_updatePart_of_ne hr hrid
    · rw [he]
      show _ ∈ (updateProc (updatePart s q.id _) pid
        (fun p0 => { p0 with partition := some q.id, state := PState.Ready })).procs
      exact mem_updateProc_of_id
        (show p ∈ (updatePart s q.id (fun q0 =>
          { q0 with process := some pid,
                    internal_fragmentation := q0.size - p.size })).procs
          from (lookupProc_mem hp).1) hpid
    · rw [he]
      show _ ∈ (updatePart s q.id (fun q0 => { q0 with process := some pid, internal_fragmentation := q0.size - p.size })).partitions
      exact mem_updatePart_of_id hqmem rfl
    · rw [he]
      exact sameShape_updateProc (sameShape_updatePart (sameShape_refl s))

end Simulador

namespace Simulador

theorem firstExecOf_updateProc_keep {s : SimState} {pid x : Nat} {f : Process → Process}
    (hf : ∀ p, (f p).id = p.id)
    (hff : ∀ p, (f p).first_execution_time = p.first_execution_time) :
    firstExecOf (updateProc s pid f) x = firstExecOf s x := by
  by_cases hx : x = pid
  · subst hx
    unfold firstExecOf
    rw [lookupProc_updateProc_self hf]
    cases lookupProc s x with
    | none => rfl
    | some p => simp [hff]
  · unfold firstExecOf
    rw [lookupProc_updateProc_ne hf hx]

/-- Case analysis of `_try_load_to_memory`: either the process is suspended
(resident count full, or the allocator failed — the state is untouched in
both cases apart from the process's state and the suspended queue), or the
allocation succeeded and the process joins the ready queue. -/
theorem tlm_char (s : SimState) (pid : Nat) :
    ((s.degree_of_multiprogramming ≤ current_dom s ∨
        (allocate_process s pid).1 = false) ∧
      try_load_to_memory s pid =
        { updateProc s pid (fun p0 => { p0 with state := PState.Suspended }) with
          suspended_queue := addIfAbsent s.suspended_queue pid }) ∨
    (current_dom s < s.degree_of_multiprogramming ∧
      (allocate_process s pid).1 = true ∧
      try_load_to_memory s pid =
        { (allocate_process s pid).2 with
          ready_queue := addIfAbsent (allocate_process s pid).2.ready_queue pid,
          suspended_queue := (allocate_process s pid).2.suspended_queue.erase pid }) := by
  by_cases hdom : s.degree_of_multiprogramming ≤ current_dom s
  · left
    refine ⟨Or.inl hdom, ?_⟩
    unfold try_load_to_memory
    rw [if_pos hdom]
    rfl
  · cases hA : allocate_process s pid with
    | mk b s1 =>
      cases b
      · left
        have hs1 : s1 = s := by
          have h0 := allocate_false_eq s pid (by rw [hA])
          rw [hA] at h0
          exact h0
        rw [hs1] at hA
        refine ⟨Or.inr rfl, ?_⟩
        unfold try_load_to_memory
        rw [if_neg hdom, hA]
        rfl
      · right
        refine ⟨not_le.1 hdom, rfl, ?_⟩
        unfold try_load_to_memory
        rw [if_neg hdom, hA]

end Simulador

namespace Simulador

/-- Suspending a New or Suspended process that sits in no queue (or already
in the suspended queue) preserves the engine invariant. -/
theorem suspend_insert_inv (s : SimState) (pid : Nat) (hI : Inv s) (p : Process)
    (hp : lookupProc s pid = some p)
    (hpstate : p.state = PState.New ∨ p.state = PState.Suspended)
    (hnall : pid ∉ s.all_processes) (hnready : pid ∉ s.ready_queue)
    (hnterm : pid ∉ s.terminated_queue) (hncur : s.current_process ≠ some pid) :
    Inv { updateProc s pid (fun p0 => { p0 with state := PState.Suspended }) with
          suspended_queue := addIfAbsent s.suspended_queue pid } := by
  have hpid : p.id = pid := (lookupProc_mem hp).2
  have hpmem : p ∈ s.procs := (lookupProc_mem hp).1
  have hppart : p.partition = none := by
    rcases hpstate with h | h
    · exact hI.partNone p hpmem (Or.inl h)
    · exact hI.partNone p hpmem (Or.inr (Or.inl h))
  have hprem := hI.remBounds p hpmem
  have hmem_char : ∀ r ∈ (updateProc s pid (fun p0 =>
      { p0 with state := PState.Suspended })).procs,
      r ∈ s.procs ∨ r = { p with state := PState.Suspended } := by
    intro r hr
    obtain ⟨r0, hr0, hre⟩ := mem_updateProc hr
    by_cases hid : r0.id = pid
    · right
      have : r0 = p := store_mem_eq hI.pidsNodup hr0 hpmem (by rw [hid, hpid])
      subst this
      rw [hre, if_pos (by simp [hid])]
    · left
      rw [hre, if_neg (by simp [hid])]
      exact hr0
  have hmem_fwd : ∀ r ∈ s.procs, r.id ≠ pid →
      r ∈ (updateProc s pid (fun p0 => { p0 with state := PState.Suspended })).procs :=
    fun r hr hne => mem_updateProc_of_ne hr hne
  have hstate_ne : ∀ x, x ≠ pid →
      stateOf (updateProc s pid (fun p0 => { p0 with state := PState.Suspended })) x =
        stateOf s x :=
    fun x hx => stateOf_updateProc_ne (fun p0 => rfl) hx
  have hstate_self :
      stateOf (updateProc s pid (fun p0 => { p0 with state := PState.Suspended })) pid =
        some PState.Suspended := by
    unfold stateOf
    have hl := @lookupProc_updateProc_self s pid
      (fun p0 => { p0 with state := PState.Suspended }) (fun p0 => rfl)
    rw [hl, hp]
    rfl
  refine { pidsNodup := ?_, bidsNodup := ?_, nodupAll := ?_, nodupReady := ?_,
           nodupSusp := ?_, nodupTerm := ?_, disjAllReady := ?_, disjAllSusp := ?_,
           disjAllTerm := ?_, disjReadySusp := ?_, disjReadyTerm := ?_,
           disjSuspTerm := ?_, curNotAll := ?_, curNotReady := ?_, curNotSusp := ?_,
           curNotTerm := ?_, stateAll := ?_, stateReady := ?_, stateSusp := ?_,
           stateTerm := ?_, stateCur := ?_, remBounds := ?_, partNone := ?_,
           partSome := ?_, backProc := ?_, backPart := ?_ }
  · show ((updateProc s pid (fun p0 =>
        { p0 with state := PState.Suspended })).procs.map Process.id).Nodup
    rw [@procIds_updateProc s pid (fun p0 =>
      { p0 with state := PState.Suspended }) (fun p0 => rfl)]
    exact hI.pidsNodup
  · exact hI.bidsNodup
  · exact hI.nodupAll
  · exact hI.nodupReady
  · show (addIfAbsent s.suspended_queue pid).Nodup
    exact nodup_addIfAbsent hI.nodupSusp
  · exact hI.nodupTerm
  · exact hI.disjAllReady
  · intro x hxa hxs
    replace hxs : x ∈ addIfAbsent s.suspended_queue pid := hxs
    rcases mem_addIfAbsent_iff.1 hxs with hxs | rfl
    · exact hI.disjAllSusp x hxa hxs
    · exact hnall hxa
  · exact hI.disjAllTerm
  · intro x hxr hxs
    replace hxs : x ∈ addIfAbsent s.suspended_queue pid := hxs
    rcases mem_addIfAbsent_iff.1 hxs with hxs | rfl
    · exact hI.disjReadySusp x hxr hxs
    · exact hnready hxr
  · exact hI.disjReadyTerm
  · intro x hxs hxt
    replace hxs : x ∈ addIfAbsent s.suspended_queue pid := hxs
    rcases mem_addIfAbsent_iff.1 hxs with hxs | rfl
    · exact hI.disjSuspTerm x hxs hxt
    · exact hnterm hxt
  · exact fun x hx => hI.curNotAll x hx
  · exact fun x hx => hI.curNotReady x hx
  · intro x hx hxs
    replace hxs : x ∈ addIfAbsent s.suspended_queue pid := hxs
    rcases mem_addIfAbsent_iff.1 hxs with hxs | rfl
    · exact hI.curNotSusp x hx hxs
    · exact hncur hx
  · exact fun x hx => hI.curNotTerm x hx
  · intro x hx
    have hne : x ≠ pid := fun he => hnall (he ▸ hx)
    show stateOf (updateProc s pid _) x = _
    rw [hstate_ne x hne]
    exact hI.stateAll x hx
  · intro x hx
    have hne : x ≠ pid := fun he => hnready (he ▸ hx)
    show stateOf (updateProc s pid _) x = _
    rw [hstate_ne x hne]
    exact hI.stateReady x hx
  · intro x hx
    replace hx : x ∈ addIfAbsent s.suspended_queue pid := hx
    show stateOf (updateProc s pid _) x = _
    by_cases hne : x = pid
    · subst hne
      exact hstate_self
    · rw [hstate_ne x hne]
      rcases mem_addIfAbsent_iff.1 hx with hx | rfl
      · exact hI.stateSusp x hx
      · exact absurd rfl hne
  · intro x hx
    have hne : x ≠ pid := fun he => hnterm (he ▸ hx)
    show stateOf (updateProc s pid _) x = _
    rw [hstate_ne x hne]
    exact hI.stateTerm x hx
  · intro x hx
    have hne : x ≠ pid := fun he => hncur (he ▸ hx)
    show stateOf (updateProc s pid _) x = _
    rw [hstate_ne x hne]
    exact hI.stateCur x hx
  · intro r hr
    rcases hmem_char r hr with hr' | rfl
    · exact hI.remBounds r hr'
    · refine ⟨hprem.1, ?_⟩
      constructor
      · intro h0
        exact absurd ((hprem.2).1 h0) (by rcases hpstate with h | h <;> simp [h])
      · intro h0
        cases h0
  · intro r hr
    rcases hmem_char r hr with hr' | rfl
    · exact hI.partNone r hr'
    · intro _
      exact hppart
  · intro r hr
    rcases hmem_char r hr with hr' | rfl
    · exact hI.partSome r hr'
    · intro h0
      rcases h0 with h0 | h0 <;> cases h0
  · intro r hr
    rcases hmem_char r hr with hr' | rfl
    · intro b hb
      exact hI.backProc r hr' b hb
    · intro b hb
      rw [hppart] at hb
      cases hb
  · intro q hq x hx
    have := hI.backPart q hq x hx
    obtain ⟨p0, hp0, hp0id, hp0part⟩ := this
    have hxne : p0.id ≠ pid := by
      intro he
      have : p0 = p := store_mem_eq hI.pidsNodup hp0 hpmem (he.trans hpid.symm)
      subst this
      rw [hppart] at hp0part
      cases hp0part
    exact ⟨p0, hmem_fwd p0 hp0 hxne, hp0id, hp0part⟩

end Simulador

namespace Simulador

/-- Core invariant argument for a successful admission: given the allocator
facts for a post-allocation state, moving the admitted process into the ready
queue and dropping it from the suspended queue preserves the invariant. -/
theorem admit_ready_inv_core (s a : SimState) (pid : Nat) (hI : Inv s)
    (p : Process) (q : Partition)
    (hp : lookupProc s pid = some p)
    (hpstate : p.state = PState.New ∨ p.state = PState.Suspended)
    (hnall : pid ∉ s.all_processes) (hnready : pid ∉ s.ready_queue)
    (hnterm : pid ∉ s.terminated_queue) (hncur : s.current_process ≠ some pid)
    (hqmem : q ∈ s.partitions) (hqfree : q.process = none)
    (hlook_self : lookupProc a pid =
      some { p with partition := some q.id, state := PState.Ready })
    (hlook_ne : ∀ x, x ≠ pid → lookupProc a x = lookupProc s x)
    (hids : a.procs.map Process.id = s.procs.map Process.id)
    (hbids : a.partitions.map Partition.id = s.partitions.map Partition.id)
    (hmemP : ∀ r ∈ a.procs,
      r ∈ s.procs ∨ r = { p with partition := some q.id, state := PState.Ready })
    (hmemB : ∀ r ∈ a.partitions,
      r ∈ s.partitions ∨
        r = { q with process := some pid,
                     internal_fragmentation := q.size - p.size })
    (hfwdP : ∀ r ∈ s.procs, r.id ≠ pid → r ∈ a.procs)
    (hfwdB : ∀ r ∈ s.partitions, r.id ≠ q.id → r ∈ a.partitions)
    (hp'mem : { p with partition := some q.id, state := PState.Ready } ∈ a.procs)
    (hq'mem : { q with process := some pid,
                       internal_fragmentation := q.size - p.size } ∈ a.partitions)
    (hSh : SameShape s a) :
    Inv { a with ready_queue := addIfAbsent a.ready_queue pid,
                 suspended_queue := a.suspended_queue.erase pid } := by
  obtain ⟨hdeg, hclk, hall, hrdy, hsus, htrm, hcur, hinc⟩ := hSh
  have hpid : p.id = pid := (lookupProc_mem hp).2
  have hpmem : p ∈ s.procs := (lookupProc_mem hp).1
  have hppart : p.partition = none := by
    rcases hpstate with h | h
    · exact hI.partNone p hpmem (Or.inl h)
    · exact hI.partNone p hpmem (Or.inr (Or.inl h))
  have hprem := hI.remBounds p hpmem
  have hstNe : ∀ x, x ≠ pid →
      stateOf { a with ready_queue := addIfAbsent a.ready_queue pid,
                       suspended_queue := a.suspended_queue.erase pid } x =
        stateOf s x := by
    intro x hx
    show (lookupProc a x).map Process.state = _
    rw [hlook_ne x hx]
    rfl
  have hstSelf :
      stateOf { a with ready_queue := addIfAbsent a.ready_queue pid,
                       suspended_queue := a.suspended_queue.erase pid } pid =
        some PState.Ready := by
    show (lookupProc a pid).map Process.state = _
    rw [hlook_self]
    rfl
  have hsusMem : ∀ x, x ∈ a.suspended_queue.erase pid →
      x ≠ pid ∧ x ∈ s.suspended_queue := by
    intro x hx
    rw [hsus] at hx
    have hnd : s.suspended_queue.Nodup := hI.nodupSusp
    exact ⟨(hnd.mem_erase_iff.1 hx).1, (hnd.mem_erase_iff.1 hx).2⟩
  have hrdyMem : ∀ x, x ∈ addIfAbsent a.ready_queue pid →
      x ∈ s.ready_queue ∨ x = pid := by
    intro x hx
    rcases mem_addIfAbsent_iff.1 hx with hx | rfl
    · rw [hrdy] at hx
      exact Or.inl hx
    · exact Or.inr rfl
  refine { pidsNodup := ?_, bidsNodup := ?_, nodupAll := ?_, nodupReady := ?_,
           nodupSusp := ?_, nodupTerm := ?_, disjAllReady := ?_, disjAllSusp := ?_,
           disjAllTerm := ?_, disjReadySusp := ?_, disjReadyTerm := ?_,
           disjSuspTerm := ?_, curNotAll := ?_, curNotReady := ?_, curNotSusp := ?_,
           curNotTerm := ?_, stateAll := ?_, stateReady := ?_, stateSusp := ?_,
           stateTerm := ?_, stateCur := ?_, remBounds := ?_, partNone := ?_,
           partSome := ?_, backProc := ?_, backPart := ?_ }
  · show (a.procs.map Process.id).Nodup
    rw [hids]
    exact hI.pidsNodup
  · show (a.partitions.map Partition.id).Nodup
    rw [hbids]
    exact hI.bidsNodup
  · show a.all_processes.Nodup
    rw [hall]
    exact hI.nodupAll
  · show (addIfAbsent a.ready_queue pid).Nodup
    rw [hrdy]
    exact nodup_addIfAbsent hI.nodupReady
  · show (a.suspended_queue.erase pid).Nodup
    rw [hsus]
    exact hI.nodupSusp.erase pid
  · show a.terminated_queue.Nodup
    rw [htrm]
    exact hI.nodupTerm
  · intro x hxa hxr
    replace hxa : x ∈ a.all_processes := hxa
    rw [hall] at hxa
    rcases hrdyMem x hxr with hx | rfl
    · exact hI.disjAllReady x hxa hx
    · exact hnall hxa
  · intro x hxa hxs
    replace hxa : x ∈ a.all_processes := hxa
    rw [hall] at hxa
    exact hI.disjAllSusp x hxa (hsusMem x hxs).2
  · intro x hxa hxt
    replace hxa : x ∈ a.all_processes := hxa
    replace hxt : x ∈ a.terminated_queue := hxt
    rw [hall] at hxa
    rw [htrm] at hxt
    exact hI.disjAllTerm x hxa hxt
  · intro x hxr hxs
    rcases hrdyMem x hxr with hx | rfl
    · exact hI.disjReadySusp x hx (hsusMem x hxs).2
    · exact (hsusMem x hxs).1 rfl
  · intro x hxr hxt
    replace hxt : x ∈ a.terminated_queue := hxt
    rw [htrm] at hxt
    rcases hrdyMem x hxr with hx | rfl
    · exact hI.disjReadyTerm x hx hxt
    · exact hnterm hxt
  · intro x hxs hxt
    replace hxt : x ∈ a.terminated_queue := hxt
    rw [htrm] at hxt
    exact hI.disjSuspTerm x (hsusMem x hxs).2 hxt
  · intro x hx
    replace hx : a.current_process = some x := hx
    rw [hcur] at hx
    intro hxa
    replace hxa : x ∈ a.all_processes := hxa
    rw [hall] at hxa
    exact hI.curNotAll x hx hxa
  · intro x hx hxr
    replace hx : a.current_process = some x := hx
    rw [hcur] at hx
    rcases hrdyMem x hxr with hx' | rfl
    · exact hI.curNotReady x hx hx'
    · exact hncur hx
  · intro x hx hxs
    replace hx : a.current_process = some x := hx
    rw [hcur] at hx
    exact hI.curNotSusp x hx (hsusMem x hxs).2
  · intro x hx hxt
    replace hx : a.current_process = some x := hx
    replace hxt : x ∈ a.terminated_queue := hxt
    rw [hcur] at hx
    rw [htrm] at hxt
    exact hI.curNotTerm x hx hxt
  · intro x hx
    replace hx : x ∈ a.all_processes := hx
    rw [hall] at hx
    have hne : x ≠ pid := fun he => hnall (he ▸ hx)
    rw [hstNe x hne]
    exact hI.stateAll x hx
  · intro x hx
    rcases hrdyMem x hx with hx' | rfl
    · have hne : x ≠ pid := fun he => hnready (he ▸ hx')
      rw [hstNe x hne]
      exact hI.stateReady x hx'
    · exact hstSelf
  · intro x hx
    obtain ⟨hne, hx'⟩ := hsusMem x hx
    rw [hstNe x hne]
    exact hI.stateSusp x hx'
  · intro x hx
    replace hx : x ∈ a.terminated_queue := hx
    rw [htrm] at hx
    have hne : x ≠ pid := fun he => hnterm (he ▸ hx)
    rw [hstNe x hne]
    exact hI.stateTerm x hx
  · intro x hx
    replace hx : a.current_process = some x := hx
    rw [hcur] at hx
    have hne : x ≠ pid := fun he => hncur (he ▸ hx)
    rw [hstNe x hne]
    exact hI.stateCur x hx
  · intro r hr
    replace hr : r ∈ a.procs := hr
    rcases hmemP r hr with hr' | rfl
    · exact hI.remBounds r hr'
    · refine ⟨hprem.1, ?_⟩
      constructor
      · intro h0
        exact absurd ((hprem.2).1 h0) (by rcases hpstate with h | h <;> simp [h])
      · intro h0
        cases h0
  · intro r hr
    replace hr : r ∈ a.procs := hr
    rcases hmemP r hr with hr' | rfl
    · exact hI.partNone r hr'
    · intro h0
      rcases h0 with h0 | h0 | h0 <;> cases h0
  · intro r hr
    replace hr : r ∈ a.procs := hr
    rcases hmemP r hr with hr' | rfl
    · exact hI.partSome r hr'
    · intro _ h0
      cases h0
  · intro r hr bid hb
    replace hr : r ∈ a.procs := hr
    rcases hmemP r hr with hr' | rfl
    · obtain ⟨q0, hq0mem, hq0id, hq0proc⟩ := hI.backProc r hr' bid hb
      have hq0ne : q0.id ≠ q.id := by
        intro he
        have : q0 = q := parts_mem_eq hI.bidsNodup hq0mem hqmem he
        subst this
        rw [hqfree] at hq0proc
        cases hq0proc
      exact ⟨q0, hfwdB q0 hq0mem hq0ne, hq0id, hq0proc⟩
    · replace hb : some q.id = some bid := hb
      cases hb
      refine ⟨{ q with process := some pid, internal_fragmentation := q.size - p.size }, hq'mem, rfl, ?_⟩
      show some pid = some ({ p with partition := some q.id, state := PState.Ready } : Process).id
      rw [show ({ p with partition := some q.id, state := PState.Ready } : Process).id = p.id from rfl, hpid]
  · intro q0 hq0 x hx
    replace hq0 : q0 ∈ a.partitions := hq0
    rcases hmemB q0 hq0 with hq0' | rfl
    · obtain ⟨p0, hp0mem, hp0id, hp0part⟩ := hI.backPart q0 hq0' x hx
      have hp0ne : p0.id ≠ pid := by
        intro he
        have : p0 = p := store_mem_eq hI.pidsNodup hp0mem hpmem (he.trans hpid.symm)
        subst this
        rw [hppart] at hp0part
        cases hp0part
      exact ⟨p0, hfwdP p0 hp0mem hp0ne, hp0id, hp0part⟩
    · replace hx : some pid = some x := hx
      cases hx
      refine ⟨{ p with partition := some q.id, state := PState.Ready },
        hp'mem, ?_, rfl⟩
      show p.id = pid
      exact hpid

end Simulador

namespace Simulador

/-- Admission of a fresh New (or re-tried Suspended) process through
_try_load_to_memory preserves the invariant, frames everything except the
admitted process and its partition, and leaves the admitted process Ready or
Suspended. -/
theorem tlm_inv (s : SimState) (pid : Nat) (hI : Inv s) (p : Process)
    (hp : lookupProc s pid = some p)
    (hpstate : p.state = PState.New ∨ p.state = PState.Suspended)
    (hnall : pid ∉ s.all_processes) (hnready : pid ∉ s.ready_queue)
    (hnterm : pid ∉ s.terminated_queue) (hncur : s.current_process ≠ some pid) :
    Inv (try_load_to_memory s pid) ∧
    (try_load_to_memory s pid).all_processes = s.all_processes ∧
    (try_load_to_memory s pid).terminated_queue = s.terminated_queue ∧
    (try_load_to_memory s pid).current_process = s.current_process ∧
    (try_load_to_memory s pid).clock = s.clock ∧
    (try_load_to_memory s pid).degree_of_multiprogramming =
      s.degree_of_multiprogramming ∧
    (try_load_to_memory s pid).incomplete = s.incomplete ∧
    (∀ x, x ≠ pid → stateOf (try_load_to_memory s pid) x = stateOf s x) ∧
    (stateOf (try_load_to_memory s pid) pid = some PState.Ready ∨
      stateOf (try_load_to_memory s pid) pid = some PState.Suspended) ∧
    (∀ x, x ∈ (try_load_to_memory s pid).ready_queue →
      x ∈ s.ready_queue ∨ x = pid) ∧
    (∀ x, x ∈ (try_load_to_memory s pid).suspended_queue →
      x ∈ s.suspended_queue ∨ x = pid) ∧
    (∀ b x, partProcOf s b = some (some x) →
      partProcOf (try_load_to_memory s pid) b = some (some x)) ∧
    (∀ x, firstExecOf (try_load_to_memory s pid) x = firstExecOf s x) := by
  rcases tlm_char s pid with ⟨hc, he⟩ | ⟨hdom, hT, he⟩
  · rw [he]
    refine ⟨suspend_insert_inv s pid hI p hp hpstate hnall hnready hnterm hncur,
      rfl, rfl, rfl, rfl, rfl, rfl, ?_, ?_, ?_, ?_, ?_, ?_⟩
    · intro x hx
      show stateOf (updateProc s pid (fun p0 => { p0 with state := PState.Suspended })) x = _
      exact stateOf_updateProc_ne (fun p0 => rfl) hx
    · right
      show stateOf (updateProc s pid (fun p0 => { p0 with state := PState.Suspended })) pid = _
      unfold stateOf
      have hl := @lookupProc_updateProc_self s pid
        (fun p0 => { p0 with state := PState.Suspended }) (fun p0 => rfl)
      rw [hl, hp]
      rfl
    · intro x hx
      exact Or.inl hx
    · intro x hx
      replace hx : x ∈ addIfAbsent s.suspended_queue pid := hx
      exact mem_addIfAbsent_iff.1 hx
    · intro b x hb
      exact hb
    · intro x
      show firstExecOf (updateProc s pid (fun p0 => { p0 with state := PState.Suspended })) x = _
      exact firstExecOf_updateProc_keep (fun p0 => rfl) (fun p0 => rfl)
  · obtain ⟨q, hqmem, hqfree, hqsz, hlook_self, hlook_ne, hlookP_self, hlookP_ne,
      hids, hbids, hmemP, hmemB, hfwdP, hfwdB, hp'mem, hq'mem, hSh⟩ :=
      allocate_success_facts s pid p hI.pidsNodup hI.bidsNodup hp hT
    obtain ⟨hdeg, hclk, hall, hrdy, hsus, htrm, hcur, hinc⟩ := hSh
    rw [he]
    refine ⟨admit_ready_inv_core s (allocate_process s pid).2 pid hI p q hp hpstate
        hnall hnready hnterm hncur hqmem hqfree hlook_self hlook_ne hids hbids
        hmemP hmemB hfwdP hfwdB hp'mem hq'mem
        ⟨hdeg, hclk, hall, hrdy, hsus, htrm, hcur, hinc⟩,
      hall, htrm, hcur, hclk, hdeg, hinc, ?_, ?_, ?_, ?_, ?_, ?_⟩
    · intro x hx
      show (lookupProc (allocate_process s pid).2 x).map Process.state = _
      rw [hlook_ne x hx]
      rfl
    · left
      show (lookupProc (allocate_process s pid).2 pid).map Process.state = _
      rw [hlook_self]
      rfl
    · intro x hx
      replace hx : x ∈ addIfAbsent (allocate_process s pid).2.ready_queue pid := hx
      rcases mem_addIfAbsent_iff.1 hx with hx | rfl
      · rw [hrdy] at hx
        exact Or.inl hx
      · exact Or.inr rfl
    · intro x hx
      replace hx : x ∈ (allocate_process s pid).2.suspended_queue.erase pid := hx
      have := List.mem_of_mem_erase hx
      rw [hsus] at this
      exact Or.inl this
    · intro b x hb
      by_cases hbq : b = q.id
      · subst hbq
        unfold partProcOf at hb
        rw [lookupPart_of_mem_nodup hI.bidsNodup hqmem] at hb
        replace hb : some q.process = some (some x) := hb
        rw [hqfree] at hb
        cases (Option.some.inj hb)
      · show (lookupPart (allocate_process s pid).2 b).map Partition.process = _
        rw [hlookP_ne b hbq]
        exact hb
    · intro x
      by_cases hx : x = pid
      · subst hx
        show (lookupProc (allocate_process s x).2 x).bind Process.first_execution_time = _
        rw [hlook_self]
        unfold firstExecOf
        rw [hp]
        rfl
      · show (lookupProc (allocate_process s pid).2 x).bind Process.first_execution_time = _
        rw [hlook_ne x hx]
        rfl

end Simulador

namespace Simulador

/-- Re-stamping state New on processes that are already New is a no-op. -/
theorem setNew_fold_id (l : List Nat) (s : SimState)
    (hn : (s.procs.map Process.id).Nodup)
    (h : ∀ y ∈ l, stateOf s y = some PState.New) :
    l.foldl (fun st pid =>
      updateProc st pid (fun p0 => { p0 with state := PState.New })) s = s := by
  induction l with
  | nil => rfl
  | cons pid rest ih =>
    have h0 : updateProc s pid (fun p0 => { p0 with state := PState.New }) = s := by
      apply updateProc_eq_self
      intro p hp hpid
      obtain ⟨p', hl, hst⟩ := stateOf_some_lookup (h pid (List.mem_cons_self pid rest))
      have hpl : lookupProc s p.id = some p := lookupProc_of_mem_nodup hn hp
      rw [hpid, hl] at hpl
      cases Option.some.inj hpl
      show ({ p with state := PState.New } : Process) = p
      rw [← hst]
    show rest.foldl _ (updateProc s pid _) = s
    rw [h0]
    exact ih (fun y hy => h y (List.mem_cons_of_mem pid hy))

/-- Loading a duplicate-free batch of fresh New processes one after another
preserves the invariant, while framing everything except those processes'
states, the two admission queues, and the partitions they may claim. -/
theorem tlm_fold_inv (l : List Nat) (s : SimState) (hI : Inv s) (hl : l.Nodup)
    (hlNew : ∀ y ∈ l, stateOf s y = some PState.New)
    (hna : ∀ y ∈ l, y ∉ s.all_processes)
    (hnr : ∀ y ∈ l, y ∉ s.ready_queue)
    (hnt : ∀ y ∈ l, y ∉ s.terminated_queue)
    (hnc : ∀ y ∈ l, s.current_process ≠ some y) :
    Inv (l.foldl (fun st pid => try_load_to_memory st pid) s) ∧
    (l.foldl (fun st pid => try_load_to_memory st pid) s).all_processes =
      s.all_processes ∧
    (l.foldl (fun st pid => try_load_to_memory st pid) s).terminated_queue =
      s.terminated_queue ∧
    (l.foldl (fun st pid => try_load_to_memory st pid) s).current_process =
      s.current_process ∧
    (l.foldl (fun st pid => try_load_to_memory st pid) s).clock = s.clock ∧
    (l.foldl (fun st pid => try_load_to_memory st pid) s).degree_of_multiprogramming =
      s.degree_of_multiprogramming ∧
    (l.foldl (fun st pid => try_load_to_memory st pid) s).incomplete = s.incomplete ∧
    (∀ x, x ∉ l →
      stateOf (l.foldl (fun st pid => try_load_to_memory st pid) s) x = stateOf s x) ∧
    (∀ x, x ∈ (l.foldl (fun st pid => try_load_to_memory st pid) s).ready_queue →
      x ∈ s.ready_queue ∨ x ∈ l) ∧
    (∀ x, x ∈ (l.foldl (fun st pid => try_load_to_memory st pid) s).suspended_queue →
      x ∈ s.suspended_queue ∨ x ∈ l) ∧
    (∀ b x, partProcOf s b = some (some x) →
      partProcOf (l.foldl (fun st pid => try_load_to_memory st pid) s) b =
        some (some x)) ∧
    (∀ x, firstExecOf (l.foldl (fun st pid => try_load_to_memory st pid) s) x =
      firstExecOf s x) := by
  induction l generalizing s with
  | nil =>
    exact ⟨hI, rfl, rfl, rfl, rfl, rfl, rfl, fun x _ => rfl,
      fun x hx => Or.inl hx, fun x hx => Or.inl hx, fun b x hb => hb, fun x => rfl⟩
  | cons pid rest ih =>
    obtain ⟨p, hp, hstp⟩ := stateOf_some_lookup (hlNew pid (List.mem_cons_self pid rest))
    obtain ⟨T1, Tall, Tterm, Tcur, Tclk, Tdeg, Tinc, Tst, _Tstp, Trdy, Tsus, Tpart, Tfe⟩ :=
      tlm_inv s pid hI p hp (Or.inl hstp)
        (hna pid (List.mem_cons_self pid rest))
        (hnr pid (List.mem_cons_self pid rest))
        (hnt pid (List.mem_cons_self pid rest))
        (hnc pid (List.mem_cons_self pid rest))
    have hpidrest : pid ∉ rest := (List.nodup_cons.1 hl).1
    have hrestnd : rest.Nodup := (List.nodup_cons.1 hl).2
    have hyne : ∀ y ∈ rest, y ≠ pid := fun y hy he => hpidrest (he ▸ hy)
    obtain ⟨I1, Iall, Iterm, Icur, Iclk, Ideg, Iinc, Ist, Irdy, Isus, Ipart, Ife⟩ :=
      ih (try_load_to_memory s pid) T1 hrestnd
        (fun y hy => by rw [Tst y (hyne y hy)]; exact hlNew y (List.mem_cons_of_mem pid hy))
        (fun y hy => by rw [Tall]; exact hna y (List.mem_cons_of_mem pid hy))
        (fun y hy hmem => by
          rcases Trdy y hmem with h | h
          · exact hnr y (List.mem_cons_of_mem pid hy) h
          · exact hyne y hy h)
        (fun y hy => by rw [Tterm]; exact hnt y (List.mem_cons_of_mem pid hy))
        (fun y hy => by rw [Tcur]; exact hnc y (List.mem_cons_of_mem pid hy))
    refine ⟨I1, Iall.trans Tall, Iterm.trans Tterm, Icur.trans Tcur, Iclk.trans Tclk,
      Ideg.trans Tdeg, Iinc.trans Tinc, ?_, ?_, ?_, ?_, ?_⟩
    · intro x hx
      have hx1 : x ∉ rest := fun h => hx (List.mem_cons_of_mem pid h)
      have hx2 : x ≠ pid := fun h => hx (h ▸ List.mem_cons_self pid rest)
      exact (Ist x hx1).trans (Tst x hx2)
    · intro x hx
      rcases Irdy x hx with h | h
      · rcases Trdy x h with h' | h'
        · exact Or.inl h'
        · exact Or.inr (h' ▸ List.mem_cons_self pid rest)
      · exact Or.inr (List.mem_cons_of_mem pid h)
    · intro x hx
      rcases Isus x hx with h | h
      · rcases Tsus x h with h' | h'
        · exact Or.inl h'
        · exact Or.inr (h' ▸ List.mem_cons_self pid rest)
      · exact Or.inr (List.mem_cons_of_mem pid h)
    · intro b x hb
      exact Ipart b x (Tpart b x hb)
    · intro x
      exact (Ife x).trans (Tfe x)

end Simulador

namespace Simulador

/-- Shrinking `all_processes` to a filtered sublist preserves the invariant. -/
theorem inv_filter_all (s : SimState) (hI : Inv s) (f : Nat → Bool) :
    Inv { s with all_processes := s.all_processes.filter f } := by
  refine { pidsNodup := hI.pidsNodup, bidsNodup := hI.bidsNodup,
           nodupAll := hI.nodupAll.filter f, nodupReady := hI.nodupReady,
           nodupSusp := hI.nodupSusp, nodupTerm := hI.nodupTerm,
           disjAllReady := ?_, disjAllSusp := ?_, disjAllTerm := ?_,
           disjReadySusp := hI.disjReadySusp, disjReadyTerm := hI.disjReadyTerm,
           disjSuspTerm := hI.disjSuspTerm, curNotAll := ?_,
           curNotReady := hI.curNotReady, curNotSusp := hI.curNotSusp,
           curNotTerm := hI.curNotTerm, stateAll := ?_, stateReady := hI.stateReady,
           stateSusp := hI.stateSusp, stateTerm := hI.stateTerm,
           stateCur := hI.stateCur, remBounds := hI.remBounds,
           partNone := hI.partNone, partSome := hI.partSome,
           backProc := hI.backProc, backPart := hI.backPart }
  · intro x hxa hxr
    exact hI.disjAllReady x (List.mem_filter.1 hxa).1 hxr
  · intro x hxa hxs
    exact hI.disjAllSusp x (List.mem_filter.1 hxa).1 hxs
  · intro x hxa hxt
    exact hI.disjAllTerm x (List.mem_filter.1 hxa).1 hxt
  · intro x hx hxa
    exact hI.curNotAll x hx (List.mem_filter.1 hxa).1
  · intro x hx
    exact hI.stateAll x (List.mem_filter.1 hx).1

/-- The arrival phase preserves the invariant and frames the clock, the degree,
the terminated queue, the CPU, occupied partitions and first-execution stamps. -/
theorem arrive_inv (s : SimState) (hI : Inv s) :
    Inv (arrive_new_processes s) ∧
    (arrive_new_processes s).terminated_queue = s.terminated_queue ∧
    (arrive_new_processes s).current_process = s.current_process ∧
    (arrive_new_processes s).clock = s.clock ∧
    (arrive_new_processes s).degree_of_multiprogramming =
      s.degree_of_multiprogramming ∧
    (arrive_new_processes s).incomplete = s.incomplete ∧
    (∀ b x, partProcOf s b = some (some x) →
      partProcOf (arrive_new_processes s) b = some (some x)) ∧
    (∀ x, firstExecOf (arrive_new_processes s) x = firstExecOf s x) := by
  have hI1 : Inv { s with all_processes := s.all_processes.filter (fun pid =>
      match lookupProc s pid with
      | some p => s.clock < p.arrival_time
      | none => false) } :=
    inv_filter_all s hI _
  have harr : ∀ y ∈ s.all_processes.filter (fun pid =>
      match lookupProc s pid with
      | some p => p.arrival_time == s.clock
      | none => false), y ∈ s.all_processes :=
    fun y hy => (List.mem_filter.1 hy).1
  have hs2 : (s.all_processes.filter (fun pid =>
      match lookupProc s pid with
      | some p => p.arrival_time == s.clock
      | none => false)).foldl
      (fun st pid => updateProc st pid (fun p0 => { p0 with state := PState.New }))
      { s with all_processes := s.all_processes.filter (fun pid =>
          match lookupProc s pid with
          | some p => s.clock < p.arrival_time
          | none => false) } =
      { s with all_processes := s.all_processes.filter (fun pid =>
          match lookupProc s pid with
          | some p => s.clock < p.arrival_time
          | none => false) } := by
    apply setNew_fold_id
    · exact hI.pidsNodup
    · intro y hy
      show stateOf s y = some PState.New
      exact hI.stateAll y (harr y hy)
  have he : arrive_new_processes s =
      List.foldl (fun st pid => try_load_to_memory st pid)
        { s with all_processes := s.all_processes.filter (fun pid =>
            match lookupProc s pid with
            | some p => s.clock < p.arrival_time
            | none => false) }
        (s.all_processes.filter (fun pid =>
          match lookupProc s pid with
          | some p => p.arrival_time == s.clock
          | none => false)) := by
    show List.foldl (fun st pid => try_load_to_memory st pid)
      ((s.all_processes.filter (fun pid =>
        match lookupProc s pid with
        | some p => p.arrival_time == s.clock
        | none => false)).foldl
        (fun st pid => updateProc st pid (fun p0 => { p0 with state := PState.New }))
        { s with all_processes := s.all_processes.filter (fun pid =>
            match lookupProc s pid with
            | some p => s.clock < p.arrival_time
            | none => false) })
      (s.all_processes.filter (fun pid =>
        match lookupProc s pid with
        | some p => p.arrival_time == s.clock
        | none => false)) = _
    rw [hs2]
  obtain ⟨F1, _Fall, Fterm, Fcur, Fclk, Fdeg, Finc, _Fst, _Frdy, _Fsus, Fpart, Ffe⟩ :=
    tlm_fold_inv
      (s.all_processes.filter (fun pid =>
        match lookupProc s pid with
        | some p => p.arrival_time == s.clock
        | none => false))
      { s with all_processes := s.all_processes.filter (fun pid =>
          match lookupProc s pid with
          | some p => s.clock < p.arrival_time
          | none => false) }
      hI1 (hI.nodupAll.filter _)
      (fun y hy => by
        show stateOf s y = some PState.New
        exact hI.stateAll y (harr y hy))
      (fun y hy hmem => by
        replace hmem : y ∈ s.all_processes.filter (fun pid =>
          match lookupProc s pid with
          | some p => s.clock < p.arrival_time
          | none => false) := hmem
        have h1 := (List.mem_filter.1 hy).2
        have h2 := (List.mem_filter.1 hmem).2
        cases hl : lookupProc s y with
        | none =>
          rw [hl] at h1
          cases h1
        | some p =>
          rw [hl] at h1
          rw [hl] at h2
          have e1 : p.arrival_time = s.clock := of_decide_eq_true h1
          have e2 : s.clock < p.arrival_time := of_decide_eq_true h2
          rw [e1] at e2
          exact absurd e2 (lt_irrefl s.clock)
      )
      (fun y hy => hI.disjAllReady y (harr y hy))
      (fun y hy => hI.disjAllTerm y (harr y hy))
      (fun y hy hc => hI.curNotAll y hc (harr y hy))
  rw [he]
  exact ⟨F1, Fterm, Fcur, Fclk, Fdeg, Finc, Fpart, Ffe⟩

end Simulador

namespace Simulador

/-- The allocator never reads or writes the suspended queue. -/
theorem allocate_susp_congr (s : SimState) (X : List Nat) (pid : Nat)
    (hbn : (s.partitions.map Partition.id).Nodup) :
    allocate_process { s with suspended_queue := X } pid =
      ((allocate_process s pid).1,
        { (allocate_process s pid).2 with suspended_queue := X }) := by
  cases hlp : lookupProc s pid with
  | none =>
    have h1 : allocate_process s pid = (false, s) := by
      unfold allocate_process
      rw [hlp]
    have h2 : allocate_process { s with suspended_queue := X } pid =
        (false, { s with suspended_queue := X }) := by
      unfold allocate_process
      rw [show lookupProc { s with suspended_queue := X } pid = lookupProc s pid
        from rfl, hlp]
    rw [h1, h2]
  | some p =>
    have hbn' : (({ s with suspended_queue := X } :
        SimState).partitions.map Partition.id).Nodup := hbn
    have hlp' : lookupProc { s with suspended_queue := X } pid = some p := hlp
    rcases allocate_process_char hbn hlp with ⟨hn, he⟩ |
      ⟨q, hfq, hqmem, hqfree, hqsz, he⟩ <;>
      rcases allocate_process_char hbn' hlp' with ⟨hn', he'⟩ |
        ⟨q', hfq', hqmem', hqfree', hqsz', he'⟩
    · rw [he, he']
    · replace hfq' : find_best_fit s.partitions p.size = some q' := hfq'
      rw [hn] at hfq'
      cases hfq'
    · replace hn' : find_best_fit s.partitions p.size = none := hn'
      rw [hfq] at hn'
      cases hn'
    · replace hfq' : find_best_fit s.partitions p.size = some q' := hfq'
      rw [hfq] at hfq'
      cases Option.some.inj hfq'
      rw [he, he']
      rfl

end Simulador

namespace Simulador

/-- Walking the suspended queue preserves the invariant of the virtual state
in which the already-admitted accumulator has been erased from the suspended
queue, and frames occupied partitions, first-execution stamps, and the states
of processes outside the pending list. -/
theorem go_inv (degree : Nat) : ∀ (pending : List Nat) (dom : Nat) (t : SimState)
    (acc : List Nat),
    Inv { t with
      suspended_queue := acc.foldl (fun q x => q.erase x) t.suspended_queue } →
    (∀ y ∈ pending, y ∈ acc.foldl (fun q x => q.erase x) t.suspended_queue) →
    pending.Nodup →
    Inv { (try_load_suspended_go degree pending dom t acc).1 with
      suspended_queue := (try_load_suspended_go degree pending dom t acc).2.foldl (fun q x => q.erase x) (try_load_suspended_go degree pending dom t acc).1.suspended_queue } ∧
    (∀ b x, partProcOf t b = some (some x) →
      partProcOf (try_load_suspended_go degree pending dom t acc).1 b =
        some (some x)) ∧
    (∀ x, firstExecOf (try_load_suspended_go degree pending dom t acc).1 x =
      firstExecOf t x) ∧
    (∀ x, x ∉ pending →
      stateOf (try_load_suspended_go degree pending dom t acc).1 x = stateOf t x) := by
  intro pending
  induction pending with
  | nil =>
    intro dom t acc hIv hpend hnd
    exact ⟨hIv, fun b x hb => hb, fun x => rfl, fun x _ => rfl⟩
  | cons pid rest ih =>
    intro dom t acc hIv hpend hnd
    rw [try_load_suspended_go]
    split
    · exact ⟨hIv, fun b x hb => hb, fun x => rfl, fun x _ => rfl⟩
    · split
      · next s1 heq =>
        have hpidv : pid ∈ acc.foldl (fun q x => q.erase x) t.suspended_queue :=
          hpend pid (List.mem_cons_self pid rest)
        have hstate : stateOf { t with
            suspended_queue := acc.foldl (fun q x => q.erase x) t.suspended_queue } pid = some PState.Suspended :=
          hIv.stateSusp pid hpidv
        obtain ⟨p, hpv, hps⟩ := stateOf_some_lookup hstate
        have hAv := allocate_susp_congr t
          (acc.foldl (fun q x => q.erase x) t.suspended_queue) pid hIv.bidsNodup
        rw [heq] at hAv
        have hT : (allocate_process { t with
            suspended_queue := acc.foldl (fun q x => q.erase x) t.suspended_queue } pid).1 = true := by
          rw [hAv]
        obtain ⟨q, hqmem, hqfree, hqsz, hlook_self, hlook_ne, hlookP_self, hlookP_ne,
          hids, hbids, hmemP, hmemB, hfwdP, hfwdB, hp'mem, hq'mem, hSh⟩ :=
          allocate_success_facts { t with
              suspended_queue := acc.foldl (fun q x => q.erase x) t.suspended_queue } pid p
            hIv.pidsNodup hIv.bidsNodup hpv hT
        have hnall : pid ∉ ({ t with
            suspended_queue := acc.foldl (fun q x => q.erase x) t.suspended_queue } : SimState).all_processes :=
          fun h => hIv.disjAllSusp pid h hpidv
        have hnready : pid ∉ ({ t with
            suspended_queue := acc.foldl (fun q x => q.erase x) t.suspended_queue } : SimState).ready_queue :=
          fun h => hIv.disjReadySusp pid h hpidv
        have hnterm : pid ∉ ({ t with
            suspended_queue := acc.foldl (fun q x => q.erase x) t.suspended_queue } : SimState).terminated_queue :=
          fun h => hIv.disjSuspTerm pid hpidv h
        have hncur : ({ t with
            suspended_queue := acc.foldl (fun q x => q.erase x) t.suspended_queue } : SimState).current_process ≠ some pid :=
          fun h => hIv.curNotSusp pid h hpidv
        have hInvNext := admit_ready_inv_core
          { t with
            suspended_queue := acc.foldl (fun q x => q.erase x) t.suspended_queue }
          (allocate_process { t with
            suspended_queue := acc.foldl (fun q x => q.erase x) t.suspended_queue } pid).2
          pid hIv p q hpv (Or.inr hps) hnall hnready hnterm hncur hqmem hqfree
          hlook_self hlook_ne hids hbids hmemP hmemB hfwdP hfwdB hp'mem hq'mem hSh
        have hsusp1 : s1.suspended_queue = t.suspended_queue := by
          have hall := @sameShape_allocate t t pid (sameShape_refl t)
          rw [heq] at hall
          exact hall.2.2.2.2.1
        have hq2 : (acc ++ [pid]).foldl (fun q x => q.erase x)
            ({ s1 with ready_queue := addIfAbsent s1.ready_queue pid } : SimState).suspended_queue =
            (acc.foldl (fun q x => q.erase x) t.suspended_queue).erase pid := by
          show (acc ++ [pid]).foldl (fun q x => q.erase x) s1.suspended_queue = _
          rw [List.foldl_append, hsusp1]
          rfl
        have hv2 : ({ { s1 with ready_queue := addIfAbsent s1.ready_queue pid } with
            suspended_queue := (acc ++ [pid]).foldl (fun q x => q.erase x) ({ s1 with ready_queue := addIfAbsent s1.ready_queue pid } : SimState).suspended_queue } : SimState) =
            { (allocate_process { t with
                suspended_queue := acc.foldl (fun q x => q.erase x) t.suspended_queue } pid).2 with
              ready_queue := addIfAbsent (allocate_process { t with
                suspended_queue := acc.foldl (fun q x => q.erase x) t.suspended_queue } pid).2.ready_queue pid,
              suspended_queue := (allocate_process { t with
                suspended_queue := acc.foldl (fun q x => q.erase x) t.suspended_queue } pid).2.suspended_queue.erase pid } := by
          rw [hq2, hAv]
        obtain ⟨I1, Ipart, Ife, Ist⟩ := ih (dom + 1)
          { s1 with ready_queue := addIfAbsent s1.ready_queue pid } (acc ++ [pid])
          (by rw [hv2]; exact hInvNext)
          (by
            intro y hy
            rw [hq2]
            have hyne : y ≠ pid := by
              intro he
              exact (List.nodup_cons.1 hnd).1 (he ▸ hy)
            exact hIv.nodupSusp.mem_erase_iff.2
              ⟨hyne, hpend y (List.mem_cons_of_mem pid hy)⟩)
          (List.nodup_cons.1 hnd).2
        have hAv2 : (allocate_process { t with
            suspended_queue := acc.foldl (fun q x => q.erase x) t.suspended_queue } pid).2 =
            { s1 with suspended_queue := acc.foldl (fun q x => q.erase x) t.suspended_queue } :=
          congrArg Prod.snd hAv
        have hlook_self1 : lookupProc s1 pid =
            some { p with partition := some q.id, state := PState.Ready } := by
          have h0 := hlook_self
          rw [hAv2] at h0
          exact h0
        have hlook_ne1 : ∀ x, x ≠ pid → lookupProc s1 x = lookupProc t x := by
          intro x hx
          have h0 := hlook_ne x hx
          rw [hAv2] at h0
          exact h0
        have hlookP_ne1 : ∀ b, b ≠ q.id → lookupPart s1 b = lookupPart t b := by
          intro b hb
          have h0 := hlookP_ne b hb
          rw [hAv2] at h0
          exact h0
        refine ⟨I1, ?_, ?_, ?_⟩
        · intro b x hb
          apply Ipart
          show (lookupPart s1 b).map Partition.process = some (some x)
          by_cases hbq : b = q.id
          · subst hbq
            replace hb : (lookupPart { t with
                suspended_queue := acc.foldl (fun q x => q.erase x) t.suspended_queue } q.id).map Partition.process = some (some x) := hb
            rw [lookupPart_of_mem_nodup hIv.bidsNodup hqmem] at hb
            replace hb : some q.process = some (some x) := hb
            rw [hqfree] at hb
            cases Option.some.inj hb
          · rw [hlookP_ne1 b hbq]
            exact hb
        · intro x
          rw [Ife x]
          show (lookupProc s1 x).bind Process.first_execution_time = firstExecOf t x
          by_cases hx : x = pid
          · subst hx
            rw [hlook_self1]
            show p.first_execution_time = firstExecOf t x
            have hpt : lookupProc t x = some p := hpv
            unfold firstExecOf
            rw [hpt]
            rfl
          · rw [hlook_ne1 x hx]
            rfl
        · intro x hx
          have hx1 : x ∉ rest := fun h => hx (List.mem_cons_of_mem pid h)
          have hx2 : x ≠ pid := fun h => hx (h ▸ List.mem_cons_self pid rest)
          rw [Ist x hx1]
          show (lookupProc s1 x).map Process.state = stateOf t x
          rw [hlook_ne1 x hx2]
          rfl
      · next s1 heq =>
        have hs1 : s1 = t := by
          have h0 := allocate_false_eq t pid (by rw [heq])
          rw [heq] at h0
          exact h0
        subst hs1
        obtain ⟨I1, Ipart, Ife, Ist⟩ := ih dom s1 acc hIv
          (fun y hy => hpend y (List.mem_cons_of_mem pid hy))
          (List.nodup_cons.1 hnd).2
        exact ⟨I1, Ipart, Ife, fun x hx =>
          Ist x (fun h => hx (List.mem_cons_of_mem pid h))⟩

end Simulador

namespace Simulador

theorem go_frame2 {degree : Nat} : ∀ (pending : List Nat) (dom : Nat) (s : SimState)
    (acc : List Nat),
    (try_load_suspended_go degree pending dom s acc).1.degree_of_multiprogramming =
      s.degree_of_multiprogramming ∧
    (try_load_suspended_go degree pending dom s acc).1.incomplete = s.incomplete := by
  intro pending
  induction pending with
  | nil => intro dom s acc; exact ⟨rfl, rfl⟩
  | cons pid rest ih =>
    intro dom s acc
    rw [try_load_suspended_go]
    split
    · exact ⟨rfl, rfl⟩
    · split
      · next s1 heq =>
        have hall := @sameShape_allocate s s pid (sameShape_refl s)
        rw [heq] at hall
        have hrec := ih (dom + 1)
          ({ s1 with ready_queue := addIfAbsent s1.ready_queue pid }) (acc ++ [pid])
        exact ⟨hrec.1.trans hall.1, hrec.2.trans hall.2.2.2.2.2.2.2⟩
      · next s1 heq =>
        have hall := @sameShape_allocate s s pid (sameShape_refl s)
        rw [heq] at hall
        have hrec := ih dom s1 acc
        exact ⟨hrec.1.trans hall.1, hrec.2.trans hall.2.2.2.2.2.2.2⟩

/-- The suspended re-admission phase preserves the invariant and frames
everything except the ready and suspended queues, the re-admitted processes'
states and the partitions they claim. -/
theorem tls_inv (s : SimState) (hI : Inv s) :
    Inv (try_load_suspended s) ∧
    (try_load_suspended s).all_processes = s.all_processes ∧
    (try_load_suspended s).terminated_queue = s.terminated_queue ∧
    (try_load_suspended s).current_process = s.current_process ∧
    (try_load_suspended s).clock = s.clock ∧
    (try_load_suspended s).degree_of_multiprogramming =
      s.degree_of_multiprogramming ∧
    (try_load_suspended s).incomplete = s.incomplete ∧
    (∀ b x, partProcOf s b = some (some x) →
      partProcOf (try_load_suspended s) b = some (some x)) ∧
    (∀ x, firstExecOf (try_load_suspended s) x = firstExecOf s x) := by
  by_cases hdom : s.degree_of_multiprogramming ≤ current_dom s
  · have he : try_load_suspended s = s := by
      unfold try_load_suspended
      rw [if_pos hdom]
    rw [he]
    exact ⟨hI, rfl, rfl, rfl, rfl, rfl, rfl, fun b x hb => hb, fun x => rfl⟩
  · have he : try_load_suspended s =
        { (try_load_suspended_go s.degree_of_multiprogramming s.suspended_queue
            (current_dom s) s []).1 with
          suspended_queue :=
            (try_load_suspended_go s.degree_of_multiprogramming s.suspended_queue
              (current_dom s) s []).2.foldl (fun q pid => q.erase pid)
              (try_load_suspended_go s.degree_of_multiprogramming s.suspended_queue
                (current_dom s) s []).1.suspended_queue } := by
      unfold try_load_suspended
      rw [if_neg hdom]
    obtain ⟨I1, Ipart, Ife, _Ist⟩ :=
      go_inv s.degree_of_multiprogramming s.suspended_queue (current_dom s) s []
        hI (fun y hy => hy) hI.nodupSusp
    obtain ⟨hsusp, hall, hterm, hcur, hclk⟩ := @go_frame s.degree_of_multiprogramming
      s.suspended_queue (current_dom s) s []
    obtain ⟨hdeg, hinc⟩ := @go_frame2 s.degree_of_multiprogramming
      s.suspended_queue (current_dom s) s []
    rw [he]
    exact ⟨I1, hall, hterm, hcur, hclk, hdeg, hinc, Ipart, Ife⟩

end Simulador

namespace Simulador

/-- When `should_preempt` holds, a process is running and resolvable. -/
theorem should_preempt_current (s : SimState) (hsp : should_preempt s = true) :
    ∃ c cur, s.current_process = some c ∧ lookupProc s c = some cur := by
  unfold should_preempt at hsp
  cases hc : s.current_process with
  | none =>
    rw [hc] at hsp
    cases hsp
  | some c =>
    rw [hc] at hsp
    replace hsp : (match lookupProc s c with
      | none => false
      | some cur =>
        match minByRemaining (readyProcs s) with
        | none => false
        | some best => decide (best.remaining_time < cur.remaining_time)) = true := hsp
    cases hl : lookupProc s c with
    | none =>
      rw [hl] at hsp
      cases hsp
    | some cur => exact ⟨c, cur, rfl, hl⟩

/-- The shape of the preemption half when it fires. -/
theorem preempt_phase_eq (s : SimState) (c : Nat) (hsp : should_preempt s = true)
    (hc : s.current_process = some c) :
    preempt_phase s =
      { updateProc s c (fun p0 => { p0 with state := PState.Ready }) with
        ready_queue := addIfAbsent s.ready_queue c, current_process := none } := by
  unfold preempt_phase
  rw [if_pos hsp]
  unfold preempt_current
  rw [hc]
  rfl

/-- The preemption half of the scheduling phase preserves the invariant and
touches only the ready queue, the CPU and the demoted process's state. -/
theorem preempt_inv (s : SimState) (hI : Inv s) :
    Inv (preempt_phase s) ∧
    (preempt_phase s).all_processes = s.all_processes ∧
    (preempt_phase s).suspended_queue = s.suspended_queue ∧
    (preempt_phase s).terminated_queue = s.terminated_queue ∧
    (preempt_phase s).clock = s.clock ∧
    (preempt_phase s).degree_of_multiprogramming = s.degree_of_multiprogramming ∧
    (preempt_phase s).incomplete = s.incomplete ∧
    (preempt_phase s).partitions = s.partitions ∧
    (∀ x, firstExecOf (preempt_phase s) x = firstExecOf s x) := by
  by_cases hsp : should_preempt s = true
  · obtain ⟨c, cur, hc, hl⟩ := should_preempt_current s hsp
    have he := preempt_phase_eq s c hsp hc
    have hcmem : cur ∈ s.procs := (lookupProc_mem hl).1
    have hcid : cur.id = c := (lookupProc_mem hl).2
    have hcst : cur.state = PState.Executing := by
      have h0 := hI.stateCur c hc
      unfold stateOf at h0
      rw [hl] at h0
      exact Option.some.inj h0
    have hcrem := hI.remBounds cur hcmem
    have hcpart : cur.partition ≠ none := hI.partSome cur hcmem (Or.inr hcst)
    have hmem_char : ∀ r ∈ (updateProc s c
        (fun p0 => { p0 with state := PState.Ready })).procs,
        r ∈ s.procs ∨ r = { cur with state := PState.Ready } := by
      intro r hr
      obtain ⟨r0, hr0, hre⟩ := mem_updateProc hr
      by_cases hid : r0.id = c
      · right
        have : r0 = cur := store_mem_eq hI.pidsNodup hr0 hcmem (by rw [hid, hcid])
        subst this
        rw [hre, if_pos (by simp [hid])]
      · left
        rw [hre, if_neg (by simp [hid])]
        exact hr0
    have hmem_fwd : ∀ r ∈ s.procs, r.id ≠ c →
        r ∈ (updateProc s c (fun p0 => { p0 with state := PState.Ready })).procs :=
      fun r hr hne => mem_updateProc_of_ne hr hne
    have hstate_ne : ∀ x, x ≠ c →
        stateOf (updateProc s c (fun p0 => { p0 with state := PState.Ready })) x =
          stateOf s x :=
      fun x hx => stateOf_updateProc_ne (fun p0 => rfl) hx
    have hstate_self :
        stateOf (updateProc s c (fun p0 => { p0 with state := PState.Ready })) c =
          some PState.Ready := by
      unfold stateOf
      have h0 := @lookupProc_updateProc_self s c
        (fun p0 => { p0 with state := PState.Ready }) (fun p0 => rfl)
      rw [h0, hl]
      rfl
    have hcna : c ∉ s.all_processes := hI.curNotAll c hc
    have hcnr : c ∉ s.ready_queue := hI.curNotReady c hc
    have hcns : c ∉ s.suspended_queue := hI.curNotSusp c hc
    have hcnt : c ∉ s.terminated_queue := hI.curNotTerm c hc
    rw [he]
    refine ⟨?_, rfl, rfl, rfl, rfl, rfl, rfl, ?_, ?_⟩
    · refine { pidsNodup := ?_, bidsNodup := hI.bidsNodup, nodupAll := hI.nodupAll,
               nodupReady := ?_, nodupSusp := hI.nodupSusp, nodupTerm := hI.nodupTerm,
               disjAllReady := ?_, disjAllSusp := hI.disjAllSusp,
               disjAllTerm := hI.disjAllTerm, disjReadySusp := ?_,
               disjReadyTerm := ?_, disjSuspTerm := hI.disjSuspTerm,
               curNotAll := ?_, curNotReady := ?_, curNotSusp := ?_, curNotTerm := ?_,
               stateAll := ?_, stateReady := ?_, stateSusp := ?_, stateTerm := ?_,
               stateCur := ?_, remBounds := ?_, partNone := ?_, partSome := ?_,
               backProc := ?_, backPart := ?_ }
      · show ((updateProc s c (fun p0 =>
            { p0 with state := PState.Ready })).procs.map Process.id).Nodup
        rw [@procIds_updateProc s c (fun p0 =>
          { p0 with state := PState.Ready }) (fun p0 => rfl)]
        exact hI.pidsNodup
      · show (addIfAbsent s.ready_queue c).Nodup
        exact nodup_addIfAbsent hI.nodupReady
      · intro x hxa hxr
        replace hxr : x ∈ addIfAbsent s.ready_queue c := hxr
        rcases mem_addIfAbsent_iff.1 hxr with hxr | rfl
        · exact hI.disjAllReady x hxa hxr
        · exact hcna hxa
      · intro x hxr hxs
        replace hxr : x ∈ addIfAbsent s.ready_queue c := hxr
        rcases mem_addIfAbsent_iff.1 hxr with hxr | rfl
        · exact hI.disjReadySusp x hxr hxs
        · exact hcns hxs
      · intro x hxr hxt
        replace hxr : x ∈ addIfAbsent s.ready_queue c := hxr
        rcases mem_addIfAbsent_iff.1 hxr with hxr | rfl
        · exact hI.disjReadyTerm x hxr hxt
        · exact hcnt hxt
      · intro x hx
        cases hx
      · intro x hx
        cases hx
      · intro x hx
        cases hx
      · intro x hx
        cases hx
      · intro x hx
        have hne : x ≠ c := fun hev => hcna (hev ▸ hx)
        show stateOf (updateProc s c _) x = _
        rw [hstate_ne x hne]
        exact hI.stateAll x hx
      · intro x hx
        replace hx : x ∈ addIfAbsent s.ready_queue c := hx
        show stateOf (updateProc s c _) x = _
        rcases mem_addIfAbsent_iff.1 hx with hx | rfl
        · have hne : x ≠ c := fun hev => hcnr (hev ▸ hx)
          rw [hstate_ne x hne]
          exact hI.stateReady x hx
        · exact hstate_self
      · intro x hx
        have hne : x ≠ c := fun hev => hcns (hev ▸ hx)
        show stateOf (updateProc s c _) x = _
        rw [hstate_ne x hne]
        exact hI.stateSusp x hx
      · intro x hx
        have hne : x ≠ c := fun hev => hcnt (hev ▸ hx)
        show stateOf (updateProc s c _) x = _
        rw [hstate_ne x hne]
        exact hI.stateTerm x hx
      · intro x hx
        cases hx
      · intro r hr
        rcases hmem_char r hr with hr' | rfl
        · exact hI.remBounds r hr'
        · refine ⟨hcrem.1, ?_⟩
          constructor
          · intro h0
            exact absurd ((hcrem.2).1 h0) (by simp [hcst])
          · intro h0
            cases h0
      · intro r hr
        rcases hmem_char r hr with hr' | rfl
        · exact hI.partNone r hr'
        · intro h0
          rcases h0 with h0 | h0 | h0 <;> cases h0
      · intro r hr
        rcases hmem_char r hr with hr' | rfl
        · exact hI.partSome r hr'
        · intro _
          exact hcpart
      · intro r hr bid hb
        rcases hmem_char r hr with hr' | rfl
        · exact hI.backProc r hr' bid hb
        · exact hI.backProc cur hcmem bid hb
      · intro q hq x hx
        obtain ⟨p0, hp0, hp0id, hp0part⟩ := hI.backPart q hq x hx
        by_cases hne : p0.id = c
        · refine ⟨{ cur with state := PState.Ready }, ?_, ?_, ?_⟩
          · have h0 := @lookupProc_updateProc_self s c
              (fun p0 => { p0 with state := PState.Ready }) (fun p0 => rfl)
            rw [hl] at h0
            exact (lookupProc_mem h0).1
          · have : p0 = cur := store_mem_eq hI.pidsNodup hp0 hcmem (hne.trans hcid.symm)
            subst this
            exact hp0id
          · have : p0 = cur := store_mem_eq hI.pidsNodup hp0 hcmem (hne.trans hcid.symm)
            subst this
            exact hp0part
        · exact ⟨p0, hmem_fwd p0 hp0 hne, hp0id, hp0part⟩
    · rfl
    · intro x
      show firstExecOf (updateProc s c (fun p0 => { p0 with state := PState.Ready })) x = _
      exact firstExecOf_updateProc_keep (fun p0 => rfl) (fun p0 => rfl)
  · have he : preempt_phase s = s := by
      unfold preempt_phase
      rw [if_neg hsp]
    rw [he]
    exact ⟨hI, rfl, rfl, rfl, rfl, rfl, rfl, rfl, fun x => rfl⟩

end Simulador

namespace Simulador

/-- The SRTF selection returns the id of a resolvable ready-queue member. -/
theorem select_next_mem (s : SimState) (pid : Nat)
    (h : select_next_process s = some pid) :
    ∃ p, lookupProc s pid = some p ∧ pid ∈ s.ready_queue := by
  unfold select_next_process at h
  cases hm : minByRemaining (readyProcs s) with
  | none =>
    rw [hm] at h
    cases h
  | some b =>
    rw [hm] at h
    replace h : some b.id = some pid := h
    cases Option.some.inj h
    have hbm : b ∈ readyProcs s := minByRemaining_mem hm
    obtain ⟨y, hy, hly⟩ := List.mem_filterMap.1 hbm
    have hid : b.id = y := (lookupProc_mem hly).2
    refine ⟨b, ?_, ?_⟩
    · rw [hid]
      exact hly
    · rw [hid]
      exact hy

/-- Starting execution of a resolvable ready process (with an arbitrary
id-, remaining-, and partition-preserving rewrite that stamps Executing)
preserves the invariant. -/
theorem start_exec_inv_core (s : SimState) (pid : Nat) (hI : Inv s)
    (g : Process → Process)
    (hgid : ∀ p, (g p).id = p.id)
    (hgst : ∀ p, (g p).state = PState.Executing)
    (hgrem : ∀ p, (g p).remaining_time = p.remaining_time)
    (hgpart : ∀ p, (g p).partition = p.partition)
    (p : Process) (hp : lookupProc s pid = some p)
    (hmem : pid ∈ s.ready_queue) :
    Inv { updateProc s pid g with
      current_process := some pid, ready_queue := s.ready_queue.erase pid } := by
  have hpmem : p ∈ s.procs := (lookupProc_mem hp).1
  have hpid : p.id = pid := (lookupProc_mem hp).2
  have hpst : p.state = PState.Ready := by
    have h0 := hI.stateReady pid hmem
    unfold stateOf at h0
    rw [hp] at h0
    exact Option.some.inj h0
  have hprem := hI.remBounds p hpmem
  have hppart : p.partition ≠ none := hI.partSome p hpmem (Or.inl hpst)
  have hpna : pid ∉ s.all_processes := fun h => hI.disjAllReady pid h hmem
  have hpns : pid ∉ s.suspended_queue := fun h => hI.disjReadySusp pid hmem h
  have hpnt : pid ∉ s.terminated_queue := fun h => hI.disjReadyTerm pid hmem h
  have hmem_char : ∀ r ∈ (updateProc s pid g).procs, r ∈ s.procs ∨ r = g p := by
    intro r hr
    obtain ⟨r0, hr0, hre⟩ := mem_updateProc hr
    by_cases hid : r0.id = pid
    · right
      have : r0 = p := store_mem_eq hI.pidsNodup hr0 hpmem (by rw [hid, hpid])
      subst this
      rw [hre, if_pos (by simp [hid])]
    · left
      rw [hre, if_neg (by simp [hid])]
      exact hr0
  have hmem_fwd : ∀ r ∈ s.procs, r.id ≠ pid → r ∈ (updateProc s pid g).procs :=
    fun r hr hne => mem_updateProc_of_ne hr hne
  have hstate_ne : ∀ x, x ≠ pid →
      stateOf (updateProc s pid g) x = stateOf s x :=
    fun x hx => stateOf_updateProc_ne hgid hx
  have hstate_self : stateOf (updateProc s pid g) pid = some PState.Executing := by
    unfold stateOf
    rw [@lookupProc_updateProc_self s pid g hgid, hp]
    show some (g p).state = _
    rw [hgst p]
  have hsr : ∀ x, x ∈ s.ready_queue.erase pid → x ≠ pid ∧ x ∈ s.ready_queue :=
    fun x hx => ⟨(hI.nodupReady.mem_erase_iff.1 hx).1,
      (hI.nodupReady.mem_erase_iff.1 hx).2⟩
  refine { pidsNodup := ?_, bidsNodup := hI.bidsNodup, nodupAll := hI.nodupAll,
           nodupReady := ?_, nodupSusp := hI.nodupSusp, nodupTerm := hI.nodupTerm,
           disjAllReady := ?_, disjAllSusp := hI.disjAllSusp,
           disjAllTerm := hI.disjAllTerm, disjReadySusp := ?_, disjReadyTerm := ?_,
           disjSuspTerm := hI.disjSuspTerm, curNotAll := ?_, curNotReady := ?_,
           curNotSusp := ?_, curNotTerm := ?_, stateAll := ?_, stateReady := ?_,
           stateSusp := ?_, stateTerm := ?_, stateCur := ?_, remBounds := ?_,
           partNone := ?_, partSome := ?_, backProc := ?_, backPart := ?_ }
  · show ((updateProc s pid g).procs.map Process.id).Nodup
    rw [@procIds_updateProc s pid g hgid]
    exact hI.pidsNodup
  · show (s.ready_queue.erase pid).Nodup
    exact hI.nodupReady.erase pid
  · intro x hxa hxr
    exact hI.disjAllReady x hxa (hsr x hxr).2
  · intro x hxr hxs
    exact hI.disjReadySusp x (hsr x hxr).2 hxs
  · intro x hxr hxt
    exact hI.disjReadyTerm x (hsr x hxr).2 hxt
  · intro x hx
    cases Option.some.inj hx
    exact hpna
  · intro x hx hxr
    cases Option.some.inj hx
    exact (hsr _ hxr).1 rfl
  · intro x hx
    cases Option.some.inj hx
    exact hpns
  · intro x hx
    cases Option.some.inj hx
    exact hpnt
  · intro x hx
    have hne : x ≠ pid := fun hev => hpna (hev ▸ hx)
    show stateOf (updateProc s pid g) x = _
    rw [hstate_ne x hne]
    exact hI.stateAll x hx
  · intro x hx
    show stateOf (updateProc s pid g) x = _
    rw [hstate_ne x (hsr x hx).1]
    exact hI.stateReady x (hsr x hx).2
  · intro x hx
    have hne : x ≠ pid := fun hev => hpns (hev ▸ hx)
    show stateOf (updateProc s pid g) x = _
    rw [hstate_ne x hne]
    exact hI.stateSusp x hx
  · intro x hx
    have hne : x ≠ pid := fun hev => hpnt (hev ▸ hx)
    show stateOf (updateProc s pid g) x = _
    rw [hstate_ne x hne]
    exact hI.stateTerm x hx
  · intro x hx
    cases Option.some.inj hx
    exact hstate_self
  · intro r hr
    rcases hmem_char r hr with hr' | rfl
    · exact hI.remBounds r hr'
    · rw [show (g p).remaining_time = p.remaining_time from hgrem p]
      refine ⟨hprem.1, ?_⟩
      constructor
      · intro h0
        exact absurd ((hprem.2).1 h0) (by simp [hpst])
      · intro h0
        rw [hgst p] at h0
        cases h0
  · intro r hr
    rcases hmem_char r hr with hr' | rfl
    · exact hI.partNone r hr'
    · intro h0
      rw [hgst p] at h0
      rcases h0 with h0 | h0 | h0 <;> cases h0
  · intro r hr
    rcases hmem_char r hr with hr' | rfl
    · exact hI.partSome r hr'
    · intro _
      rw [show (g p).partition = p.partition from hgpart p]
      exact hppart
  · intro r hr bid hb
    rcases hmem_char r hr with hr' | rfl
    · exact hI.backProc r hr' bid hb
    · rw [hgpart p] at hb
      obtain ⟨q, hq, hqid, hqproc⟩ := hI.backProc p hpmem bid hb
      refine ⟨q, hq, hqid, ?_⟩
      rw [hqproc, hgid p]
  · intro q hq x hx
    obtain ⟨p0, hp0, hp0id, hp0part⟩ := hI.backPart q hq x hx
    by_cases hne : p0.id = pid
    · have : p0 = p := store_mem_eq hI.pidsNodup hp0 hpmem (hne.trans hpid.symm)
      subst this
      refine ⟨g p0, ?_, ?_, ?_⟩
      · have h0 := @lookupProc_updateProc_self s pid g hgid
        rw [hp] at h0
        exact (lookupProc_mem h0).1
      · rw [hgid p0]
        exact hp0id
      · rw [hgpart p0]
        exact hp0part
    · exact ⟨p0, hmem_fwd p0 hp0 hne, hp0id, hp0part⟩

end Simulador

namespace Simulador

/-- The selection half of the scheduling phase preserves the invariant; it
touches only the ready queue, the CPU, and the selected process's record, and
changes a first-execution stamp only from unset to the current clock. -/
theorem selection_inv (s : SimState) (hI : Inv s) :
    Inv (selection_phase s) ∧
    (selection_phase s).all_processes = s.all_processes ∧
    (selection_phase s).suspended_queue = s.suspended_queue ∧
    (selection_phase s).terminated_queue = s.terminated_queue ∧
    (selection_phase s).clock = s.clock ∧
    (selection_phase s).degree_of_multiprogramming = s.degree_of_multiprogramming ∧
    (selection_phase s).incomplete = s.incomplete ∧
    (selection_phase s).partitions = s.partitions ∧
    (∀ x, firstExecOf (selection_phase s) x = firstExecOf s x ∨
      (firstExecOf s x = none ∧ firstExecOf (selection_phase s) x = some s.clock)) := by
  cases hc : s.current_process with
  | some c =>
    have he : selection_phase s = s := by
      unfold selection_phase
      rw [hc]
    rw [he]
    exact ⟨hI, rfl, rfl, rfl, rfl, rfl, rfl, rfl, fun x => Or.inl rfl⟩
  | none =>
    cases hsel : select_next_process s with
    | none =>
      have he : selection_phase s = s := by
        unfold selection_phase
        rw [hc, hsel]
      rw [he]
      exact ⟨hI, rfl, rfl, rfl, rfl, rfl, rfl, rfl, fun x => Or.inl rfl⟩
    | some pid =>
      obtain ⟨p, hp, hmem⟩ := select_next_mem s pid hsel
      by_cases hfe : p.first_execution_time = none
      · have hstamp : (match lookupProc s pid with
            | some p0 =>
              if p0.first_execution_time = none then
                updateProc s pid (fun q0 =>
                  { q0 with first_execution_time := some s.clock })
              else s
            | none => s) =
            updateProc s pid (fun q0 =>
              { q0 with first_execution_time := some s.clock }) := by
          rw [hp]
          show (if p.first_execution_time = none then
              updateProc s pid (fun q0 =>
                { q0 with first_execution_time := some s.clock })
            else s) = _
          rw [if_pos hfe]
        have he : selection_phase s =
            { updateProc s pid (fun q0 =>
                { q0 with first_execution_time := some s.clock,
                          state := PState.Executing }) with
              current_process := some pid,
              ready_queue := s.ready_queue.erase pid } := by
          unfold selection_phase
          rw [hc, hsel]
          show (let s2 := start_execution (match lookupProc s pid with
              | some p0 =>
                if p0.first_execution_time = none then
                  updateProc s pid (fun q0 =>
                    { q0 with first_execution_time := some s.clock })
                else s
              | none => s) pid
            { s2 with ready_queue := s2.ready_queue.erase pid }) = _
          rw [hstamp]
          show { start_execution (updateProc s pid (fun q0 =>
              { q0 with first_execution_time := some s.clock })) pid with
            ready_queue := (start_execution (updateProc s pid (fun q0 =>
              { q0 with first_execution_time := some s.clock }))
                pid).ready_queue.erase pid } = _
          unfold start_execution
          rw [@updateProc_updateProc s pid
            (fun q0 => { q0 with first_execution_time := some s.clock })
            (fun q0 => { q0 with state := PState.Executing }) (fun q0 => rfl)]
          rfl
        rw [he]
        refine ⟨start_exec_inv_core s pid hI _ (fun q0 => rfl) (fun q0 => rfl)
            (fun q0 => rfl) (fun q0 => rfl) p hp hmem,
          rfl, rfl, rfl, rfl, rfl, rfl, rfl, ?_⟩
        intro x
        by_cases hx : x = pid
        · subst hx
          right
          constructor
          · unfold firstExecOf
            rw [hp]
            show p.first_execution_time = none
            exact hfe
          · show (lookupProc (updateProc s x _) x).bind Process.first_execution_time = _
            rw [@lookupProc_updateProc_self s x (fun q0 =>
              { q0 with first_execution_time := some s.clock,
                        state := PState.Executing }) (fun q0 => rfl), hp]
            rfl
        · left
          show (lookupProc (updateProc s pid _) x).bind Process.first_execution_time = _
          rw [@lookupProc_updateProc_ne s pid x (fun q0 =>
            { q0 with first_execution_time := some s.clock,
                      state := PState.Executing }) (fun q0 => rfl) hx]
          rfl
      · have hstamp : (match lookupProc s pid with
            | some p0 =>
              if p0.first_execution_time = none then
                updateProc s pid (fun q0 =>
                  { q0 with first_execution_time := some s.clock })
              else s
            | none => s) = s := by
          rw [hp]
          show (if p.first_execution_time = none then
              updateProc s pid (fun q0 =>
                { q0 with first_execution_time := some s.clock })
            else s) = _
          rw [if_neg hfe]
        have he : selection_phase s =
            { updateProc s pid (fun q0 => { q0 with state := PState.Executing }) with
              current_process := some pid,
              ready_queue := s.ready_queue.erase pid } := by
          unfold selection_phase
          rw [hc, hsel]
          show (let s2 := start_execution (match lookupProc s pid with
              | some p0 =>
                if p0.first_execution_time = none then
                  updateProc s pid (fun q0 =>
                    { q0 with first_execution_time := some s.clock })
                else s
              | none => s) pid
            { s2 with ready_queue := s2.ready_queue.erase pid }) = _
          rw [hstamp]
          show { start_execution s pid with
            ready_queue := (start_execution s pid).ready_queue.erase pid } = _
          unfold start_execution
          rfl
        rw [he]
        refine ⟨start_exec_inv_core s pid hI _ (fun q0 => rfl) (fun q0 => rfl)
            (fun q0 => rfl) (fun q0 => rfl) p hp hmem,
          rfl, rfl, rfl, rfl, rfl, rfl, rfl, ?_⟩
        intro x
        left
        show firstExecOf (updateProc s pid
          (fun q0 => { q0 with state := PState.Executing })) x = _
        exact firstExecOf_updateProc_keep (fun q0 => rfl) (fun q0 => rfl)

end Simulador

namespace Simulador

/-- The whole scheduling phase (preemption then selection) preserves the
invariant, leaves the partitions and all queues except the ready queue
untouched, and only ever stamps an unset first-execution time with the
current clock. -/
theorem schedule_inv (s : SimState) (hI : Inv s) :
    Inv (schedule_process s) ∧
    (schedule_process s).all_processes = s.all_processes ∧
    (schedule_process s).suspended_queue = s.suspended_queue ∧
    (schedule_process s).terminated_queue = s.terminated_queue ∧
    (schedule_process s).clock = s.clock ∧
    (schedule_process s).degree_of_multiprogramming = s.degree_of_multiprogramming ∧
    (schedule_process s).incomplete = s.incomplete ∧
    (schedule_process s).partitions = s.partitions ∧
    (∀ x, firstExecOf (schedule_process s) x = firstExecOf s x ∨
      (firstExecOf s x = none ∧ firstExecOf (schedule_process s) x = some s.clock)) := by
  obtain ⟨P1, Pall, Psus, Pterm, Pclk, Pdeg, Pinc, Pparts, Pfe⟩ := preempt_inv s hI
  obtain ⟨S1, Sall, Ssus, Sterm, Sclk, Sdeg, Sinc, Sparts, Sfe⟩ :=
    selection_inv (preempt_phase s) P1
  refine ⟨S1, Sall.trans Pall, Ssus.trans Psus, Sterm.trans Pterm, Sclk.trans Pclk,
    Sdeg.trans Pdeg, Sinc.trans Pinc, Sparts.trans Pparts, ?_⟩
  intro x
  rcases Sfe x with h | ⟨h1, h2⟩
  · exact Or.inl (h.trans (Pfe x))
  · rw [Pfe x] at h1
    rw [Pclk] at h2
    exact Or.inr ⟨h1, h2⟩

/-- An update that preserves id, state, remaining time and partition (such as
the wait-time bump) preserves the invariant. -/
theorem wait_bump_inv (s : SimState) (pid : Nat) (hI : Inv s)
    (f : Process → Process)
    (hfid : ∀ p, (f p).id = p.id) (hfst : ∀ p, (f p).state = p.state)
    (hfrem : ∀ p, (f p).remaining_time = p.remaining_time)
    (hfpart : ∀ p, (f p).partition = p.partition) :
    Inv (updateProc s pid f) := by
  have hchar : ∀ r ∈ (updateProc s pid f).procs, ∃ r0 ∈ s.procs,
      r.id = r0.id ∧ r.state = r0.state ∧ r.remaining_time = r0.remaining_time ∧
      r.partition = r0.partition := by
    intro r hr
    obtain ⟨r0, hr0, hre⟩ := mem_updateProc hr
    by_cases hid : r0.id = pid
    · rw [hre, if_pos (by simp [hid])]
      exact ⟨r0, hr0, hfid r0, hfst r0, hfrem r0, hfpart r0⟩
    · rw [hre, if_neg (by simp [hid])]
      exact ⟨r0, hr0, rfl, rfl, rfl, rfl⟩
  have hst : ∀ x, stateOf (updateProc s pid f) x = stateOf s x :=
    fun x => stateOf_updateProc_keep hfid hfst
  refine { pidsNodup := ?_, bidsNodup := hI.bidsNodup, nodupAll := hI.nodupAll,
           nodupReady := hI.nodupReady, nodupSusp := hI.nodupSusp,
           nodupTerm := hI.nodupTerm, disjAllReady := hI.disjAllReady,
           disjAllSusp := hI.disjAllSusp, disjAllTerm := hI.disjAllTerm,
           disjReadySusp := hI.disjReadySusp, disjReadyTerm := hI.disjReadyTerm,
           disjSuspTerm := hI.disjSuspTerm, curNotAll := hI.curNotAll,
           curNotReady := hI.curNotReady, curNotSusp := hI.curNotSusp,
           curNotTerm := hI.curNotTerm, stateAll := ?_, stateReady := ?_,
           stateSusp := ?_, stateTerm := ?_, stateCur := ?_, remBounds := ?_,
           partNone := ?_, partSome := ?_, backProc := ?_, backPart := ?_ }
  · show ((updateProc s pid f).procs.map Process.id).Nodup
    rw [@procIds_updateProc s pid f hfid]
    exact hI.pidsNodup
  · intro x hx
    rw [hst x]
    exact hI.stateAll x hx
  · intro x hx
    rw [hst x]
    exact hI.stateReady x hx
  · intro x hx
    rw [hst x]
    exact hI.stateSusp x hx
  · intro x hx
    rw [hst x]
    exact hI.stateTerm x hx
  · intro x hx
    rw [hst x]
    exact hI.stateCur x hx
  · intro r hr
    obtain ⟨r0, hr0, _, hstq, hrem, _⟩ := hchar r hr
    rw [hstq, hrem]
    exact hI.remBounds r0 hr0
  · intro r hr
    obtain ⟨r0, hr0, _, hstq, _, hpart⟩ := hchar r hr
    rw [hstq, hpart]
    exact hI.partNone r0 hr0
  · intro r hr
    obtain ⟨r0, hr0, _, hstq, _, hpart⟩ := hchar r hr
    rw [hstq, hpart]
    exact hI.partSome r0 hr0
  · intro r hr bid hb
    obtain ⟨r0, hr0, hid, _, _, hpart⟩ := hchar r hr
    rw [hpart] at hb
    obtain ⟨q, hq, hqid, hqproc⟩ := hI.backProc r0 hr0 bid hb
    refine ⟨q, hq, hqid, ?_⟩
    rw [hqproc, hid]
  · intro q hq x hx
    obtain ⟨p0, hp0, hp0id, hp0part⟩ := hI.backPart q hq x hx
    by_cases hne : p0.id = pid
    · refine ⟨f p0, mem_updateProc_of_id hp0 hne, ?_, ?_⟩
      · rw [hfid p0]
        exact hp0id
      · rw [hfpart p0]
        exact hp0part
    · exact ⟨p0, mem_updateProc_of_ne hp0 hne, hp0id, hp0part⟩

/-- Folding an id-, state-, remaining-, partition- and first-execution-
preserving rewrite over any list of pids preserves the invariant and frames
everything the invariant talks about. -/
theorem updf_fold_inv (f : Process → Process)
    (hfid : ∀ p, (f p).id = p.id) (hfst : ∀ p, (f p).state = p.state)
    (hfrem : ∀ p, (f p).remaining_time = p.remaining_time)
    (hfpart : ∀ p, (f p).partition = p.partition)
    (hffe : ∀ p, (f p).first_execution_time = p.first_execution_time) :
    ∀ (l : List Nat) (s : SimState), Inv s →
    Inv (l.foldl (fun st pid => updateProc st pid f) s) ∧
    (l.foldl (fun st pid => updateProc st pid f) s).all_processes =
      s.all_processes ∧
    (l.foldl (fun st pid => updateProc st pid f) s).ready_queue = s.ready_queue ∧
    (l.foldl (fun st pid => updateProc st pid f) s).suspended_queue =
      s.suspended_queue ∧
    (l.foldl (fun st pid => updateProc st pid f) s).terminated_queue =
      s.terminated_queue ∧
    (l.foldl (fun st pid => updateProc st pid f) s).current_process =
      s.current_process ∧
    (l.foldl (fun st pid => updateProc st pid f) s).clock = s.clock ∧
    (l.foldl (fun st pid => updateProc st pid f) s).degree_of_multiprogramming =
      s.degree_of_multiprogramming ∧
    (l.foldl (fun st pid => updateProc st pid f) s).incomplete = s.incomplete ∧
    (l.foldl (fun st pid => updateProc st pid f) s).partitions = s.partitions ∧
    (∀ x, stateOf (l.foldl (fun st pid => updateProc st pid f) s) x = stateOf s x) ∧
    (∀ x, firstExecOf (l.foldl (fun st pid => updateProc st pid f) s) x =
      firstExecOf s x) := by
  intro l
  induction l with
  | nil =>
    intro s hI
    exact ⟨hI, rfl, rfl, rfl, rfl, rfl, rfl, rfl, rfl, rfl, fun x => rfl,
      fun x => rfl⟩
  | cons pid rest ih =>
    intro s hI
    obtain ⟨I1, Iall, Irdy, Isus, Iterm, Icur, Iclk, Ideg, Iinc, Iparts, Ist, Ife⟩ :=
      ih (updateProc s pid f) (wait_bump_inv s pid hI f hfid hfst hfrem hfpart)
    refine ⟨I1, Iall, Irdy, Isus, Iterm, Icur, Iclk, Ideg, Iinc, Iparts, ?_, ?_⟩
    · intro x
      exact (Ist x).trans (stateOf_updateProc_keep hfid hfst)
    · intro x
      exact (Ife x).trans (firstExecOf_updateProc_keep hfid hffe)

/-- The wait-time accrual phase preserves the invariant and every field the
invariant mentions. -/
theorem update_wait_times_inv (s : SimState) (hI : Inv s) :
    Inv (update_wait_times s) ∧
    (update_wait_times s).all_processes = s.all_processes ∧
    (update_wait_times s).ready_queue = s.ready_queue ∧
    (update_wait_times s).suspended_queue = s.suspended_queue ∧
    (update_wait_times s).terminated_queue = s.terminated_queue ∧
    (update_wait_times s).current_process = s.current_process ∧
    (update_wait_times s).clock = s.clock ∧
    (update_wait_times s).degree_of_multiprogramming =
      s.degree_of_multiprogramming ∧
    (update_wait_times s).incomplete = s.incomplete ∧
    (update_wait_times s).partitions = s.partitions ∧
    (∀ x, stateOf (update_wait_times s) x = stateOf s x) ∧
    (∀ x, firstExecOf (update_wait_times s) x = firstExecOf s x) :=
  updf_fold_inv
    (fun p =>
      if (p.state = PState.Ready ∨ p.state = PState.Suspended) ∧
          s.current_process ≠ some p.id ∧ p.first_execution_time = none
      then { p with wait_time := p.wait_time + 1 } else p)
    (fun p => by
      dsimp only
      split <;> rfl)
    (fun p => by
      dsimp only
      split <;> rfl)
    (fun p => by
      dsimp only
      split <;> rfl)
    (fun p => by
      dsimp only
      split <;> rfl)
    (fun p => by
      dsimp only
      split <;> rfl)
    (s.ready_queue ++ s.suspended_queue) s hI

end Simulador

namespace Simulador

/-- `Process.calculate_statistics` rewrites only the turnaround and wait
fields. -/
theorem calculate_statistics_fields (p : Process) :
    (calculate_statistics p).id = p.id ∧ (calculate_statistics p).state = p.state ∧
    (calculate_statistics p).remaining_time = p.remaining_time ∧
    (calculate_statistics p).partition = p.partition ∧
    (calculate_statistics p).first_execution_time = p.first_execution_time := by
  unfold calculate_statistics
  cases p.first_execution_time <;> exact ⟨rfl, rfl, rfl, rfl, rfl⟩

/-- Core invariant argument for a terminating tick: given a store rewrite of
the finished current process to a Terminated record with zero remaining time
and no partition, clearing its partition's occupant, queueing it as
terminated and idling the CPU preserves the invariant. -/
theorem terminate_inv_core (s sp : SimState) (c bid : Nat) (hI : Inv s)
    (p : Process) (q : Partition) (pt : Process)
    (hc : s.current_process = some c) (hp : lookupProc s c = some p)
    (hpbid : p.partition = some bid)
    (hqmem : q ∈ s.partitions) (hqid : q.id = bid) (hqproc : q.process = some p.id)
    (hlookc : lookupProc sp c = some pt)
    (hptst : pt.state = PState.Terminated) (hptrem : pt.remaining_time = 0)
    (hptpart : pt.partition = none)
    (hlookne : ∀ x, x ≠ c → lookupProc sp x = lookupProc s x)
    (hmemP : ∀ r ∈ sp.procs, (r ∈ s.procs ∧ r.id ≠ c) ∨ r = pt)
    (hfwdP : ∀ r ∈ s.procs, r.id ≠ c → r ∈ sp.procs)
    (hids : sp.procs.map Process.id = s.procs.map Process.id)
    (hfparts : sp.partitions = s.partitions)
    (hfall : sp.all_processes = s.all_processes)
    (hfrdy : sp.ready_queue = s.ready_queue)
    (hfsus : sp.suspended_queue = s.suspended_queue) :
    Inv { updatePart sp bid
            (fun q0 => { q0 with process := none, internal_fragmentation := 0 }) with
          terminated_queue := addIfAbsent s.terminated_queue c,
          current_process := none } := by
  have hpmem : p ∈ s.procs := (lookupProc_mem hp).1
  have hpid : p.id = c := (lookupProc_mem hp).2
  have hcna : c ∉ s.all_processes := hI.curNotAll c hc
  have hcnr : c ∉ s.ready_queue := hI.curNotReady c hc
  have hcns : c ∉ s.suspended_queue := hI.curNotSusp c hc
  have hcnt : c ∉ s.terminated_queue := hI.curNotTerm c hc
  have honlyp : ∀ r ∈ s.procs, r.partition = some bid → r = p := by
    intro r hr hrb
    obtain ⟨q1, hq1, hq1id, hq1proc⟩ := hI.backProc r hr bid hrb
    have : q1 = q := parts_mem_eq hI.bidsNodup hq1 hqmem (hq1id.trans hqid.symm)
    subst this
    rw [hqproc] at hq1proc
    exact store_mem_eq hI.pidsNodup hr hpmem (Option.some.inj hq1proc).symm
  have hpart_char : ∀ r ∈ (updatePart sp bid
      (fun q0 => { q0 with process := none, internal_fragmentation := 0 })).partitions,
      (r ∈ s.partitions ∧ r.id ≠ bid) ∨
        r = { q with process := none, internal_fragmentation := 0 } := by
    intro r hr
    obtain ⟨r0, hr0, hre⟩ := mem_updatePart hr
    rw [hfparts] at hr0
    by_cases hid : r0.id = bid
    · right
      have : r0 = q := parts_mem_eq hI.bidsNodup hr0 hqmem (hid.trans hqid.symm)
      subst this
      rw [hre, if_pos (by simp [hid])]
    · left
      rw [hre, if_neg (by simp [hid])]
      exact ⟨hr0, hid⟩
  have hstate_ne : ∀ x, x ≠ c → stateOf sp x = stateOf s x := by
    intro x hx
    unfold stateOf
    rw [hlookne x hx]
  have hstate_self : stateOf sp c = some PState.Terminated := by
    unfold stateOf
    rw [hlookc]
    show some pt.state = _
    rw [hptst]
  refine { pidsNodup := ?_, bidsNodup := ?_, nodupAll := ?_,
           nodupReady := ?_, nodupSusp := ?_,
           nodupTerm := ?_, disjAllReady := ?_,
           disjAllSusp := ?_, disjAllTerm := ?_,
           disjReadySusp := ?_, disjReadyTerm := ?_,
           disjSuspTerm := ?_, curNotAll := ?_, curNotReady := ?_, curNotSusp := ?_,
           curNotTerm := ?_, stateAll := ?_, stateReady := ?_, stateSusp := ?_,
           stateTerm := ?_, stateCur := ?_, remBounds := ?_, partNone := ?_,
           partSome := ?_, backProc := ?_, backPart := ?_ }
  · show (sp.procs.map Process.id).Nodup
    rw [hids]
    exact hI.pidsNodup
  · show ((updatePart sp bid
      (fun q0 => { q0 with process := none, internal_fragmentation := 0 })).partitions.map Partition.id).Nodup
    rw [@partIds_updatePart sp bid
      (fun q0 => { q0 with process := none, internal_fragmentation := 0 })
      (fun q0 => rfl), hfparts]
    exact hI.bidsNodup
  · show sp.all_processes.Nodup
    rw [hfall]
    exact hI.nodupAll
  · show sp.ready_queue.Nodup
    rw [hfrdy]
    exact hI.nodupReady
  · show sp.suspended_queue.Nodup
    rw [hfsus]
    exact hI.nodupSusp
  · show (addIfAbsent s.terminated_queue c).Nodup
    exact nodup_addIfAbsent hI.nodupTerm
  · intro x hxa hxr
    replace hxa : x ∈ sp.all_processes := hxa
    replace hxr : x ∈ sp.ready_queue := hxr
    rw [hfall] at hxa
    rw [hfrdy] at hxr
    exact hI.disjAllReady x hxa hxr
  · intro x hxa hxs
    replace hxa : x ∈ sp.all_processes := hxa
    replace hxs : x ∈ sp.suspended_queue := hxs
    rw [hfall] at hxa
    rw [hfsus] at hxs
    exact hI.disjAllSusp x hxa hxs
  · intro x hxa hxt
    replace hxa : x ∈ sp.all_processes := hxa
    replace hxt : x ∈ addIfAbsent s.terminated_queue c := hxt
    rw [hfall] at hxa
    rcases mem_addIfAbsent_iff.1 hxt with hxt | rfl
    · exact hI.disjAllTerm x hxa hxt
    · exact hcna hxa
  · intro x hxr hxs
    replace hxr : x ∈ sp.ready_queue := hxr
    replace hxs : x ∈ sp.suspended_queue := hxs
    rw [hfrdy] at hxr
    rw [hfsus] at hxs
    exact hI.disjReadySusp x hxr hxs
  · intro x hxr hxt
    replace hxr : x ∈ sp.ready_queue := hxr
    replace hxt : x ∈ addIfAbsent s.terminated_queue c := hxt
    rw [hfrdy] at hxr
    rcases mem_addIfAbsent_iff.1 hxt with hxt | rfl
    · exact hI.disjReadyTerm x hxr hxt
    · exact hcnr hxr
  · intro x hxs hxt
    replace hxs : x ∈ sp.suspended_queue := hxs
    replace hxt : x ∈ addIfAbsent s.terminated_queue c := hxt
    rw [hfsus] at hxs
    rcases mem_addIfAbsent_iff.1 hxt with hxt | rfl
    · exact hI.disjSuspTerm x hxs hxt
    · exact hcns hxs
  · intro x hx
    cases hx
  · intro x hx
    cases hx
  · intro x hx
    cases hx
  · intro x hx
    cases hx
  · intro x hx
    replace hx : x ∈ sp.all_processes := hx
    rw [hfall] at hx
    have hne : x ≠ c := fun hev => hcna (hev ▸ hx)
    show stateOf sp x = _
    rw [hstate_ne x hne]
    exact hI.stateAll x hx
  · intro x hx
    replace hx : x ∈ sp.ready_queue := hx
    rw [hfrdy] at hx
    have hne : x ≠ c := fun hev => hcnr (hev ▸ hx)
    show stateOf sp x = _
    rw [hstate_ne x hne]
    exact hI.stateReady x hx
  · intro x hx
    replace hx : x ∈ sp.suspended_queue := hx
    rw [hfsus] at hx
    have hne : x ≠ c := fun hev => hcns (hev ▸ hx)
    show stateOf sp x = _
    rw [hstate_ne x hne]
    exact hI.stateSusp x hx
  · intro x hx
    replace hx : x ∈ addIfAbsent s.terminated_queue c := hx
    show stateOf sp x = _
    rcases mem_addIfAbsent_iff.1 hx with hx | rfl
    · have hne : x ≠ c := fun hev => hcnt (hev ▸ hx)
      rw [hstate_ne x hne]
      exact hI.stateTerm x hx
    · exact hstate_self
  · intro x hx
    cases hx
  · intro r hr
    replace hr : r ∈ sp.procs := hr
    rcases hmemP r hr with ⟨hr', _⟩ | rfl
    · exact hI.remBounds r hr'
    · rw [hptrem, hptst]
      refine ⟨le_refl 0, ?_⟩
      exact ⟨fun _ => rfl, fun _ => rfl⟩
  · intro r hr
    replace hr : r ∈ sp.procs := hr
    rcases hmemP r hr with ⟨hr', _⟩ | rfl
    · exact hI.partNone r hr'
    · intro _
      exact hptpart
  · intro r hr
    replace hr : r ∈ sp.procs := hr
    rcases hmemP r hr with ⟨hr', _⟩ | rfl
    · exact hI.partSome r hr'
    · intro h0
      rw [hptst] at h0
      rcases h0 with h0 | h0 <;> cases h0
  · intro r hr bid' hb
    replace hr : r ∈ sp.procs := hr
    rcases hmemP r hr with ⟨hr', hrne⟩ | rfl
    · obtain ⟨q1, hq1, hq1id, hq1proc⟩ := hI.backProc r hr' bid' hb
      have hbne : bid' ≠ bid := by
        intro hev
        subst hev
        have : r = p := honlyp r hr' hb
        subst this
        exact hrne hpid
      refine ⟨q1, ?_, hq1id, hq1proc⟩
      show q1 ∈ (updatePart sp bid _).partitions
      refine mem_updatePart_of_ne ?_ (by rw [hq1id]; exact hbne)
      rw [hfparts]
      exact hq1
    · rw [hptpart] at hb
      cases hb
  · intro q0 hq0 x hx
    replace hq0 : q0 ∈ (updatePart sp bid
      (fun r0 => { r0 with process := none, internal_fragmentation := 0 })).partitions := hq0
    rcases hpart_char q0 hq0 with ⟨hq0', hq0ne⟩ | rfl
    · obtain ⟨p0, hp0, hp0id, hp0part⟩ := hI.backPart q0 hq0' x hx
      have hp0ne : p0.id ≠ c := by
        intro hev
        have : p0 = p := store_mem_eq hI.pidsNodup hp0 hpmem (hev.trans hpid.symm)
        subst this
        rw [hpbid] at hp0part
        exact hq0ne (Option.some.inj hp0part).symm
      refine ⟨p0, ?_, hp0id, hp0part⟩
      show p0 ∈ sp.procs
      exact hfwdP p0 hp0 hp0ne
    · cases hx

end Simulador

namespace Simulador

/-- One layer of a same-pid update chain: the membership characterization and
the frame of the untouched records carry over. -/
theorem chain_mem_char {s X : SimState} {c : Nat} {pt : Process}
    {f : Process → Process}
    (hn : (s.procs.map Process.id).Nodup)
    (hidsX : X.procs.map Process.id = s.procs.map Process.id)
    (hlookX : lookupProc X c = some pt)
    (hchar : ∀ r ∈ X.procs, (r ∈ s.procs ∧ r.id ≠ c) ∨ r = pt)
    (hfwd : ∀ r ∈ s.procs, r.id ≠ c → r ∈ X.procs) :
    (∀ r ∈ (updateProc X c f).procs, (r ∈ s.procs ∧ r.id ≠ c) ∨ r = f pt) ∧
    (∀ r ∈ s.procs, r.id ≠ c → r ∈ (updateProc X c f).procs) := by
  have hptid : pt.id = c := (lookupProc_mem hlookX).2
  have hXn : (X.procs.map Process.id).Nodup := by
    rw [hidsX]
    exact hn
  have hptmem : pt ∈ X.procs := (lookupProc_mem hlookX).1
  constructor
  · intro r hr
    obtain ⟨r0, hr0, hre⟩ := mem_updateProc hr
    by_cases hid : r0.id = c
    · right
      have : r0 = pt := store_mem_eq hXn hr0 hptmem (hid.trans hptid.symm)
      subst this
      rw [hre, if_pos (by simp [hid])]
    · rcases hchar r0 hr0 with ⟨hr0s, hr0ne⟩ | rfl
      · left
        rw [hre, if_neg (by simp [hid])]
        exact ⟨hr0s, hr0ne⟩
      · exact absurd hptid hid
  · intro r hr hne
    exact mem_updateProc_of_ne (hfwd r hr hne) hne

/-- Decrementing the running process's remaining time, when time is still
left afterwards, preserves the invariant. -/
theorem exec_dec_inv (s : SimState) (c : Nat) (hI : Inv s) (p : Process)
    (hp : lookupProc s c = some p) (hcur : s.current_process = some c)
    (hgt : 0 < p.remaining_time - 1) :
    Inv (updateProc s c
      (fun p0 => { p0 with remaining_time := p0.remaining_time - 1 })) := by
  have hpmem : p ∈ s.procs := (lookupProc_mem hp).1
  have hpid : p.id = c := (lookupProc_mem hp).2
  have hpst : p.state = PState.Executing := by
    have h0 := hI.stateCur c hcur
    unfold stateOf at h0
    rw [hp] at h0
    exact Option.some.inj h0
  have hmem_char : ∀ r ∈ (updateProc s c
      (fun p0 => { p0 with remaining_time := p0.remaining_time - 1 })).procs,
      r ∈ s.procs ∨ r = { p with remaining_time := p.remaining_time - 1 } := by
    intro r hr
    obtain ⟨r0, hr0, hre⟩ := mem_updateProc hr
    by_cases hid : r0.id = c
    · right
      have : r0 = p := store_mem_eq hI.pidsNodup hr0 hpmem (hid.trans hpid.symm)
      subst this
      rw [hre, if_pos (by simp [hid])]
    · left
      rw [hre, if_neg (by simp [hid])]
      exact hr0
  have hst : ∀ x, stateOf (updateProc s c
      (fun p0 => { p0 with remaining_time := p0.remaining_time - 1 })) x =
      stateOf s x :=
    fun x => stateOf_updateProc_keep (fun p0 => rfl) (fun p0 => rfl)
  refine { pidsNodup := ?_, bidsNodup := hI.bidsNodup, nodupAll := hI.nodupAll,
           nodupReady := hI.nodupReady, nodupSusp := hI.nodupSusp,
           nodupTerm := hI.nodupTerm, disjAllReady := hI.disjAllReady,
           disjAllSusp := hI.disjAllSusp, disjAllTerm := hI.disjAllTerm,
           disjReadySusp := hI.disjReadySusp, disjReadyTerm := hI.disjReadyTerm,
           disjSuspTerm := hI.disjSuspTerm, curNotAll := hI.curNotAll,
           curNotReady := hI.curNotReady, curNotSusp := hI.curNotSusp,
           curNotTerm := hI.curNotTerm, stateAll := ?_, stateReady := ?_,
           stateSusp := ?_, stateTerm := ?_, stateCur := ?_, remBounds := ?_,
           partNone := ?_, partSome := ?_, backProc := ?_, backPart := ?_ }
  · show ((updateProc s c (fun p0 =>
      { p0 with remaining_time := p0.remaining_time - 1 })).procs.map Process.id).Nodup
    rw [@procIds_updateProc s c (fun p0 =>
      { p0 with remaining_time := p0.remaining_time - 1 }) (fun p0 => rfl)]
    exact hI.pidsNodup
  · intro x hx
    rw [hst x]
    exact hI.stateAll x hx
  · intro x hx
    rw [hst x]
    exact hI.stateReady x hx
  · intro x hx
    rw [hst x]
    exact hI.stateSusp x hx
  · intro x hx
    rw [hst x]
    exact hI.stateTerm x hx
  · intro x hx
    rw [hst x]
    exact hI.stateCur x hx
  · intro r hr
    rcases hmem_char r hr with hr' | rfl
    · exact hI.remBounds r hr'
    · refine ⟨le_of_lt hgt, ?_⟩
      constructor
      · intro h0
        replace h0 : p.remaining_time - 1 = 0 := h0
        rw [h0] at hgt
        exact absurd hgt (lt_irrefl 0)
      · intro h0
        replace h0 : p.state = PState.Terminated := h0
        rw [hpst] at h0
        cases h0
  · intro r hr
    rcases hmem_char r hr with hr' | rfl
    · exact hI.partNone r hr'
    · intro h0
      exact hI.partNone p hpmem h0
  · intro r hr
    rcases hmem_char r hr with hr' | rfl
    · exact hI.partSome r hr'
    · intro h0
      exact hI.partSome p hpmem h0
  · intro r hr bid hb
    rcases hmem_char r hr with hr' | rfl
    · exact hI.backProc r hr' bid hb
    · exact hI.backProc p hpmem bid hb
  · intro q hq x hx
    obtain ⟨p0, hp0, hp0id, hp0part⟩ := hI.backPart q hq x hx
    by_cases hne : p0.id = c
    · refine ⟨{ p0 with remaining_time := p0.remaining_time - 1 },
        mem_updateProc_of_id hp0 hne, hp0id, hp0part⟩
    · exact ⟨p0, mem_updateProc_of_ne hp0 hne, hp0id, hp0part⟩

end Simulador

namespace Simulador

/-- The exact shape of a terminating execution tick: the finished process's
record is rewritten (time decrement, Terminated, finish stamp, statistics,
twice-cleared partition reference), its partition is freed, it joins the
terminated queue, and the CPU goes idle. -/
theorem sim_execute_tick_term_eq (s : SimState) (c bid : Nat)
    (p : Process) (q : Partition)
    (hc : s.current_process = some c) (hl : lookupProc s c = some p)
    (hcond : p.remaining_time - 1 ≤ 0) (hpbid : p.partition = some bid)
    (hql : lookupPart s bid = some q) (hqproc : q.process = some c) :
    sim_execute_tick s =
      { updatePart (updateProc (updateProc (updateProc (updateProc (updateProc (updateProc s c (fun p0 => { p0 with remaining_time := p0.remaining_time - 1 })) c (fun p0 => { p0 with state := PState.Terminated })) c (fun p0 => { p0 with finish_time := (s.clock : Int) + 1 })) c calculate_statistics) c (fun p0 => { p0 with partition := none })) c (fun p0 => { p0 with partition := none })) bid (fun q0 => { q0 with process := none, internal_fragmentation := 0 }) with terminated_queue := addIfAbsent s.terminated_queue c, current_process := none } := by
  have hl1 : lookupProc (updateProc s c (fun p0 => { p0 with remaining_time := p0.remaining_time - 1 })) c = some ({ p with remaining_time := p.remaining_time - 1 }) := by
    rw [@lookupProc_updateProc_self s c (fun p0 => { p0 with remaining_time := p0.remaining_time - 1 }) (fun p0 => rfl), hl]
    rfl
  have hl2 : lookupProc (updateProc (updateProc s c (fun p0 => { p0 with remaining_time := p0.remaining_time - 1 })) c (fun p0 => { p0 with state := PState.Terminated })) c = some ({ p with remaining_time := p.remaining_time - 1, state := PState.Terminated }) := by
    rw [@lookupProc_updateProc_self (updateProc s c (fun p0 => { p0 with remaining_time := p0.remaining_time - 1 })) c (fun p0 => { p0 with state := PState.Terminated }) (fun p0 => rfl), hl1]
    rfl
  have hl3 : lookupProc (updateProc (updateProc (updateProc s c (fun p0 => { p0 with remaining_time := p0.remaining_time - 1 })) c (fun p0 => { p0 with state := PState.Terminated })) c (fun p0 => { p0 with finish_time := (s.clock : Int) + 1 })) c = some ({ p with remaining_time := p.remaining_time - 1, state := PState.Terminated, finish_time := (s.clock : Int) + 1 }) := by
    rw [@lookupProc_updateProc_self (updateProc (updateProc s c (fun p0 => { p0 with remaining_time := p0.remaining_time - 1 })) c (fun p0 => { p0 with state := PState.Terminated })) c (fun p0 => { p0 with finish_time := (s.clock : Int) + 1 }) (fun p0 => rfl), hl2]
    rfl
  have hl4 : lookupProc (updateProc (updateProc (updateProc (updateProc s c (fun p0 => { p0 with remaining_time := p0.remaining_time - 1 })) c (fun p0 => { p0 with state := PState.Terminated })) c (fun p0 => { p0 with finish_time := (s.clock : Int) + 1 })) c calculate_statistics) c = some (calculate_statistics ({ p with remaining_time := p.remaining_time - 1, state := PState.Terminated, finish_time := (s.clock : Int) + 1 })) := by
    rw [@lookupProc_updateProc_self (updateProc (updateProc (updateProc s c (fun p0 => { p0 with remaining_time := p0.remaining_time - 1 })) c (fun p0 => { p0 with state := PState.Terminated })) c (fun p0 => { p0 with finish_time := (s.clock : Int) + 1 })) c calculate_statistics
      (fun p0 => (calculate_statistics_fields p0).1), hl3]
    rfl
  have hsched : sched_execute_tick s = (some c, { updateProc (updateProc s c (fun p0 => { p0 with remaining_time := p0.remaining_time - 1 })) c (fun p0 => { p0 with state := PState.Terminated }) with current_process := none }) := by
    unfold sched_execute_tick
    rw [hc]
    show (match lookupProc s c with
      | none => (none, s)
      | some p =>
        let s1 := updateProc s c (fun p0 => { p0 with remaining_time := p0.remaining_time - 1 })
        if p.remaining_time - 1 ≤ 0 then
          let s2 := updateProc s1 c (fun p0 => { p0 with state := PState.Terminated })
          (some c, { s2 with current_process := none })
        else (none, s1)) = _
    rw [hl]
    show (if p.remaining_time - 1 ≤ 0 then (some c, { updateProc (updateProc s c (fun p0 => { p0 with remaining_time := p0.remaining_time - 1 })) c (fun p0 => { p0 with state := PState.Terminated }) with current_process := none })
      else (none, updateProc s c (fun p0 => { p0 with remaining_time := p0.remaining_time - 1 }))) = _
    rw [if_pos hcond]
  have hlookA : lookupProc ({ updateProc (updateProc s c (fun p0 => { p0 with remaining_time := p0.remaining_time - 1 })) c (fun p0 => { p0 with state := PState.Terminated }) with current_process := none }) c = some ({ p with remaining_time := p.remaining_time - 1, state := PState.Terminated }) := hl2
  have hcond2 : ({ p with remaining_time := p.remaining_time - 1, state := PState.Terminated } : Process).remaining_time ≤ 0 ∧
      ({ p with remaining_time := p.remaining_time - 1, state := PState.Terminated } : Process).state = PState.Terminated := ⟨hcond, rfl⟩
  have hlookS3 : lookupProc (updateProc (updateProc ({ updateProc (updateProc s c (fun p0 => { p0 with remaining_time := p0.remaining_time - 1 })) c (fun p0 => { p0 with state := PState.Terminated }) with current_process := none }) c (fun p0 => { p0 with finish_time := (s.clock : Int) + 1 })) c calculate_statistics) c = some (calculate_statistics ({ p with remaining_time := p.remaining_time - 1, state := PState.Terminated, finish_time := (s.clock : Int) + 1 })) := hl4
  have hp4part : (calculate_statistics ({ p with remaining_time := p.remaining_time - 1, state := PState.Terminated, finish_time := (s.clock : Int) + 1 })).partition = some bid := by
    rw [(calculate_statistics_fields ({ p with remaining_time := p.remaining_time - 1, state := PState.Terminated, finish_time := (s.clock : Int) + 1 })).2.2.2.1]
    exact hpbid
  have hqlS3 : lookupPart (updateProc (updateProc ({ updateProc (updateProc s c (fun p0 => { p0 with remaining_time := p0.remaining_time - 1 })) c (fun p0 => { p0 with state := PState.Terminated }) with current_process := none }) c (fun p0 => { p0 with finish_time := (s.clock : Int) + 1 })) c calculate_statistics) bid = some q := hql
  have e4 : partition_free_op (updateProc (updateProc ({ updateProc (updateProc s c (fun p0 => { p0 with remaining_time := p0.remaining_time - 1 })) c (fun p0 => { p0 with state := PState.Terminated }) with current_process := none }) c (fun p0 => { p0 with finish_time := (s.clock : Int) + 1 })) c calculate_statistics) bid =
      (some c, updatePart (updateProc (updateProc (updateProc ({ updateProc (updateProc s c (fun p0 => { p0 with remaining_time := p0.remaining_time - 1 })) c (fun p0 => { p0 with state := PState.Terminated }) with current_process := none }) c (fun p0 => { p0 with finish_time := (s.clock : Int) + 1 })) c calculate_statistics) c (fun p0 => { p0 with partition := none })) bid (fun q0 => { q0 with process := none, internal_fragmentation := 0 })) := by
    unfold partition_free_op
    rw [hqlS3]
    show (match q.process with
      | none => (none, (updateProc (updateProc ({ updateProc (updateProc s c (fun p0 => { p0 with remaining_time := p0.remaining_time - 1 })) c (fun p0 => { p0 with state := PState.Terminated }) with current_process := none }) c (fun p0 => { p0 with finish_time := (s.clock : Int) + 1 })) c calculate_statistics))
      | some oid =>
        (some oid, updatePart (updateProc (updateProc (updateProc ({ updateProc (updateProc s c (fun p0 => { p0 with remaining_time := p0.remaining_time - 1 })) c (fun p0 => { p0 with state := PState.Terminated }) with current_process := none }) c (fun p0 => { p0 with finish_time := (s.clock : Int) + 1 })) c calculate_statistics) oid (fun p0 => { p0 with partition := none })) bid (fun q0 => { q0 with process := none, internal_fragmentation := 0 }))) = _
    rw [hqproc]
  have e5 : free_process (updateProc (updateProc ({ updateProc (updateProc s c (fun p0 => { p0 with remaining_time := p0.remaining_time - 1 })) c (fun p0 => { p0 with state := PState.Terminated }) with current_process := none }) c (fun p0 => { p0 with finish_time := (s.clock : Int) + 1 })) c calculate_statistics) c =
      updatePart (updateProc (updateProc (updateProc (updateProc ({ updateProc (updateProc s c (fun p0 => { p0 with remaining_time := p0.remaining_time - 1 })) c (fun p0 => { p0 with state := PState.Terminated }) with current_process := none }) c (fun p0 => { p0 with finish_time := (s.clock : Int) + 1 })) c calculate_statistics) c (fun p0 => { p0 with partition := none })) c (fun p0 => { p0 with partition := none })) bid (fun q0 => { q0 with process := none, internal_fragmentation := 0 }) := by
    unfold free_process
    rw [hlookS3]
    show (match (calculate_statistics ({ p with remaining_time := p.remaining_time - 1, state := PState.Terminated, finish_time := (s.clock : Int) + 1 })).partition with
      | none => (updateProc (updateProc ({ updateProc (updateProc s c (fun p0 => { p0 with remaining_time := p0.remaining_time - 1 })) c (fun p0 => { p0 with state := PState.Terminated }) with current_process := none }) c (fun p0 => { p0 with finish_time := (s.clock : Int) + 1 })) c calculate_statistics)
      | some bid0 => updateProc (partition_free_op (updateProc (updateProc ({ updateProc (updateProc s c (fun p0 => { p0 with remaining_time := p0.remaining_time - 1 })) c (fun p0 => { p0 with state := PState.Terminated }) with current_process := none }) c (fun p0 => { p0 with finish_time := (s.clock : Int) + 1 })) c calculate_statistics) bid0).2 c (fun p0 => { p0 with partition := none })) = _
    rw [hp4part]
    show updateProc (partition_free_op (updateProc (updateProc ({ updateProc (updateProc s c (fun p0 => { p0 with remaining_time := p0.remaining_time - 1 })) c (fun p0 => { p0 with state := PState.Terminated }) with current_process := none }) c (fun p0 => { p0 with finish_time := (s.clock : Int) + 1 })) c calculate_statistics) bid).2 c (fun p0 => { p0 with partition := none }) = _
    rw [e4]
    rfl
  unfold sim_execute_tick
  rw [hsched]
  show (match lookupProc ({ updateProc (updateProc s c (fun p0 => { p0 with remaining_time := p0.remaining_time - 1 })) c (fun p0 => { p0 with state := PState.Terminated }) with current_process := none }) c with
    | none => ({ updateProc (updateProc s c (fun p0 => { p0 with remaining_time := p0.remaining_time - 1 })) c (fun p0 => { p0 with state := PState.Terminated }) with current_process := none })
    | some p =>
      if p.remaining_time ≤ 0 ∧ p.state = PState.Terminated then
        { { free_process (updateProc (updateProc ({ updateProc (updateProc s c (fun p0 => { p0 with remaining_time := p0.remaining_time - 1 })) c (fun p0 => { p0 with state := PState.Terminated }) with current_process := none }) c (fun p0 => { p0 with finish_time := (s.clock : Int) + 1 })) c calculate_statistics) c with
            terminated_queue := addIfAbsent (free_process (updateProc (updateProc ({ updateProc (updateProc s c (fun p0 => { p0 with remaining_time := p0.remaining_time - 1 })) c (fun p0 => { p0 with state := PState.Terminated }) with current_process := none }) c (fun p0 => { p0 with finish_time := (s.clock : Int) + 1 })) c calculate_statistics) c).terminated_queue c } with
          current_process := none }
      else ({ updateProc (updateProc s c (fun p0 => { p0 with remaining_time := p0.remaining_time - 1 })) c (fun p0 => { p0 with state := PState.Terminated }) with current_process := none })) = _
  rw [hlookA]
  show (if ({ p with remaining_time := p.remaining_time - 1, state := PState.Terminated } : Process).remaining_time ≤ 0 ∧
      ({ p with remaining_time := p.remaining_time - 1, state := PState.Terminated } : Process).state = PState.Terminated then
      { { free_process (updateProc (updateProc ({ updateProc (updateProc s c (fun p0 => { p0 with remaining_time := p0.remaining_time - 1 })) c (fun p0 => { p0 with state := PState.Terminated }) with current_process := none }) c (fun p0 => { p0 with finish_time := (s.clock : Int) + 1 })) c calculate_statistics) c with
          terminated_queue := addIfAbsent (free_process (updateProc (updateProc ({ updateProc (updateProc s c (fun p0 => { p0 with remaining_time := p0.remaining_time - 1 })) c (fun p0 => { p0 with state := PState.Terminated }) with current_process := none }) c (fun p0 => { p0 with finish_time := (s.clock : Int) + 1 })) c calculate_statistics) c).terminated_queue c } with
        current_process := none }
    else ({ updateProc (updateProc s c (fun p0 => { p0 with remaining_time := p0.remaining_time - 1 })) c (fun p0 => { p0 with state := PState.Terminated }) with current_process := none })) = _
  rw [if_pos hcond2, e5]
  rfl

end Simulador

namespace Simulador

/-- The execution phase preserves the invariant; it frames the queues other
than the terminated one, the clock, the degree, the warning flag and every
first-execution stamp, and it changes the partition table only by freeing the
partition of a process that terminates on this tick. -/
theorem execute_inv (s : SimState) (hI : Inv s) :
    Inv (sim_execute_tick s) ∧
    (sim_execute_tick s).all_processes = s.all_processes ∧
    (sim_execute_tick s).ready_queue = s.ready_queue ∧
    (sim_execute_tick s).suspended_queue = s.suspended_queue ∧
    (sim_execute_tick s).clock = s.clock ∧
    (sim_execute_tick s).degree_of_multiprogramming =
      s.degree_of_multiprogramming ∧
    (sim_execute_tick s).incomplete = s.incomplete ∧
    (∀ x, firstExecOf (sim_execute_tick s) x = firstExecOf s x) ∧
    (((sim_execute_tick s).partitions = s.partitions ∧
        (sim_execute_tick s).terminated_queue = s.terminated_queue) ∨
      ∃ c p bid, s.current_process = some c ∧ lookupProc s c = some p ∧
        p.partition = some bid ∧ p.remaining_time = 1 ∧
        stateOf (sim_execute_tick s) c = some PState.Terminated ∧
        (sim_execute_tick s).terminated_queue = addIfAbsent s.terminated_queue c ∧
        partProcOf s bid = some (some c) ∧
        partProcOf (sim_execute_tick s) bid = some none ∧
        (∀ b, b ≠ bid → lookupPart (sim_execute_tick s) b = lookupPart s b)) := by
  cases hc : s.current_process with
  | none =>
    have he : sim_execute_tick s = s := by
      unfold sim_execute_tick sched_execute_tick
      rw [hc]
    rw [he]
    exact ⟨hI, rfl, rfl, rfl, rfl, rfl, rfl, fun x => rfl, Or.inl ⟨rfl, rfl⟩⟩
  | some c =>
    cases hl : lookupProc s c with
    | none =>
      have h0 := hI.stateCur c hc
      unfold stateOf at h0
      rw [hl] at h0
      cases h0
    | some p =>
      have hpmem : p ∈ s.procs := (lookupProc_mem hl).1
      have hpid : p.id = c := (lookupProc_mem hl).2
      have hpst : p.state = PState.Executing := by
        have h0 := hI.stateCur c hc
        unfold stateOf at h0
        rw [hl] at h0
        exact Option.some.inj h0
      have hprem := hI.remBounds p hpmem
      have hpos : 0 < p.remaining_time := by
        rcases lt_or_eq_of_le hprem.1 with h0 | h0
        · exact h0
        · exact absurd (hprem.2.1 h0.symm) (by simp [hpst])
      by_cases hcond : p.remaining_time - 1 ≤ 0
      · have hrem1 : p.remaining_time = 1 := by omega
        have hpsome : p.partition ≠ none := hI.partSome p hpmem (Or.inr hpst)
        cases hpb : p.partition with
        | none => exact absurd hpb hpsome
        | some bid =>
          obtain ⟨q, hqmem, hqid, hqproc⟩ := hI.backProc p hpmem bid hpb
          have hql : lookupPart s bid = some q := by
            have h0 := lookupPart_of_mem_nodup hI.bidsNodup hqmem
            rw [hqid] at h0
            exact h0
          have hqprocc : q.process = some c := by
            rw [hqproc, hpid]
          have he := sim_execute_tick_term_eq s c bid p q hc hl hcond hpb hql hqprocc
          have hl1 : lookupProc (updateProc s c (fun p0 => { p0 with remaining_time := p0.remaining_time - 1 })) c = some ({ p with remaining_time := p.remaining_time - 1 }) := by
            rw [@lookupProc_updateProc_self s c (fun p0 => { p0 with remaining_time := p0.remaining_time - 1 }) (fun p0 => rfl), hl]
            rfl
          have hl2 : lookupProc (updateProc (updateProc s c (fun p0 => { p0 with remaining_time := p0.remaining_time - 1 })) c (fun p0 => { p0 with state := PState.Terminated })) c = some ({ p with remaining_time := p.remaining_time - 1, state := PState.Terminated }) := by
            rw [@lookupProc_updateProc_self (updateProc s c (fun p0 => { p0 with remaining_time := p0.remaining_time - 1 })) c (fun p0 => { p0 with state := PState.Terminated }) (fun p0 => rfl), hl1]
            rfl
          have hl3 : lookupProc (updateProc (updateProc (updateProc s c (fun p0 => { p0 with remaining_time := p0.remaining_time - 1 })) c (fun p0 => { p0 with state := PState.Terminated })) c (fun p0 => { p0 with finish_time := (s.clock : Int) + 1 })) c = some ({ p with remaining_time := p.remaining_time - 1, state := PState.Terminated, finish_time := (s.clock : Int) + 1 }) := by
            rw [@lookupProc_updateProc_self (updateProc (updateProc s c (fun p0 => { p0 with remaining_time := p0.remaining_time - 1 })) c (fun p0 => { p0 with state := PState.Terminated })) c (fun p0 => { p0 with finish_time := (s.clock : Int) + 1 }) (fun p0 => rfl), hl2]
            rfl
          have hl4 : lookupProc (updateProc (updateProc (updateProc (updateProc s c (fun p0 => { p0 with remaining_time := p0.remaining_time - 1 })) c (fun p0 => { p0 with state := PState.Terminated })) c (fun p0 => { p0 with finish_time := (s.clock : Int) + 1 })) c calculate_statistics) c = some (calculate_statistics ({ p with remaining_time := p.remaining_time - 1, state := PState.Terminated, finish_time := (s.clock : Int) + 1 })) := by
            rw [@lookupProc_updateProc_self (updateProc (updateProc (updateProc s c (fun p0 => { p0 with remaining_time := p0.remaining_time - 1 })) c (fun p0 => { p0 with state := PState.Terminated })) c (fun p0 => { p0 with finish_time := (s.clock : Int) + 1 })) c calculate_statistics
              (fun p0 => (calculate_statistics_fields p0).1), hl3]
            rfl
          have hl5 : lookupProc (updateProc (updateProc (updateProc (updateProc (updateProc s c (fun p0 => { p0 with remaining_time := p0.remaining_time - 1 })) c (fun p0 => { p0 with state := PState.Terminated })) c (fun p0 => { p0 with finish_time := (s.clock : Int) + 1 })) c calculate_statistics) c (fun p0 => { p0 with partition := none })) c = some ({ calculate_statistics ({ p with remaining_time := p.remaining_time - 1, state := PState.Terminated, finish_time := (s.clock : Int) + 1 }) with partition := none }) := by
            rw [@lookupProc_updateProc_self (updateProc (updateProc (updateProc (updateProc s c (fun p0 => { p0 with remaining_time := p0.remaining_time - 1 })) c (fun p0 => { p0 with state := PState.Terminated })) c (fun p0 => { p0 with finish_time := (s.clock : Int) + 1 })) c calculate_statistics) c (fun p0 => { p0 with partition := none }) (fun p0 => rfl), hl4]
            rfl
          have hl6 : lookupProc (updateProc (updateProc (updateProc (updateProc (updateProc (updateProc s c (fun p0 => { p0 with remaining_time := p0.remaining_time - 1 })) c (fun p0 => { p0 with state := PState.Terminated })) c (fun p0 => { p0 with finish_time := (s.clock : Int) + 1 })) c calculate_statistics) c (fun p0 => { p0 with partition := none })) c (fun p0 => { p0 with partition := none })) c = some ({ { calculate_statistics ({ p with remaining_time := p.remaining_time - 1, state := PState.Terminated, finish_time := (s.clock : Int) + 1 }) with partition := none } with partition := none }) := by
            rw [@lookupProc_updateProc_self (updateProc (updateProc (updateProc (updateProc (updateProc s c (fun p0 => { p0 with remaining_time := p0.remaining_time - 1 })) c (fun p0 => { p0 with state := PState.Terminated })) c (fun p0 => { p0 with finish_time := (s.clock : Int) + 1 })) c calculate_statistics) c (fun p0 => { p0 with partition := none })) c (fun p0 => { p0 with partition := none }) (fun p0 => rfl), hl5]
            rfl
          have hn1 : ∀ x, x ≠ c → lookupProc (updateProc s c (fun p0 => { p0 with remaining_time := p0.remaining_time - 1 })) x = lookupProc s x :=
            fun x hx => lookupProc_updateProc_ne (fun p0 => rfl) hx
          have hn2 : ∀ x, x ≠ c → lookupProc (updateProc (updateProc s c (fun p0 => { p0 with remaining_time := p0.remaining_time - 1 })) c (fun p0 => { p0 with state := PState.Terminated })) x = lookupProc s x :=
            fun x hx =>
              (@lookupProc_updateProc_ne (updateProc s c (fun p0 => { p0 with remaining_time := p0.remaining_time - 1 })) c x (fun p0 => { p0 with state := PState.Terminated }) (fun p0 => rfl) hx).trans (hn1 x hx)
          have hn3 : ∀ x, x ≠ c → lookupProc (updateProc (updateProc (updateProc s c (fun p0 => { p0 with remaining_time := p0.remaining_time - 1 })) c (fun p0 => { p0 with state := PState.Terminated })) c (fun p0 => { p0 with finish_time := (s.clock : Int) + 1 })) x = lookupProc s x :=
            fun x hx =>
              (@lookupProc_updateProc_ne (updateProc (updateProc s c (fun p0 => { p0 with remaining_time := p0.remaining_time - 1 })) c (fun p0 => { p0 with state := PState.Terminated })) c x (fun p0 => { p0 with finish_time := (s.clock : Int) + 1 }) (fun p0 => rfl) hx).trans (hn2 x hx)
          have hn4 : ∀ x, x ≠ c → lookupProc (updateProc (updateProc (updateProc (updateProc s c (fun p0 => { p0 with remaining_time := p0.remaining_time - 1 })) c (fun p0 => { p0 with state := PState.Terminated })) c (fun p0 => { p0 with finish_time := (s.clock : Int) + 1 })) c calculate_statistics) x = lookupProc s x :=
            fun x hx =>
              (@lookupProc_updateProc_ne (updateProc (updateProc (updateProc s c (fun p0 => { p0 with remaining_time := p0.remaining_time - 1 })) c (fun p0 => { p0 with state := PState.Terminated })) c (fun p0 => { p0 with finish_time := (s.clock : Int) + 1 })) c x calculate_statistics
                (fun p0 => (calculate_statistics_fields p0).1) hx).trans (hn3 x hx)
          have hn5 : ∀ x, x ≠ c → lookupProc (updateProc (updateProc (updateProc (updateProc (updateProc s c (fun p0 => { p0 with remaining_time := p0.remaining_time - 1 })) c (fun p0 => { p0 with state := PState.Terminated })) c (fun p0 => { p0 with finish_time := (s.clock : Int) + 1 })) c calculate_statistics) c (fun p0 => { p0 with partition := none })) x = lookupProc s x :=
            fun x hx =>
              (@lookupProc_updateProc_ne (updateProc (updateProc (updateProc (updateProc s c (fun p0 => { p0 with remaining_time := p0.remaining_time - 1 })) c (fun p0 => { p0 with state := PState.Terminated })) c (fun p0 => { p0 with finish_time := (s.clock : Int) + 1 })) c calculate_statistics) c x (fun p0 => { p0 with partition := none }) (fun p0 => rfl) hx).trans (hn4 x hx)
          have hn6 : ∀ x, x ≠ c → lookupProc (updateProc (updateProc (updateProc (updateProc (updateProc (updateProc s c (fun p0 => { p0 with remaining_time := p0.remaining_time - 1 })) c (fun p0 => { p0 with state := PState.Terminated })) c (fun p0 => { p0 with finish_time := (s.clock : Int) + 1 })) c calculate_statistics) c (fun p0 => { p0 with partition := none })) c (fun p0 => { p0 with partition := none })) x = lookupProc s x :=
            fun x hx =>
              (@lookupProc_updateProc_ne (updateProc (updateProc (updateProc (updateProc (updateProc s c (fun p0 => { p0 with remaining_time := p0.remaining_time - 1 })) c (fun p0 => { p0 with state := PState.Terminated })) c (fun p0 => { p0 with finish_time := (s.clock : Int) + 1 })) c calculate_statistics) c (fun p0 => { p0 with partition := none })) c x (fun p0 => { p0 with partition := none }) (fun p0 => rfl) hx).trans (hn5 x hx)
          have hi1 : (updateProc s c (fun p0 => { p0 with remaining_time := p0.remaining_time - 1 })).procs.map Process.id = s.procs.map Process.id :=
            @procIds_updateProc s c (fun p0 => { p0 with remaining_time := p0.remaining_time - 1 }) (fun p0 => rfl)
          have hi2 : (updateProc (updateProc s c (fun p0 => { p0 with remaining_time := p0.remaining_time - 1 })) c (fun p0 => { p0 with state := PState.Terminated })).procs.map Process.id = s.procs.map Process.id :=
            (@procIds_updateProc (updateProc s c (fun p0 => { p0 with remaining_time := p0.remaining_time - 1 })) c (fun p0 => { p0 with state := PState.Terminated }) (fun p0 => rfl)).trans hi1
          have hi3 : (updateProc (updateProc (updateProc s c (fun p0 => { p0 with remaining_time := p0.remaining_time - 1 })) c (fun p0 => { p0 with state := PState.Terminated })) c (fun p0 => { p0 with finish_time := (s.clock : Int) + 1 })).procs.map Process.id = s.procs.map Process.id :=
            (@procIds_updateProc (updateProc (updateProc s c (fun p0 => { p0 with remaining_time := p0.remaining_time - 1 })) c (fun p0 => { p0 with state := PState.Terminated })) c (fun p0 => { p0 with finish_time := (s.clock : Int) + 1 }) (fun p0 => rfl)).trans hi2
          have hi4 : (updateProc (updateProc (updateProc (updateProc s c (fun p0 => { p0 with remaining_time := p0.remaining_time - 1 })) c (fun p0 => { p0 with state := PState.Terminated })) c (fun p0 => { p0 with finish_time := (s.clock : Int) + 1 })) c calculate_statistics).procs.map Process.id = s.procs.map Process.id :=
            (@procIds_updateProc (updateProc (updateProc (updateProc s c (fun p0 => { p0 with remaining_time := p0.remaining_time - 1 })) c (fun p0 => { p0 with state := PState.Terminated })) c (fun p0 => { p0 with finish_time := (s.clock : Int) + 1 })) c calculate_statistics
              (fun p0 => (calculate_statistics_fields p0).1)).trans hi3
          have hi5 : (updateProc (updateProc (updateProc (updateProc (updateProc s c (fun p0 => { p0 with remaining_time := p0.remaining_time - 1 })) c (fun p0 => { p0 with state := PState.Terminated })) c (fun p0 => { p0 with finish_time := (s.clock : Int) + 1 })) c calculate_statistics) c (fun p0 => { p0 with partition := none })).procs.map Process.id = s.procs.map Process.id :=
            (@procIds_updateProc (updateProc (updateProc (updateProc (updateProc s c (fun p0 => { p0 with remaining_time := p0.remaining_time - 1 })) c (fun p0 => { p0 with state := PState.Terminated })) c (fun p0 => { p0 with finish_time := (s.clock : Int) + 1 })) c calculate_statistics) c (fun p0 => { p0 with partition := none }) (fun p0 => rfl)).trans hi4
          have hch0 : ∀ r ∈ s.procs, (r ∈ s.procs ∧ r.id ≠ c) ∨ r = p := by
            intro r hr
            by_cases hid : r.id = c
            · right
              exact store_mem_eq hI.pidsNodup hr hpmem (hid.trans hpid.symm)
            · left
              exact ⟨hr, hid⟩
          have hfw0 : ∀ r ∈ s.procs, r.id ≠ c → r ∈ s.procs := fun r hr _ => hr
          have hcc1 := @chain_mem_char s s c p (fun p0 => { p0 with remaining_time := p0.remaining_time - 1 }) hI.pidsNodup rfl hl hch0 hfw0
          have hcc2 := @chain_mem_char s (updateProc s c (fun p0 => { p0 with remaining_time := p0.remaining_time - 1 })) c ({ p with remaining_time := p.remaining_time - 1 }) (fun p0 => { p0 with state := PState.Terminated })
            hI.pidsNodup hi1 hl1 hcc1.1 hcc1.2
          have hcc3 := @chain_mem_char s (updateProc (updateProc s c (fun p0 => { p0 with remaining_time := p0.remaining_time - 1 })) c (fun p0 => { p0 with state := PState.Terminated })) c ({ p with remaining_time := p.remaining_time - 1, state := PState.Terminated }) (fun p0 => { p0 with finish_time := (s.clock : Int) + 1 })
            hI.pidsNodup hi2 hl2 hcc2.1 hcc2.2
          have hcc4 := @chain_mem_char s (updateProc (updateProc (updateProc s c (fun p0 => { p0 with remaining_time := p0.remaining_time - 1 })) c (fun p0 => { p0 with state := PState.Terminated })) c (fun p0 => { p0 with finish_time := (s.clock : Int) + 1 })) c ({ p with remaining_time := p.remaining_time - 1, state := PState.Terminated, finish_time := (s.clock : Int) + 1 }) calculate_statistics
            hI.pidsNodup hi3 hl3 hcc3.1 hcc3.2
          have hcc5 := @chain_mem_char s (updateProc (updateProc (updateProc (updateProc s c (fun p0 => { p0 with remaining_time := p0.remaining_time - 1 })) c (fun p0 => { p0 with state := PState.Terminated })) c (fun p0 => { p0 with finish_time := (s.clock : Int) + 1 })) c calculate_statistics) c (calculate_statistics ({ p with remaining_time := p.remaining_time - 1, state := PState.Terminated, finish_time := (s.clock : Int) + 1 })) (fun p0 => { p0 with partition := none })
            hI.pidsNodup hi4 hl4 hcc4.1 hcc4.2
          have hcc6 := @chain_mem_char s (updateProc (updateProc (updateProc (updateProc (updateProc s c (fun p0 => { p0 with remaining_time := p0.remaining_time - 1 })) c (fun p0 => { p0 with state := PState.Terminated })) c (fun p0 => { p0 with finish_time := (s.clock : Int) + 1 })) c calculate_statistics) c (fun p0 => { p0 with partition := none })) c ({ calculate_statistics ({ p with remaining_time := p.remaining_time - 1, state := PState.Terminated, finish_time := (s.clock : Int) + 1 }) with partition := none }) (fun p0 => { p0 with partition := none })
            hI.pidsNodup hi5 hl5 hcc5.1 hcc5.2
          have hmemP : ∀ r ∈ (updateProc (updateProc (updateProc (updateProc (updateProc (updateProc s c (fun p0 => { p0 with remaining_time := p0.remaining_time - 1 })) c (fun p0 => { p0 with state := PState.Terminated })) c (fun p0 => { p0 with finish_time := (s.clock : Int) + 1 })) c calculate_statistics) c (fun p0 => { p0 with partition := none })) c (fun p0 => { p0 with partition := none })).procs,
              (r ∈ s.procs ∧ r.id ≠ c) ∨ r = ({ { calculate_statistics ({ p with remaining_time := p.remaining_time - 1, state := PState.Terminated, finish_time := (s.clock : Int) + 1 }) with partition := none } with partition := none }) := hcc6.1
          have hfwdP : ∀ r ∈ s.procs, r.id ≠ c → r ∈ (updateProc (updateProc (updateProc (updateProc (updateProc (updateProc s c (fun p0 => { p0 with remaining_time := p0.remaining_time - 1 })) c (fun p0 => { p0 with state := PState.Terminated })) c (fun p0 => { p0 with finish_time := (s.clock : Int) + 1 })) c calculate_statistics) c (fun p0 => { p0 with partition := none })) c (fun p0 => { p0 with partition := none })).procs := hcc6.2
          have hi6 : (updateProc (updateProc (updateProc (updateProc (updateProc (updateProc s c (fun p0 => { p0 with remaining_time := p0.remaining_time - 1 })) c (fun p0 => { p0 with state := PState.Terminated })) c (fun p0 => { p0 with finish_time := (s.clock : Int) + 1 })) c calculate_statistics) c (fun p0 => { p0 with partition := none })) c (fun p0 => { p0 with partition := none })).procs.map Process.id = s.procs.map Process.id :=
            (@procIds_updateProc (updateProc (updateProc (updateProc (updateProc (updateProc s c (fun p0 => { p0 with remaining_time := p0.remaining_time - 1 })) c (fun p0 => { p0 with state := PState.Terminated })) c (fun p0 => { p0 with finish_time := (s.clock : Int) + 1 })) c calculate_statistics) c (fun p0 => { p0 with partition := none })) c (fun p0 => { p0 with partition := none }) (fun p0 => rfl)).trans hi5
          have hptst : ({ { calculate_statistics ({ p with remaining_time := p.remaining_time - 1, state := PState.Terminated, finish_time := (s.clock : Int) + 1 }) with partition := none } with partition := none } : Process).state = PState.Terminated := by
            show (calculate_statistics ({ p with remaining_time := p.remaining_time - 1, state := PState.Terminated, finish_time := (s.clock : Int) + 1 })).state = _
            rw [(calculate_statistics_fields ({ p with remaining_time := p.remaining_time - 1, state := PState.Terminated, finish_time := (s.clock : Int) + 1 })).2.1]
          have hptrem : ({ { calculate_statistics ({ p with remaining_time := p.remaining_time - 1, state := PState.Terminated, finish_time := (s.clock : Int) + 1 }) with partition := none } with partition := none } : Process).remaining_time = 0 := by
            show (calculate_statistics ({ p with remaining_time := p.remaining_time - 1, state := PState.Terminated, finish_time := (s.clock : Int) + 1 })).remaining_time = 0
            rw [(calculate_statistics_fields ({ p with remaining_time := p.remaining_time - 1, state := PState.Terminated, finish_time := (s.clock : Int) + 1 })).2.2.1]
            show p.remaining_time - 1 = 0
            rw [hrem1]
            decide
          have hInv := terminate_inv_core s (updateProc (updateProc (updateProc (updateProc (updateProc (updateProc s c (fun p0 => { p0 with remaining_time := p0.remaining_time - 1 })) c (fun p0 => { p0 with state := PState.Terminated })) c (fun p0 => { p0 with finish_time := (s.clock : Int) + 1 })) c calculate_statistics) c (fun p0 => { p0 with partition := none })) c (fun p0 => { p0 with partition := none })) c bid hI p q ({ { calculate_statistics ({ p with remaining_time := p.remaining_time - 1, state := PState.Terminated, finish_time := (s.clock : Int) + 1 }) with partition := none } with partition := none })
            hc hl hpb hqmem hqid hqproc hl6 hptst hptrem rfl hn6 hmemP hfwdP
            hi6 rfl rfl rfl rfl
          rw [he]
          refine ⟨hInv, rfl, rfl, rfl, rfl, rfl, rfl, ?_, ?_⟩
          · intro x
            by_cases hx : x = c
            · rw [hx]
              show (lookupProc (updateProc (updateProc (updateProc (updateProc (updateProc (updateProc s c (fun p0 => { p0 with remaining_time := p0.remaining_time - 1 })) c (fun p0 => { p0 with state := PState.Terminated })) c (fun p0 => { p0 with finish_time := (s.clock : Int) + 1 })) c calculate_statistics) c (fun p0 => { p0 with partition := none })) c (fun p0 => { p0 with partition := none })) c).bind Process.first_execution_time = _
              rw [hl6]
              show (calculate_statistics ({ p with remaining_time := p.remaining_time - 1, state := PState.Terminated, finish_time := (s.clock : Int) + 1 })).first_execution_time = _
              rw [(calculate_statistics_fields ({ p with remaining_time := p.remaining_time - 1, state := PState.Terminated, finish_time := (s.clock : Int) + 1 })).2.2.2.2]
              unfold firstExecOf
              rw [hl]
              rfl
            · show (lookupProc (updateProc (updateProc (updateProc (updateProc (updateProc (updateProc s c (fun p0 => { p0 with remaining_time := p0.remaining_time - 1 })) c (fun p0 => { p0 with state := PState.Terminated })) c (fun p0 => { p0 with finish_time := (s.clock : Int) + 1 })) c calculate_statistics) c (fun p0 => { p0 with partition := none })) c (fun p0 => { p0 with partition := none })) x).bind Process.first_execution_time = _
              rw [hn6 x hx]
              rfl
          · refine Or.inr ⟨c, p, bid, rfl, hl, hpb, hrem1, ?_, rfl, ?_, ?_, ?_⟩
            · show (lookupProc (updateProc (updateProc (updateProc (updateProc (updateProc (updateProc s c (fun p0 => { p0 with remaining_time := p0.remaining_time - 1 })) c (fun p0 => { p0 with state := PState.Terminated })) c (fun p0 => { p0 with finish_time := (s.clock : Int) + 1 })) c calculate_statistics) c (fun p0 => { p0 with partition := none })) c (fun p0 => { p0 with partition := none })) c).map Process.state = _
              rw [hl6]
              show some ((calculate_statistics ({ p with remaining_time := p.remaining_time - 1, state := PState.Terminated, finish_time := (s.clock : Int) + 1 })).state) = _
              rw [(calculate_statistics_fields ({ p with remaining_time := p.remaining_time - 1, state := PState.Terminated, finish_time := (s.clock : Int) + 1 })).2.1]
            · unfold partProcOf
              rw [hql]
              show some q.process = _
              rw [hqprocc]
            · show (lookupPart (updatePart (updateProc (updateProc (updateProc (updateProc (updateProc (updateProc s c (fun p0 => { p0 with remaining_time := p0.remaining_time - 1 })) c (fun p0 => { p0 with state := PState.Terminated })) c (fun p0 => { p0 with finish_time := (s.clock : Int) + 1 })) c calculate_statistics) c (fun p0 => { p0 with partition := none })) c (fun p0 => { p0 with partition := none })) bid (fun q0 => { q0 with process := none, internal_fragmentation := 0 })) bid).map Partition.process =
                some none
              rw [@lookupPart_updatePart_self (updateProc (updateProc (updateProc (updateProc (updateProc (updateProc s c (fun p0 => { p0 with remaining_time := p0.remaining_time - 1 })) c (fun p0 => { p0 with state := PState.Terminated })) c (fun p0 => { p0 with finish_time := (s.clock : Int) + 1 })) c calculate_statistics) c (fun p0 => { p0 with partition := none })) c (fun p0 => { p0 with partition := none })) bid (fun q0 => { q0 with process := none, internal_fragmentation := 0 }) (fun q0 => rfl)]
              have hqlC6 : lookupPart (updateProc (updateProc (updateProc (updateProc (updateProc (updateProc s c (fun p0 => { p0 with remaining_time := p0.remaining_time - 1 })) c (fun p0 => { p0 with state := PState.Terminated })) c (fun p0 => { p0 with finish_time := (s.clock : Int) + 1 })) c calculate_statistics) c (fun p0 => { p0 with partition := none })) c (fun p0 => { p0 with partition := none })) bid = some q := hql
              rw [hqlC6]
              rfl
            · intro b hb
              show lookupPart (updatePart (updateProc (updateProc (updateProc (updateProc (updateProc (updateProc s c (fun p0 => { p0 with remaining_time := p0.remaining_time - 1 })) c (fun p0 => { p0 with state := PState.Terminated })) c (fun p0 => { p0 with finish_time := (s.clock : Int) + 1 })) c calculate_statistics) c (fun p0 => { p0 with partition := none })) c (fun p0 => { p0 with partition := none })) bid (fun q0 => { q0 with process := none, internal_fragmentation := 0 })) b = lookupPart s b
              rw [@lookupPart_updatePart_ne (updateProc (updateProc (updateProc (updateProc (updateProc (updateProc s c (fun p0 => { p0 with remaining_time := p0.remaining_time - 1 })) c (fun p0 => { p0 with state := PState.Terminated })) c (fun p0 => { p0 with finish_time := (s.clock : Int) + 1 })) c calculate_statistics) c (fun p0 => { p0 with partition := none })) c (fun p0 => { p0 with partition := none })) bid b (fun q0 => { q0 with process := none, internal_fragmentation := 0 }) (fun q0 => rfl) hb]
              rfl
      · have hgt : 0 < p.remaining_time - 1 := by omega
        have hsched : sched_execute_tick s = (none, updateProc s c (fun p0 => { p0 with remaining_time := p0.remaining_time - 1 })) := by
          unfold sched_execute_tick
          rw [hc]
          show (match lookupProc s c with
            | none => (none, s)
            | some p =>
              let s1 := updateProc s c (fun p0 => { p0 with remaining_time := p0.remaining_time - 1 })
              if p.remaining_time - 1 ≤ 0 then
                let s2 := updateProc s1 c (fun p0 => { p0 with state := PState.Terminated })
                (some c, { s2 with current_process := none })
              else (none, s1)) = _
          rw [hl]
          show (if p.remaining_time - 1 ≤ 0 then
              (some c, { updateProc (updateProc s c (fun p0 => { p0 with remaining_time := p0.remaining_time - 1 })) c (fun p0 => { p0 with state := PState.Terminated }) with current_process := none })
            else (none, updateProc s c (fun p0 => { p0 with remaining_time := p0.remaining_time - 1 }))) = _
          rw [if_neg hcond]
        have he : sim_execute_tick s = (updateProc s c (fun p0 => { p0 with remaining_time := p0.remaining_time - 1 })) := by
          unfold sim_execute_tick
          rw [hsched]
        rw [he]
        refine ⟨exec_dec_inv s c hI p hl hc hgt, rfl, rfl, rfl, rfl, rfl, rfl,
          ?_, Or.inl ⟨rfl, rfl⟩⟩
        intro x
        show firstExecOf (updateProc s c (fun p0 => { p0 with remaining_time := p0.remaining_time - 1 })) x = _
        exact firstExecOf_updateProc_keep (fun p0 => rfl) (fun p0 => rfl)

end Simulador

namespace Simulador

/-- Equal partition tables give equal occupancy views. -/
theorem partProcOf_congr {s t : SimState} (h : t.partitions = s.partitions) :
    ∀ b, partProcOf t b = partProcOf s b := by
  intro b
  unfold partProcOf lookupPart
  rw [h]

/-- One tick preserves the invariant, advances the clock by one, keeps the
degree and the warning flag, never erases a first-execution stamp, and frees
an occupied partition only if its occupant has terminated. -/
theorem tick_inv (s : SimState) (hI : Inv s) :
    Inv (tick s) ∧ (tick s).clock = s.clock + 1 ∧
    (tick s).degree_of_multiprogramming = s.degree_of_multiprogramming ∧
    (tick s).incomplete = s.incomplete ∧
    (∀ x t, firstExecOf s x = some t → firstExecOf (tick s) x = some t) ∧
    (∀ b x, partProcOf s b = some (some x) →
      partProcOf (tick s) b = some (some x) ∨
        stateOf (tick s) x = some PState.Terminated) := by
  obtain ⟨A1, _Aterm, _Acur, _Aclk, Adeg, Ainc, Apart, Afe⟩ :=
    arrive_inv s hI
  obtain ⟨B1, _Ball, _Bterm, _Bcur, _Bclk, Bdeg, Binc, Bpart, Bfe⟩ :=
    tls_inv (arrive_new_processes s) A1
  obtain ⟨C1, _Call, _Csus, _Cterm, Cclk, Cdeg, Cinc, Cparts, Cfe⟩ :=
    schedule_inv (try_load_suspended (arrive_new_processes s)) B1
  obtain ⟨D1, _Dall, _Drdy, _Dsus, _Dterm, _Dcur, _Dclk, Ddeg, Dinc, Dparts,
    _Dst, Dfe⟩ :=
    update_wait_times_inv
      (schedule_process (try_load_suspended (arrive_new_processes s))) C1
  obtain ⟨E1, _Eall, _Erdy, _Esus, _Eclk, Edeg, Einc, Efe, Epart⟩ :=
    execute_inv (update_wait_times
      (schedule_process (try_load_suspended (arrive_new_processes s)))) D1
  have hInvT : Inv (tick s) := by
    show Inv { sim_execute_tick (update_wait_times (schedule_process
      (try_load_suspended (arrive_new_processes s)))) with clock := s.clock + 1 }
    refine { pidsNodup := E1.pidsNodup, bidsNodup := E1.bidsNodup,
             nodupAll := E1.nodupAll, nodupReady := E1.nodupReady,
             nodupSusp := E1.nodupSusp, nodupTerm := E1.nodupTerm,
             disjAllReady := E1.disjAllReady, disjAllSusp := E1.disjAllSusp,
             disjAllTerm := E1.disjAllTerm, disjReadySusp := E1.disjReadySusp,
             disjReadyTerm := E1.disjReadyTerm, disjSuspTerm := E1.disjSuspTerm,
             curNotAll := E1.curNotAll, curNotReady := E1.curNotReady,
             curNotSusp := E1.curNotSusp, curNotTerm := E1.curNotTerm,
             stateAll := E1.stateAll, stateReady := E1.stateReady,
             stateSusp := E1.stateSusp, stateTerm := E1.stateTerm,
             stateCur := E1.stateCur, remBounds := E1.remBounds,
             partNone := E1.partNone, partSome := E1.partSome,
             backProc := E1.backProc, backPart := E1.backPart }
  refine ⟨hInvT, rfl, ?_, ?_, ?_, ?_⟩
  · show (sim_execute_tick _).degree_of_multiprogramming = _
    rw [Edeg, Ddeg, Cdeg, Bdeg, Adeg]
  · show (sim_execute_tick _).incomplete = _
    rw [Einc, Dinc, Cinc, Binc, Ainc]
  · intro x t hx
    show firstExecOf (sim_execute_tick _) x = some t
    rw [Efe x, Dfe x]
    rcases Cfe x with h | ⟨h1, _⟩
    · rw [h, Bfe x, Afe x]
      exact hx
    · rw [Bfe x, Afe x] at h1
      rw [hx] at h1
      cases h1
  · intro b x hb
    have hb1 := Apart b x hb
    have hb2 := Bpart b x hb1
    have hb3 : partProcOf (schedule_process (try_load_suspended
        (arrive_new_processes s))) b = some (some x) := by
      rw [partProcOf_congr Cparts b]
      exact hb2
    have hb4 : partProcOf (update_wait_times (schedule_process
        (try_load_suspended (arrive_new_processes s)))) b = some (some x) := by
      rw [partProcOf_congr Dparts b]
      exact hb3
    rcases Epart with ⟨hparts, _⟩ | ⟨c, p, bid, _hcur, _hlk, _hpb, _hrem,
      hstterm, _hterm, _hoccpre, hoccpost, hother⟩
    · left
      show partProcOf (sim_execute_tick _) b = some (some x)
      rw [partProcOf_congr hparts b]
      exact hb4
    · by_cases hbb : b = bid
      · subst hbb
        right
        rw [hb4] at _hoccpre
        cases Option.some.inj (Option.some.inj _hoccpre)
        show stateOf (sim_execute_tick _) x = some PState.Terminated
        exact hstterm
      · left
        show partProcOf (sim_execute_tick _) b = some (some x)
        unfold partProcOf
        rw [hother b hbb]
        exact hb4

end Simulador

namespace Simulador

/-- A freshly loaded simulator on valid input satisfies the invariant. -/
theorem init_inv (ps : List PInput) (bs : List BInput) (d : Nat)
    (hV : ValidInput ps bs) : Inv (initState ps bs d) := by
  obtain ⟨hpn, hpb, hbn⟩ := hV
  have hpidsEq : (ps.map mkProcess).map Process.id = ps.map PInput.pid := by
    rw [List.map_map]
    rfl
  have hpids : ((ps.map mkProcess).map Process.id).Nodup := by
    rw [hpidsEq]
    exact hpn
  have hbids : ((bs.map mkPartition).map Partition.id).Nodup := by
    rw [List.map_map]
    exact hbn
  have hprocmem : ∀ r ∈ (initState ps bs d).procs, ∃ i ∈ ps, r = mkProcess i := by
    intro r hr
    obtain ⟨i, hi, he⟩ := List.mem_map.1 hr
    exact ⟨i, hi, he.symm⟩
  refine { pidsNodup := hpids, bidsNodup := hbids, nodupAll := hpids,
           nodupReady := List.nodup_nil, nodupSusp := List.nodup_nil,
           nodupTerm := List.nodup_nil, disjAllReady := ?_, disjAllSusp := ?_,
           disjAllTerm := ?_, disjReadySusp := ?_, disjReadyTerm := ?_,
           disjSuspTerm := ?_, curNotAll := ?_, curNotReady := ?_,
           curNotSusp := ?_, curNotTerm := ?_, stateAll := ?_, stateReady := ?_,
           stateSusp := ?_, stateTerm := ?_, stateCur := ?_, remBounds := ?_,
           partNone := ?_, partSome := ?_, backProc := ?_, backPart := ?_ }
  · intro x _ hx
    cases hx
  · intro x _ hx
    cases hx
  · intro x _ hx
    cases hx
  · intro x hx
    cases hx
  · intro x hx
    cases hx
  · intro x hx
    cases hx
  · intro x hx
    cases hx
  · intro x hx
    cases hx
  · intro x hx
    cases hx
  · intro x hx
    cases hx
  · intro x hx
    replace hx : x ∈ (ps.map mkProcess).map Process.id := hx
    obtain ⟨r, hr, hre⟩ := List.mem_map.1 hx
    obtain ⟨i, _, rfl⟩ := hprocmem r hr
    have hlook : lookupProc (initState ps bs d) (mkProcess i).id =
        some (mkProcess i) := lookupProc_of_mem_nodup hpids hr
    subst hre
    unfold stateOf
    rw [hlook]
    rfl
  · intro x hx
    cases hx
  · intro x hx
    cases hx
  · intro x hx
    cases hx
  · intro x hx
    cases hx
  · intro r hr
    obtain ⟨i, hi, rfl⟩ := hprocmem r hr
    refine ⟨Int.ofNat_nonneg i.burst, ?_⟩
    constructor
    · intro h0
      replace h0 : (i.burst : Int) = 0 := h0
      have : i.burst = 0 := Int.ofNat.inj h0
      have hpos := hpb i hi
      rw [this] at hpos
      exact absurd hpos (lt_irrefl 0)
    · intro h0
      replace h0 : PState.New = PState.Terminated := h0
      cases h0
  · intro r hr _
    obtain ⟨i, _, rfl⟩ := hprocmem r hr
    rfl
  · intro r hr h0
    obtain ⟨i, _, rfl⟩ := hprocmem r hr
    replace h0 : PState.New = PState.Ready ∨ PState.New = PState.Executing := h0
    rcases h0 with h0 | h0 <;> cases h0
  · intro r hr bid hb
    obtain ⟨i, _, rfl⟩ := hprocmem r hr
    replace hb : (none : Option Nat) = some bid := hb
    cases hb
  · intro q hq x hx
    replace hq : q ∈ bs.map mkPartition := hq
    obtain ⟨b, _, rfl⟩ := List.mem_map.1 hq
    replace hx : (none : Option Nat) = some x := hx
    cases hx

/-- Every reachable state satisfies the engine invariant. -/
theorem reachable_inv : ∀ s, Reachable s → Inv s := by
  intro s h
  induction h with
  | init ps bs d hV => exact init_inv ps bs d hV
  | step t _ ih => exact (tick_inv t ih).1

end Simulador

namespace Simulador

/-- C7: in every reachable engine state at a tick boundary, the ready queue,
the suspended queue, the terminated queue and the scheduler's current process
are pairwise disjoint — no process sits in two of them at once. -/
theorem queues_disjoint_spec (s : SimState) (h : Reachable s) :
    (∀ x, x ∈ s.ready_queue → x ∈ s.suspended_queue → False) ∧
    (∀ x, x ∈ s.ready_queue → x ∈ s.terminated_queue → False) ∧
    (∀ x, x ∈ s.suspended_queue → x ∈ s.terminated_queue → False) ∧
    (∀ x, s.current_process = some x →
      x ∉ s.ready_queue ∧ x ∉ s.suspended_queue ∧ x ∉ s.terminated_queue) := by
  have hI := reachable_inv s h
  exact ⟨hI.disjReadySusp, hI.disjReadyTerm, hI.disjSuspTerm,
    fun x hx => ⟨hI.curNotReady x hx, hI.curNotSusp x hx, hI.curNotTerm x hx⟩⟩

theorem queues_disjoint_spec_witness :
    1 ∉ (tick (initState [⟨1, 10, 0, 5⟩] [⟨1, 100, 100⟩] 1)).ready_queue ∧
    1 ∉ (tick (initState [⟨1, 10, 0, 5⟩] [⟨1, 100, 100⟩] 1)).suspended_queue ∧
    1 ∉ (tick (initState [⟨1, 10, 0, 5⟩] [⟨1, 100, 100⟩] 1)).terminated_queue :=
  (queues_disjoint_spec _ (Reachable.step _
    (Reachable.init [⟨1, 10, 0, 5⟩] [⟨1, 100, 100⟩] 1 (by decide)))).2.2.2 1
    (by decide)

/-- C8: in every reachable state on valid input (in particular positive burst
times), every process has a nonnegative remaining time that is zero exactly
when it is Terminated, and a first-execution stamp, once set, survives every
later tick unchanged. -/
theorem rem_time_first_exec_spec (s : SimState) (h : Reachable s) :
    (∀ p ∈ s.procs, 0 ≤ p.remaining_time ∧
      (p.remaining_time = 0 ↔ p.state = PState.Terminated)) ∧
    (∀ x t, firstExecOf s x = some t →
      ∀ n, firstExecOf (tick^[n] s) x = some t) := by
  have hI := reachable_inv s h
  refine ⟨hI.remBounds, ?_⟩
  intro x t hx n
  have hstep : ∀ n, Reachable (tick^[n] s) ∧ firstExecOf (tick^[n] s) x = some t := by
    intro n
    induction n with
    | zero => exact ⟨h, hx⟩
    | succ n ih =>
      rw [Function.iterate_succ_apply']
      exact ⟨Reachable.step _ ih.1,
        (tick_inv _ (reachable_inv _ ih.1)).2.2.2.2.1 x t ih.2⟩
  exact (hstep n).2

theorem rem_time_first_exec_spec_witness :
    firstExecOf (tick^[2] (tick (initState [⟨1, 10, 0, 5⟩] [⟨1, 100, 100⟩] 1))) 1 =
      some 0 :=
  (rem_time_first_exec_spec _ (Reachable.step _
    (Reachable.init [⟨1, 10, 0, 5⟩] [⟨1, 100, 100⟩] 1 (by decide)))).2 1 0
    (by decide) 2

/-- C10: in every reachable state the weak Process↔Partition reference pair is
mutually consistent in both directions, Executing processes and ready-queue
members hold a partition, preemption keeps the preempted process's partition
assigned, and over a tick an occupied partition stays occupied by the same
process unless that process has terminated. -/
theorem ref_pair_spec (s : SimState) (h : Reachable s) :
    (∀ p ∈ s.procs, ∀ bid, p.partition = some bid →
      ∃ q ∈ s.partitions, q.id = bid ∧ q.process = some p.id) ∧
    (∀ q ∈ s.partitions, ∀ x, q.process = some x →
      ∃ p ∈ s.procs, p.id = x ∧ p.partition = some q.id) ∧
    (∀ p ∈ s.procs, p.state = PState.Executing → p.partition ≠ none) ∧
    (∀ x ∈ s.ready_queue, ∃ p, lookupProc s x = some p ∧ p.partition ≠ none) ∧
    (∀ c cur, s.current_process = some c → lookupProc s c = some cur →
      ∃ cur', lookupProc (preempt_phase s) c = some cur' ∧
        cur'.partition = cur.partition) ∧
    (∀ b x, partProcOf s b = some (some x) →
      partProcOf (tick s) b = some (some x) ∨
        stateOf (tick s) x = some PState.Terminated) := by
  have hI := reachable_inv s h
  refine ⟨hI.backProc, hI.backPart, ?_, ?_, ?_, (tick_inv s hI).2.2.2.2.2⟩
  · intro p hp hst
    exact hI.partSome p hp (Or.inr hst)
  · intro x hx
    obtain ⟨p, hp, hst⟩ := stateOf_some_lookup (hI.stateReady x hx)
    exact ⟨p, hp, hI.partSome p (lookupProc_mem hp).1 (Or.inl hst)⟩
  · intro c cur hc hcur
    by_cases hsp : should_preempt s = true
    · have he := preempt_phase_eq s c hsp hc
      rw [he]
      refine ⟨{ cur with state := PState.Ready }, ?_, rfl⟩
      show lookupProc (updateProc s c
        (fun p0 => { p0 with state := PState.Ready })) c = _
      rw [@lookupProc_updateProc_self s c
        (fun p0 => { p0 with state := PState.Ready }) (fun p0 => rfl), hcur]
      rfl
    · have he : preempt_phase s = s := by
        unfold preempt_phase
        rw [if_neg hsp]
      rw [he]
      exact ⟨cur, hcur, rfl⟩

theorem ref_pair_spec_witness :
    partProcOf (tick (tick (initState [⟨1, 10, 0, 5⟩] [⟨1, 100, 100⟩] 1))) 1 =
        some (some 1) ∨
      stateOf (tick (tick (initState [⟨1, 10, 0, 5⟩] [⟨1, 100, 100⟩] 1))) 1 =
        some PState.Terminated :=
  (ref_pair_spec _ (Reachable.step _
    (Reachable.init [⟨1, 10, 0, 5⟩] [⟨1, 100, 100⟩] 1 (by decide)))).2.2.2.2.2 1 1
    (by decide)

end Simulador

namespace Simulador

/-! ### The store never grows or shrinks: every phase preserves the number of
process records, which ties the loop bound `total` to the store. -/

theorem procs_length_updateProc (s : SimState) (pid : Nat) (f : Process → Process) :
    (updateProc s pid f).procs.length = s.procs.length := by
  unfold updateProc
  exact List.length_map _ _

theorem free_op_len (s : SimState) (bid : Nat) :
    (partition_free_op s bid).2.procs.length = s.procs.length := by
  unfold partition_free_op
  split
  · rfl
  · split
    · rfl
    · show (updateProc s _ _).procs.length = _
      rw [procs_length_updateProc]

theorem assign_len (s : SimState) (bid pid : Nat) :
    (assign_process s bid pid).2.procs.length = s.procs.length := by
  unfold assign_process
  split
  · split
    · rfl
    · split
      · rfl
      · show (updateProc (updatePart s bid _) pid _).procs.length = _
        rw [procs_length_updateProc]
        rfl
  · rfl

theorem allocate_len (s : SimState) (pid : Nat) :
    (allocate_process s pid).2.procs.length = s.procs.length := by
  unfold allocate_process
  split
  · rfl
  · split
    · rfl
    · next p q _ =>
      show (updateProc (assign_process (if partition_is_free q = true then s
          else match partition_free_op s q.id with
            | (none, s') => s'
            | (some oid, s') => updateProc s' oid (fun p0 =>
                { p0 with state := PState.Suspended, partition := none }))
          q.id pid).2 pid (fun p0 => { p0 with state := PState.Ready })).procs.length =
        s.procs.length
      rw [procs_length_updateProc, assign_len]
      split
      · rfl
      · split
        · next s' heq =>
          have h0 := free_op_len s q.id
          rw [heq] at h0
          exact h0
        · next oid s' heq =>
          rw [procs_length_updateProc]
          have h0 := free_op_len s q.id
          rw [heq] at h0
          exact h0

theorem free_process_len (s : SimState) (pid : Nat) :
    (free_process s pid).procs.length = s.procs.length := by
  unfold free_process
  split
  · rfl
  · split
    · rfl
    · next p bid _ =>
      rw [procs_length_updateProc]
      exact free_op_len s bid

theorem tlm_len (s : SimState) (pid : Nat) :
    (try_load_to_memory s pid).procs.length = s.procs.length := by
  rcases tlm_char s pid with ⟨_, he⟩ | ⟨_, _, he⟩
  · rw [he]
    show (updateProc s pid _).procs.length = _
    rw [procs_length_updateProc]
  · rw [he]
    show (allocate_process s pid).2.procs.length = _
    exact allocate_len s pid

theorem fold_updateProc_len (f : Process → Process) :
    ∀ (l : List Nat) (s : SimState),
    (l.foldl (fun st pid => updateProc st pid f) s).procs.length =
      s.procs.length := by
  intro l
  induction l with
  | nil => intro s; rfl
  | cons pid rest ih =>
    intro s
    show (rest.foldl _ (updateProc s pid f)).procs.length = _
    rw [ih (updateProc s pid f), procs_length_updateProc]

theorem tlm_fold_len : ∀ (l : List Nat) (s : SimState),
    (l.foldl (fun st pid => try_load_to_memory st pid) s).procs.length =
      s.procs.length := by
  intro l
  induction l with
  | nil => intro s; rfl
  | cons pid rest ih =>
    intro s
    show (rest.foldl _ (try_load_to_memory s pid)).procs.length = _
    rw [ih (try_load_to_memory s pid), tlm_len]

theorem arrive_len (s : SimState) :
    (arrive_new_processes s).procs.length = s.procs.length := by
  unfold arrive_new_processes
  rw [tlm_fold_len, fold_updateProc_len]

theorem go_len {degree : Nat} : ∀ (pending : List Nat) (dom : Nat) (s : SimState)
    (acc : List Nat),
    (try_load_suspended_go degree pending dom s acc).1.procs.length =
      s.procs.length := by
  intro pending
  induction pending with
  | nil => intro dom s acc; rfl
  | cons pid rest ih =>
    intro dom s acc
    rw [try_load_suspended_go]
    split
    · rfl
    · split
      · next s1 heq =>
        rw [ih]
        show s1.procs.length = _
        have h0 := allocate_len s pid
        rw [heq] at h0
        exact h0
      · next s1 heq =>
        rw [ih]
        have h0 := allocate_len s pid
        rw [heq] at h0
        exact h0

theorem tls_len (s : SimState) :
    (try_load_suspended s).procs.length = s.procs.length := by
  unfold try_load_suspended
  split
  · rfl
  · show (try_load_suspended_go _ _ _ s []).1.procs.length = _
    exact go_len s.suspended_queue (current_dom s) s []

theorem preempt_len (s : SimState) :
    (preempt_phase s).procs.length = s.procs.length := by
  unfold preempt_phase
  split
  · split
    · next pid s1 heq =>
      show s1.procs.length = _
      have h0 : (preempt_current s).2.procs.length = s.procs.length := by
        unfold preempt_current
        split
        · rfl
        · show (updateProc s _ _).procs.length = _
          rw [procs_length_updateProc]
      rw [heq] at h0
      exact h0
    · next s1 heq =>
      have h0 : (preempt_current s).2.procs.length = s.procs.length := by
        unfold preempt_current
        split
        · rfl
        · show (updateProc s _ _).procs.length = _
          rw [procs_length_updateProc]
      rw [heq] at h0
      exact h0
  · rfl

theorem selection_len (s : SimState) :
    (selection_phase s).procs.length = s.procs.length := by
  unfold selection_phase
  split
  · rfl
  · split
    · rfl
    · next pid _ =>
      show (start_execution (match lookupProc s pid with
        | some p =>
          if p.first_execution_time = none then
            updateProc s pid (fun p0 =>
              { p0 with first_execution_time := some s.clock })
          else s
        | none => s) pid).procs.length = s.procs.length
      unfold start_execution
      show (updateProc _ pid _).procs.length = _
      rw [procs_length_updateProc]
      split
      · split
        · rw [procs_length_updateProc]
        · rfl
      · rfl

theorem schedule_len (s : SimState) :
    (schedule_process s).procs.length = s.procs.length := by
  show (selection_phase (preempt_phase s)).procs.length = _
  rw [selection_len, preempt_len]

theorem wait_len (s : SimState) :
    (update_wait_times s).procs.length = s.procs.length := by
  unfold update_wait_times
  rw [fold_updateProc_len]

theorem sim_execute_len (s : SimState) :
    (sim_execute_tick s).procs.length = s.procs.length := by
  have hsched : ∀ r, sched_execute_tick s = r → r.2.procs.length = s.procs.length := by
    intro r hr
    have h0 : (sched_execute_tick s).2.procs.length = s.procs.length := by
      unfold sched_execute_tick
      split
      · rfl
      · split
        · rfl
        · split
          · show (updateProc (updateProc s _ _) _ _).procs.length = _
            rw [procs_length_updateProc, procs_length_updateProc]
          · show (updateProc s _ _).procs.length = _
            rw [procs_length_updateProc]
    rw [hr] at h0
    exact h0
  unfold sim_execute_tick
  split
  · next s1 heq => exact hsched (none, s1) heq
  · next c s1 heq =>
    have h1 : s1.procs.length = s.procs.length := hsched (some c, s1) heq
    split
    · exact h1
    · split
      · show (free_process (updateProc (updateProc s1 _ _) _ calculate_statistics)
          _).procs.length = _
        rw [free_process_len, procs_length_updateProc, procs_length_updateProc]
        exact h1
      · exact h1

theorem tick_len (s : SimState) : (tick s).procs.length = s.procs.length := by
  show (sim_execute_tick (update_wait_times (schedule_process
    (try_load_suspended (arrive_new_processes s))))).procs.length = _
  rw [sim_execute_len, wait_len, schedule_len, tls_len, arrive_len]

end Simulador

namespace Simulador

/-- The invariant never mentions the warning flag. -/
theorem inv_set_incomplete (s : SimState) (hI : Inv s) (b : Bool) :
    Inv { s with incomplete := b } :=
  { pidsNodup := hI.pidsNodup, bidsNodup := hI.bidsNodup,
    nodupAll := hI.nodupAll, nodupReady := hI.nodupReady,
    nodupSusp := hI.nodupSusp, nodupTerm := hI.nodupTerm,
    disjAllReady := hI.disjAllReady, disjAllSusp := hI.disjAllSusp,
    disjAllTerm := hI.disjAllTerm, disjReadySusp := hI.disjReadySusp,
    disjReadyTerm := hI.disjReadyTerm, disjSuspTerm := hI.disjSuspTerm,
    curNotAll := hI.curNotAll, curNotReady := hI.curNotReady,
    curNotSusp := hI.curNotSusp, curNotTerm := hI.curNotTerm,
    stateAll := hI.stateAll, stateReady := hI.stateReady,
    stateSusp := hI.stateSusp, stateTerm := hI.stateTerm,
    stateCur := hI.stateCur, remBounds := hI.remBounds,
    partNone := hI.partNone, partSome := hI.partSome,
    backProc := hI.backProc, backPart := hI.backPart }

/-- Counting argument: when the terminated queue is as long as the whole
store, every process record is Terminated. -/
theorem all_terminated_of_count (s : SimState) (hI : Inv s)
    (hlen : s.procs.length ≤ s.terminated_queue.length) :
    ∀ p ∈ s.procs, p.state = PState.Terminated := by
  have hsub : ∀ x ∈ s.terminated_queue, x ∈ s.procs.map Process.id := by
    intro x hx
    obtain ⟨p, hp, _⟩ := stateOf_some_lookup (hI.stateTerm x hx)
    exact List.mem_map.2 ⟨p, (lookupProc_mem hp).1, (lookupProc_mem hp).2⟩
  have h1 : s.terminated_queue.toFinset ⊆ (s.procs.map Process.id).toFinset := by
    intro x hx
    exact List.mem_toFinset.2 (hsub x (List.mem_toFinset.1 hx))
  have hc1 : s.terminated_queue.toFinset.card = s.terminated_queue.length :=
    List.toFinset_card_of_nodup hI.nodupTerm
  have hc2 : (s.procs.map Process.id).toFinset.card =
      (s.procs.map Process.id).length :=
    List.toFinset_card_of_nodup hI.pidsNodup
  have hle2 : (s.procs.map Process.id).toFinset.card ≤
      s.terminated_queue.toFinset.card := by
    rw [hc1, hc2, List.length_map]
    exact hlen
  have heq : s.terminated_queue.toFinset = (s.procs.map Process.id).toFinset :=
    Finset.eq_of_subset_of_card_le h1 hle2
  intro p hp
  have hpmemid : p.id ∈ s.procs.map Process.id := List.mem_map.2 ⟨p, hp, rfl⟩
  have hpterm : p.id ∈ s.terminated_queue := by
    have h2 : p.id ∈ (s.procs.map Process.id).toFinset := List.mem_toFinset.2 hpmemid
    rw [← heq] at h2
    exact List.mem_toFinset.1 h2
  obtain ⟨p', hp', hst⟩ := stateOf_some_lookup (hI.stateTerm p.id hpterm)
  have hself := lookupProc_of_mem_nodup hI.pidsNodup hp
  rw [hself] at hp'
  cases Option.some.inj hp'
  exact hst

/-- The main loop stops only when every process is accounted for in the
terminated queue or the 1000-tick safety bound fires; the invariant, the
store size and the clock bound ride along. -/
theorem runLoop_post (total : Nat) : ∀ (n : Nat) (s : SimState),
    1000 - s.clock ≤ n → Inv s → s.clock ≤ 1000 →
    Inv (runLoop total s) ∧
    (runLoop total s).procs.length = s.procs.length ∧
    (runLoop total s).clock ≤ 1000 ∧
    ((total ≤ (runLoop total s).terminated_queue.length ∧
        (runLoop total s).incomplete = s.incomplete) ∨
      ((runLoop total s).clock = 1000 ∧ (runLoop total s).incomplete = true)) := by
  intro n
  induction n with
  | zero =>
    intro s hn hI hclk
    have hc : s.clock = 1000 := by omega
    rw [runLoop]
    split
    · rw [if_pos (by omega)]
      exact ⟨inv_set_incomplete s hI true, rfl, by show s.clock ≤ 1000; omega,
        Or.inr ⟨hc, rfl⟩⟩
    · next h =>
      exact ⟨hI, rfl, hclk, Or.inl ⟨by omega, rfl⟩⟩
  | succ n ih =>
    intro s hn hI hclk
    rw [runLoop]
    split
    · by_cases hb : 1000 ≤ s.clock
      · rw [if_pos hb]
        exact ⟨inv_set_incomplete s hI true, rfl, by show s.clock ≤ 1000; omega,
          Or.inr ⟨by show s.clock = 1000; omega, rfl⟩⟩
      · rw [if_neg hb]
        obtain ⟨T1, Tclk, _Tdeg, Tinc, _Tfe, _Tpart⟩ := tick_inv s hI
        obtain ⟨I1, Ilen, Iclk, Ipost⟩ := ih (tick s) (by omega) T1 (by omega)
        refine ⟨I1, ?_, Iclk, ?_⟩
        · rw [Ilen, tick_len]
        · rcases Ipost with ⟨h1, h2⟩ | h
          · exact Or.inl ⟨h1, h2.trans Tinc⟩
          · exact Or.inr h
    · next h =>
      exact ⟨hI, rfl, hclk, Or.inl ⟨by omega, rfl⟩⟩

end Simulador

namespace Simulador

/-- C6: the run always stops — the loop exits only once every loaded process
is Terminated or the clock has hit the 1000-tick safety bound, in which case
the non-fatal `incomplete` warning is raised — and the final report still
carries a statistics row for every terminated process. -/
theorem run_terminates_spec (ps : List PInput) (bs : List BInput) (d : Nat)
    (hV : ValidInput ps bs) :
    (run (initState ps bs d)).1.clock ≤ 1000 ∧
    ((∀ p ∈ (run (initState ps bs d)).1.procs, p.state = PState.Terminated) ∨
      ((run (initState ps bs d)).1.clock = 1000 ∧
        (run (initState ps bs d)).1.incomplete = true)) ∧
    (run (initState ps bs d)).2 = statistics_report (run (initState ps bs d)).1 ∧
    (∀ x ∈ (run (initState ps bs d)).1.terminated_queue,
      stateOf (run (initState ps bs d)).1 x = some PState.Terminated ∧
      ∃ row ∈ (run (initState ps bs d)).2, row.1 = x) := by
  have hI0 := init_inv ps bs d hV
  obtain ⟨R1, Rlen, Rclk, Rpost⟩ :=
    runLoop_post (initState ps bs d).all_processes.length
      (1000 - (initState ps bs d).clock) (initState ps bs d) (le_refl _) hI0
      (Nat.zero_le 1000)
  have htot : (initState ps bs d).all_processes.length =
      (initState ps bs d).procs.length := List.length_map _ _
  refine ⟨Rclk, ?_, rfl, ?_⟩
  · rcases Rpost with ⟨h1, _⟩ | h
    · left
      intro p hp
      refine all_terminated_of_count
        (runLoop (initState ps bs d).all_processes.length (initState ps bs d))
        R1 ?_ p hp
      rw [Rlen, ← htot]
      exact h1
    · right
      exact h
  · intro x hx
    replace hx : x ∈ (runLoop (initState ps bs d).all_processes.length
      (initState ps bs d)).terminated_queue := hx
    have hst := R1.stateTerm x hx
    refine ⟨hst, ?_⟩
    obtain ⟨p, hp, hpst⟩ := stateOf_some_lookup hst
    refine ⟨stat_row p, ?_, ?_⟩
    · show stat_row p ∈ statistics_report
        (runLoop (initState ps bs d).all_processes.length (initState ps bs d))
      unfold statistics_report
      refine List.mem_map_of_mem _ ?_
      refine List.mem_filter.2 ⟨(lookupProc_mem hp).1, ?_⟩
      rw [hpst]
      rfl
    · show (calculate_statistics p).id = x
      rw [(calculate_statistics_fields p).1]
      exact (lookupProc_mem hp).2

theorem run_terminates_spec_witness :
    (run (initState [⟨1, 10, 0, 5⟩] [⟨1, 100, 100⟩] 1)).1.clock ≤ 1000 :=
  (run_terminates_spec [⟨1, 10, 0, 5⟩] [⟨1, 100, 100⟩] 1 (by decide)).1

end Simulador
